import Mathlib

/-!
# Recursive scraper: a shallow embedding of `RecursiveScraper`

Source: `mcp-universal-scraper/src/tools/recursive_scraper.js` and the tool
wrapper `mcp-universal-scraper/src/tools/recursive_scrape.js`.

* JavaScript strings are Lean `String`s; the string primitives used by the
  source (`includes`, `endsWith`, `toLowerCase`, `split`) are structural
  functions on the character list.
* `Map` and `Set` are insertion-ordered association lists / lists.
* JavaScript numbers that the source only uses as integers are `Int`.
* Node's `URL` class is not part of the repository: it is the parameter
  `URLApi`.  `SimpleURL.api` is a small concrete instance used to run the
  crawler on concrete inputs.
* The asynchronous workers are a step function over an explicit state; one
  step is one synchronous stretch of a worker between two `await`s.  A
  schedule is a list of events, each naming the worker that is resumed and,
  for a worker that awaits `scrapePage`, how that call ends.  Every
  interleaving of the workers is a schedule, so what is proved for all
  schedules holds for every execution of the event loop.
* Timestamps, logging and the monitor are not modelled.
* The post-processing of `recursive_scrape.js` (sitemap, statistics, duplicate
  detection) and the tool entry point `execute` follow the crawler.
-/

namespace RecursiveScraper

/-! ## String primitives -/

/-- Models `s.includes(pat)` on character lists. -/
def includesChars (pat : List Char) : List Char → Bool
  | [] => pat.isEmpty
  | c :: cs => pat.isPrefixOf (c :: cs) || includesChars pat cs

/-- Models `s.includes(pat)`. -/
def jsIncludes (s pat : String) : Bool := includesChars pat.data s.data

/-- Models `s.endsWith(pat)`. -/
def jsEndsWith (s pat : String) : Bool := pat.data.isSuffixOf s.data

/-- Models `s.startsWith(pat)`. -/
def jsStartsWith (s pat : String) : Bool := pat.data.isPrefixOf s.data

/-- Lower-casing of one character: `A`..`Z` to `a`..`z`. -/
def lowerChar (c : Char) : Char :=
  if 65 ≤ c.toNat ∧ c.toNat ≤ 90 then Char.ofNat (c.toNat + 32) else c

/-- Models `s.toLowerCase()`.  The source applies it to `URL.pathname`, which is an
ASCII string (the URL serializer percent-encodes everything else), where it
lowers exactly the letters `A`..`Z`. -/
def jsToLowerCase (s : String) : String := ⟨s.data.map lowerChar⟩

/-- Models `s.split(sep)` for a one-character separator, on character lists. -/
def splitOnChar (sep : Char) : List Char → List (List Char)
  | [] => [[]]
  | c :: cs =>
    if c = sep then [] :: splitOnChar sep cs
    else
      match splitOnChar sep cs with
      | [] => [[c]]
      | seg :: rest => (c :: seg) :: rest

/-! ## The URL class (external) -/

/-- The part of Node's `URL` class that the crawler uses.  `parse input base`
is `new URL(input, base)`, `none` when the constructor throws. -/
structure URLApi where
  /-- the type of URL objects -/
  U : Type
  /-- Models `new URL(input)` / `new URL(input, base)` -/
  parse : String → Option String → Option U
  /-- Models `u.protocol` -/
  protocol : U → String
  /-- Models `u.hostname` -/
  hostname : U → String
  /-- Models `u.host` -/
  host : U → String
  /-- Models `u.pathname` -/
  pathname : U → String
  /-- Models `u.href` -/
  href : U → String
  /-- Models `u.hash = ''` -/
  clearHash : U → U
  /-- Models `u.searchParams.delete(name)` -/
  deleteParam : U → String → U

/-! ## Frontier: `pendingUrls`, `visitedUrls` -/

/-- The value stored in `pendingUrls`: `{depth, priority}`. -/
structure PendingInfo where
  depth : Nat
  priority : Int
deriving DecidableEq, Repr

/-- Models `pendingUrls`: a JavaScript `Map` from URL to `{depth, priority}`, in
insertion order. -/
abbrev PendingMap := List (String × PendingInfo)

/-- Models `Map.prototype.has`. -/
def PendingMap.has (m : PendingMap) (url : String) : Bool :=
  m.any fun e => e.1 == url

/-- Models `Map.prototype.get`. -/
def PendingMap.get (m : PendingMap) (url : String) : Option PendingInfo :=
  (m.find? fun e => e.1 == url).map Prod.snd

/-- Models `Map.prototype.set`: an existing key keeps its position and gets the new
value, a new key is appended. -/
def PendingMap.set : PendingMap → String → PendingInfo → PendingMap
  | [], url, info => [(url, info)]
  | (k, v) :: rest, url, info =>
    if k = url then (k, info) :: rest else (k, v) :: PendingMap.set rest url info

/-- Models `Map.prototype.delete`. -/
def PendingMap.delete (m : PendingMap) (url : String) : PendingMap :=
  m.filter fun e => e.1 != url

/-- Models `Set.prototype.add` on an insertion-ordered set. -/
def setAdd (s : List String) (x : String) : List String :=
  if x ∈ s then s else s ++ [x]

/-- Models `Set.prototype.delete`. -/
def setDelete (s : List String) (x : String) : List String :=
  s.filter fun y => y != x

/-- Models `addUrlToPending(url, depth, priority)` (lines 370-376), on the pair
`(pendingUrls, maxPages)`. -/
def addUrlToPending (pending : PendingMap) (maxPages : Int)
    (url : String) (depth : Nat) (priority : Int) : PendingMap :=
  if (pending.length : Int) ≥ maxPages * 2 then pending
  else pending.set url ⟨depth, priority⟩

/-- The `for ... of this.pendingUrls` loop of `getNextUrl` (lines 384-392):
the state is `(bestUrl, bestPriority)`. -/
def bestLoop : PendingMap → Option String × Int → Option String × Int
  | [], acc => acc
  | (url, info) :: rest, (bestUrl, bestPriority) =>
    if info.priority > bestPriority then bestLoop rest (some url, info.priority)
    else bestLoop rest (bestUrl, bestPriority)

/-- What `getNextUrl` returns: `{url, depth, priority}`. -/
structure UrlInfo where
  url : String
  depth : Nat
  priority : Int
deriving DecidableEq, Repr

/-- Models `getNextUrl()` (lines 378-401): the returned value (`none` for `null`)
and the new `pendingUrls`.  `if (bestUrl)` is false for `null` and for the
empty string. -/
def getNextUrl (pending : PendingMap) : Option UrlInfo × PendingMap :=
  if pending.length = 0 then (none, pending)
  else
    match (bestLoop pending (none, -1)).1 with
    | none => (none, pending)
    | some bestUrl =>
      if bestUrl = "" then (none, pending)
      else
        match pending.get bestUrl with
        | some info => (some ⟨bestUrl, info.depth, info.priority⟩, pending.delete bestUrl)
        | none => (none, pending)

/-! ## Link filtering and priority -/

/-- Models `excludeExtensions` (line 321). -/
def excludeExtensions : List String :=
  [".pdf", ".doc", ".docx", ".xls", ".xlsx", ".zip", ".rar", ".exe"]

/-- Models `excludePatterns` (line 328). -/
def excludePatterns : List String :=
  ["/admin", "/login", "/logout", "/signup", "/register", "/api/"]

/-- Models `shouldFollowLink(linkUrl, baseDomain)` (lines 309-334). -/
def shouldFollowLink (api : URLApi) (linkUrl : api.U) (baseDomain : String) : Bool :=
  if !(["http:", "https:"].contains (api.protocol linkUrl)) then false
  else if api.hostname linkUrl != baseDomain then false
  else
    let pathname := jsToLowerCase (api.pathname linkUrl)
    if excludeExtensions.any fun ext => jsEndsWith pathname ext then false
    else if excludePatterns.any fun pattern => jsIncludes pathname pattern then false
    else true

/-- Models `highPriorityPatterns` (line 340). -/
def highPriorityPatterns : List String :=
  ["/docs", "/documentation", "/help", "/support", "/api"]

/-- Models `lowPriorityPatterns` (line 346). -/
def lowPriorityPatterns : List String :=
  ["/contact", "/about", "/privacy", "/terms"]

/-- Models `linkUrl.pathname.split('/').filter(p => p).length` (line 352). -/
def pathDepth (pathname : String) : Nat :=
  ((splitOnChar '/' pathname.data).filter fun p => !p.isEmpty).length

/-- Models `calculateLinkPriority(link, linkUrl, baseUrl)` (lines 336-358); the
arguments `link` and `baseUrl` are not read by the body. -/
def calculateLinkPriority (api : URLApi) (linkUrl : api.U) : Int :=
  let p0 : Int := 5
  let p1 := if highPriorityPatterns.any fun pattern => jsIncludes (api.pathname linkUrl) pattern
    then p0 + 3 else p0
  let p2 := if lowPriorityPatterns.any fun pattern => jsIncludes (api.pathname linkUrl) pattern
    then p1 - 2 else p1
  let p3 := if pathDepth (api.pathname linkUrl) ≤ 2 then p2 + 1 else p2
  max 1 (min 10 p3)

/-- Models `normalizeUrl(url)` (lines 360-368); `none` when `new URL(url)` throws. -/
def normalizeUrl (api : URLApi) (url : String) : Option String :=
  match api.parse url none with
  | none => none
  | some urlObj =>
    let u1 := api.clearHash urlObj
    let u2 := api.deleteParam u1 "utm_source"
    let u3 := api.deleteParam u2 "utm_medium"
    let u4 := api.deleteParam u3 "utm_campaign"
    some (api.href u4)

/-! ## Robots rules -/

/-- The `rules` object stored in `robotsCache`.  The fail-open entry
`{ allowAll: true }` has no `disallowed` list; it is never read there. -/
structure RobotsRules where
  allowAll : Bool
  disallowed : List String
  crawlDelay : Int
deriving DecidableEq, Repr

/-- Models `robotsCache`: a `Map` from `URL.host` to rules. -/
abbrev RobotsCache := List (String × RobotsRules)

/-- Models `robotsCache.get(host)`. -/
def RobotsCache.get (c : RobotsCache) (host : String) : Option RobotsRules :=
  (c.find? fun e => e.1 == host).map Prod.snd

/-- Models `robotsCache.set(host, rules)`. -/
def RobotsCache.set : RobotsCache → String → RobotsRules → RobotsCache
  | [], host, rules => [(host, rules)]
  | (k, v) :: rest, host, rules =>
    if k = host then (k, rules) :: rest else (k, v) :: RobotsCache.set rest host rules

/-- Models `isAllowedByRobots(url)` (lines 472-484); `none` when `new URL(url)`
throws. -/
def isAllowedByRobots (api : URLApi) (cache : RobotsCache) (url : String) : Option Bool :=
  match api.parse url none with
  | none => none
  | some urlObj =>
    match cache.get (api.host urlObj) with
    | none => some true
    | some rules =>
      if rules.allowAll then some true
      else some (!(rules.disallowed.any fun pattern =>
        if pattern = "/" then true else jsStartsWith (api.pathname urlObj) pattern))

/-! ## Crawler state -/

/-- One element of `content.links`: `{href, text}`. -/
structure Link where
  href : String
  text : String
deriving DecidableEq, Repr

/-- The `content` object of a scraped page, as far as the crawler reads it.
`links = none` stands for a `links` field that is missing or not an array. -/
structure Content where
  text : String
  links : Option (List Link)
deriving DecidableEq, Repr

/-- An element of `results` (the `timestamp` is not modelled). -/
structure PageResult where
  url : String
  depth : Nat
  content : Content
deriving DecidableEq, Repr

/-- An element of `errors` (the `timestamp` is not modelled). -/
structure CrawlError where
  url : String
  depth : Nat
  error : String
deriving DecidableEq, Repr

/-- How a call of `scrapePage(url, ...)` ends: `{success: true, content}`,
`{success: false, error}`, or a rejection (`chromium.launch` is outside the
`try` of `scrapePage`). -/
inductive FetchOutcome where
  | success (content : Content)
  | failure (error : String)
  | threw (error : String)
deriving DecidableEq, Repr

/-- Where a worker stands between two synchronous stretches. -/
inductive Pc where
  /-- about to evaluate the `while` condition: at start, after `sleep(100)`
  and after `sleep(this.delay)` -/
  | ready
  /-- inside `processUrl`, awaiting `isAllowedByRobots(url)`, whose value
  (`none`: it threw) is already computed -/
  | awaitRobots (url : String) (depth : Nat) (allowed : Option Bool)
  /-- inside `processUrl`, awaiting `scrapePage(url, ...)` -/
  | fetching (url : String) (depth : Nat)
  /-- inside `processUrl`, awaiting the promise of `extractAndQueueLinks` -/
  | extracted (url : String)
  /-- the `while` loop has ended -/
  | finished
deriving DecidableEq, Repr

/-- The fields of a `RecursiveScraper` object together with the program
points of the workers started by `processUrlsConcurrently`. -/
structure Scraper where
  maxDepth : Int
  maxPages : Int
  delay : Int
  concurrency : Int
  respectRobotsTxt : Bool
  visitedUrls : List String
  pendingUrls : PendingMap
  results : List PageResult
  errors : List CrawlError
  robotsCache : RobotsCache
  activeScraping : List String
  workers : List Pc
deriving DecidableEq, Repr

/-- The body of the `for (const link of content.links)` loop of
`extractAndQueueLinks` (lines 286-305); every exception is swallowed by the
`catch`. -/
def queueLink (api : URLApi) (baseUrl domain : String) (nextDepth : Nat)
    (s : Scraper) (link : Link) : Scraper :=
  match api.parse link.href (some baseUrl) with
  | none => s
  | some linkUrl =>
    if !shouldFollowLink api linkUrl domain then s
    else
      match normalizeUrl api (api.href linkUrl) with
      | none => s
      | some normalizedUrl =>
        if !(s.visitedUrls.contains normalizedUrl) && !(s.pendingUrls.has normalizedUrl) then
          { s with pendingUrls := (addUrlToPending s.pendingUrls s.maxPages normalizedUrl
              nextDepth (calculateLinkPriority api linkUrl)) }
        else s

/-- Models `extractAndQueueLinks(baseUrl, content, nextDepth)` (lines 277-307);
`none` when `new URL(baseUrl)` throws. -/
def extractAndQueueLinks (api : URLApi) (s : Scraper) (baseUrl : String)
    (content : Content) (nextDepth : Nat) : Option Scraper :=
  match content.links with
  | none => some s
  | some links =>
    match api.parse baseUrl none with
    | none => none
    | some baseUrlObj =>
      some (links.foldl (queueLink api baseUrl (api.hostname baseUrlObj) nextDepth) s)

/-- Models `shouldContinueProcessing()` (lines 403-408). -/
def shouldContinueProcessing (s : Scraper) : Bool :=
  decide ((s.results.length : Int) < s.maxPages) &&
    (decide (s.pendingUrls.length > 0) || decide (s.activeScraping.length > 0))

/-- The start of `processUrl(url, depth, ...)` up to its first `await`
(lines 142-160). -/
def processUrlStart (api : URLApi) (s : Scraper) (url : String) (depth : Nat) :
    Scraper × Pc :=
  if s.visitedUrls.contains url then (s, Pc.ready)
  else
    let s1 := { s with visitedUrls := setAdd s.visitedUrls url,
                       activeScraping := setAdd s.activeScraping url }
    if s1.respectRobotsTxt then
      (s1, Pc.awaitRobots url depth (isAllowedByRobots api s1.robotsCache url))
    else (s1, Pc.fetching url depth)

/-- One pass of a worker from the `while` test to its next `await` (lines
110-122). -/
def loopTop (api : URLApi) (s : Scraper) : Scraper × Pc :=
  if !shouldContinueProcessing s then (s, Pc.finished)
  else
    match getNextUrl s.pendingUrls with
    | (none, _) => (s, Pc.ready)
    | (some urlInfo, pending) =>
      processUrlStart api { s with pendingUrls := pending } urlInfo.url urlInfo.depth

/-- An exception leaves `processUrl`: its `finally` runs, the `catch` of the
worker records the error (lines 124-136, 180-182) and the loop goes on. -/
def workerCatch (api : URLApi) (s : Scraper) (url : String) (depth : Nat)
    (error : String) : Scraper × Pc :=
  loopTop api { s with activeScraping := setDelete s.activeScraping url,
                       errors := s.errors ++ [⟨url, depth, error⟩] }

/-- Models `processUrl` after `scrapePage` has settled (lines 160-182). -/
def afterFetch (api : URLApi) (s : Scraper) (url : String) (depth : Nat) :
    FetchOutcome → Scraper × Pc
  | FetchOutcome.success content =>
    let s1 := { s with results := s.results ++ [⟨url, depth, content⟩] }
    if (depth : Int) < s1.maxDepth then
      match extractAndQueueLinks api s1 url content (depth + 1) with
      | some s2 => (s2, Pc.extracted url)
      | none => workerCatch api s1 url depth "Invalid URL"
    else ({ s1 with activeScraping := setDelete s1.activeScraping url }, Pc.ready)
  | FetchOutcome.failure error =>
    ({ s with errors := s.errors ++ [⟨url, depth, error⟩],
              activeScraping := setDelete s.activeScraping url }, Pc.ready)
  | FetchOutcome.threw error => workerCatch api s url depth error

/-- The synchronous stretch a worker runs when it is resumed at `pc`; the
outcome is read only by a worker that awaits `scrapePage`. -/
def workerStep (api : URLApi) (s : Scraper) (outcome : FetchOutcome) : Pc → Scraper × Pc
  | Pc.ready => loopTop api s
  | Pc.awaitRobots url depth none => workerCatch api s url depth "Invalid URL"
  | Pc.awaitRobots url _ (some false) =>
    ({ s with activeScraping := setDelete s.activeScraping url }, Pc.ready)
  | Pc.awaitRobots url depth (some true) => (s, Pc.fetching url depth)
  | Pc.fetching url depth => afterFetch api s url depth outcome
  | Pc.extracted url =>
    ({ s with activeScraping := setDelete s.activeScraping url }, Pc.ready)
  | Pc.finished => (s, Pc.finished)

/-- A scheduling event: worker `worker` is resumed; `outcome` is what
`scrapePage` delivers if that is what the worker awaits. -/
structure Event where
  worker : Nat
  outcome : FetchOutcome
deriving DecidableEq, Repr

/-- One step of the crawl. -/
def step (api : URLApi) (s : Scraper) (e : Event) : Scraper :=
  match s.workers.get? e.worker with
  | none => s
  | some pc =>
    let r := workerStep api s e.outcome pc
    { r.1 with workers := r.1.workers.set e.worker r.2 }

/-- A run of the crawl under a schedule. -/
def run (api : URLApi) (s : Scraper) (events : List Event) : Scraper :=
  events.foldl (step api) s

/-- What the request for `robots.txt` in `loadRobotsTxt` yields: an OK
response (with the rules that the loop of `parseRobotsTxt` builds from its
body), a non-OK response, or an exception inside the `try`. -/
inductive RobotsResponse where
  | ok (rules : RobotsRules)
  | notOk
  | threw
deriving DecidableEq, Repr

/-- Models `loadRobotsTxt(url)` (lines 410-431) with the tail of `parseRobotsTxt`
(lines 465-469); `none` when `new URL(url)` throws. -/
def loadRobotsTxt (api : URLApi) (s : Scraper) (url : String) (resp : RobotsResponse) :
    Option Scraper :=
  match api.parse url none with
  | none => none
  | some urlObj =>
    if (s.robotsCache.get (api.host urlObj)).isSome then some s
    else
      match resp with
      | RobotsResponse.ok rules =>
        let s1 := { s with robotsCache := s.robotsCache.set (api.host urlObj) rules }
        if rules.crawlDelay > 0 then
          some { s1 with delay := max s1.delay (rules.crawlDelay * 1000) }
        else some s1
      | RobotsResponse.notOk =>
        some { s with robotsCache := s.robotsCache.set (api.host urlObj) ⟨true, [], 0⟩ }
      | RobotsResponse.threw =>
        some { s with robotsCache := s.robotsCache.set (api.host urlObj) ⟨true, [], 0⟩ }

/-- Models `scrapeRecursively(startUrl, ...)` up to the creation of the workers
(lines 40-52 and 96-101); `none` when it ends in the `catch` branch
(`success: false`). -/
def startCrawl (api : URLApi) (s : Scraper) (startUrl : String) (resp : RobotsResponse) :
    Option Scraper :=
  let s1 := { s with visitedUrls := [], pendingUrls := [], results := [], errors := [] }
  let s2 := { s1 with pendingUrls := addUrlToPending s1.pendingUrls s1.maxPages startUrl 0 10 }
  let s3 := if s2.respectRobotsTxt then loadRobotsTxt api s2 startUrl resp else some s2
  s3.map fun s4 => { s4 with workers := List.replicate s4.concurrency.toNat Pc.ready }

/-- The crawl is complete: every worker has left its loop. -/
def completed (s : Scraper) : Bool := s.workers.all fun pc => pc == Pc.finished

/-! ## Configuration -/

/-- The JavaScript idiom `x || d` on an optional integer: `undefined` and
`0` give `d`. -/
def orDefault (x : Option Int) (d : Int) : Int :=
  match x with
  | none => d
  | some v => if v = 0 then d else v

/-- The tool arguments that reach the crawler. -/
structure Args where
  url : String
  maxDepth : Option Int
  maxPages : Option Int
  delay : Option Int
  concurrency : Option Int
  respectRobotsTxt : Option Bool
deriving DecidableEq, Repr

/-- The `config` object. -/
structure Config where
  maxDepth : Option Int
  maxPages : Option Int
  delay : Option Int
  concurrency : Option Int
  respectRobotsTxt : Option Bool
deriving DecidableEq, Repr

/-- The `config` built by `RecursiveScrapeConfig.execute` (lines 118-128 of
`recursive_scrape.js`). -/
def executeConfig (args : Args) : Config :=
  { maxDepth := some (orDefault args.maxDepth 3),
    maxPages := some (orDefault args.maxPages 100),
    delay := some (orDefault args.delay 1000),
    concurrency := some (orDefault args.concurrency 2),
    respectRobotsTxt := some (args.respectRobotsTxt != some false) }

/-- The constructor of `RecursiveScraper` (lines 9-27). -/
def construct (config : Config) : Scraper :=
  { maxDepth := orDefault config.maxDepth 3,
    maxPages := orDefault config.maxPages 100,
    delay := orDefault config.delay 1000,
    concurrency := orDefault config.concurrency 2,
    respectRobotsTxt := config.respectRobotsTxt != some false,
    visitedUrls := [], pendingUrls := [], results := [], errors := [],
    robotsCache := [], activeScraping := [], workers := [] }

/-! ## A concrete instance of the URL class

`SimpleURL` follows Node's `URL` on absolute URLs of the shape
`http(s)://host[:port][/path][?query][#fragment]` that need no rewriting by
the parser: a host of lower-case letters and dots, a port of four digits
that does not start with `0`, path segments of letters,
digits, `-`, `_`, `.` other than `.` and `..`, a non-empty query of such
characters with `=` and `&`, a non-empty fragment of such characters.  Every
other input is rejected; it is only used to run the crawler on concrete
inputs of that shape.  One difference remains inside that shape: a `=` inside
the value of a query pair (`?a=b=c`) is written back as it is by
`deleteParam`, where Node's serializer writes `%3D`; no input used below has
such a pair. -/

namespace SimpleURL

/-- A URL record: the components as the `URL` getters print them. -/
structure Obj where
  protocol : String
  hostname : String
  pathname : String
  search : String
  hash : String
  port : String
deriving DecidableEq, Repr

/-- Characters that the parser and the query serializer leave unchanged. -/
def plainChar (c : Char) : Bool :=
  c.isAlphanum || c == '-' || c == '_' || c == '.'

/-- Host names accepted: lower-case letters and single dots between them. -/
def hostOk (h : List Char) : Bool :=
  (splitOnChar '.' h).all fun label => !label.isEmpty && label.all Char.isLower

/-- Ports accepted: four digits, the first of them not `0`; no default port
and no leading zero, so the serializer prints the port as it was written. -/
def portOk (p : List Char) : Bool :=
  p.length == 4 && p.all Char.isDigit && p.head? != some '0'

/-- Paths accepted: empty, or `/`-separated segments without `.` and `..`. -/
def pathOk (p : List Char) : Bool :=
  (splitOnChar '/' p).all fun seg =>
    seg.all plainChar && seg != ['.'] && seg != ['.', '.']

/-- The scheme and what follows `//`. -/
def stripScheme (cs : List Char) : Option (String × List Char) :=
  if "http://".data.isPrefixOf cs then some ("http:", cs.drop 7)
  else if "https://".data.isPrefixOf cs then some ("https:", cs.drop 8)
  else none

/-- Models `new URL(input)` on the accepted shape. -/
def parseChars (cs : List Char) : Option Obj :=
  let beforeHash := cs.takeWhile fun c => c != '#'
  let hashPart := cs.dropWhile fun c => c != '#'
  let beforeQuery := beforeHash.takeWhile fun c => c != '?'
  let queryPart := beforeHash.dropWhile fun c => c != '?'
  match stripScheme beforeQuery with
  | none => none
  | some (protocol, rest) =>
    let authority := rest.takeWhile fun c => c != '/'
    let path := rest.dropWhile fun c => c != '/'
    let host := authority.takeWhile fun c => c != ':'
    let portPart := authority.dropWhile fun c => c != ':'
    let portGood := portPart.isEmpty || portOk (portPart.drop 1)
    let queryOk := queryPart.isEmpty ||
      (queryPart.length > 1 && (queryPart.drop 1).all fun c => plainChar c || c == '=' || c == '&')
    let hashOk := hashPart.isEmpty || (hashPart.length > 1 && (hashPart.drop 1).all plainChar)
    if hostOk host && portGood && pathOk path && queryOk && hashOk then
      some { protocol := protocol, hostname := ⟨host⟩,
             pathname := if path.isEmpty then "/" else ⟨path⟩,
             search := ⟨queryPart⟩, hash := ⟨hashPart⟩, port := ⟨portPart.drop 1⟩ }
    else none

/-- The name/value list of a query string (without its `?`). -/
def parseParams (q : List Char) : List (List Char × List Char) :=
  ((splitOnChar '&' q).filter fun piece => !piece.isEmpty).map fun piece =>
    (piece.takeWhile fun c => c != '=', (piece.dropWhile fun c => c != '=').drop 1)

/-- The serialization of a name/value list. -/
def serializeParams (ps : List (List Char × List Char)) : List Char :=
  ['&'].intercalate (ps.map fun nv => nv.1 ++ ['='] ++ nv.2)

/-- Models `u.searchParams.delete(name)`: the query is re-serialized from the
remaining pairs. -/
def deleteParam (u : Obj) (name : String) : Obj :=
  let ps := (parseParams (u.search.data.drop 1)).filter fun nv => nv.1 != name.data
  { u with search := if ps.isEmpty then "" else ⟨'?' :: serializeParams ps⟩ }

/-- Models `u.host`: the host name, followed by `:` and the port if there is
one. -/
def host (u : Obj) : String :=
  if u.port = "" then u.hostname else u.hostname ++ ":" ++ u.port

/-- Models `u.href`. -/
def href (u : Obj) : String :=
  u.protocol ++ "//" ++ host u ++ u.pathname ++ u.search ++ u.hash

/-- The instance: inputs are absolute, so the base is not consulted. -/
def api : URLApi :=
  { U := Obj,
    parse := fun input _ => parseChars input.data,
    protocol := Obj.protocol,
    hostname := Obj.hostname,
    host := host,
    pathname := Obj.pathname,
    href := href,
    clearHash := fun u => { u with hash := "" },
    deleteParam := deleteParam }

end SimpleURL

/-! ## The URL Standard, as far as normalization needs it

`URLView` names the parts of a URL record that `normalizeUrl` leaves alone or
edits, and `URLLawful` states how the `URL` class acts on them: the serializer
output parses back to the same record, `hash = ''` removes the fragment,
`searchParams.delete(name)` removes the pairs of that name and rewrites the
query from the remaining list. -/

/-- The parts of a URL record. -/
structure URLView (api : URLApi) where
  /-- the type of what precedes query and fragment -/
  Stem : Type
  /-- scheme, credentials, host, port and path -/
  stem : api.U → Stem
  /-- the name/value pairs of `searchParams` -/
  params : api.U → List (String × String)
  /-- the fragment, `none` if there is none -/
  fragment : api.U → Option String
  /-- the records that the parser and the setters produce -/
  Valid : api.U → Prop

/-- The laws of the `URL` class that normalization relies on. -/
structure URLLawful (api : URLApi) (view : URLView api) : Prop where
  valid_parse : ∀ input base u, api.parse input base = some u → view.Valid u
  valid_clearHash : ∀ u, view.Valid u → view.Valid (api.clearHash u)
  valid_deleteParam : ∀ u name, view.Valid u → view.Valid (api.deleteParam u name)
  parse_href : ∀ u, view.Valid u → api.parse (api.href u) none = some u
  stem_clearHash : ∀ u, view.stem (api.clearHash u) = view.stem u
  params_clearHash : ∀ u, view.params (api.clearHash u) = view.params u
  fragment_clearHash : ∀ u, view.fragment (api.clearHash u) = none
  stem_deleteParam : ∀ u name, view.stem (api.deleteParam u name) = view.stem u
  fragment_deleteParam : ∀ u name,
    view.fragment (api.deleteParam u name) = view.fragment u
  params_deleteParam : ∀ u name,
    view.params (api.deleteParam u name) = (view.params u).filter fun p => p.1 != name
  updated_ext : ∀ u v a b, view.Valid u → view.Valid v →
    view.stem (api.deleteParam u a) = view.stem (api.deleteParam v b) →
    view.params (api.deleteParam u a) = view.params (api.deleteParam v b) →
    view.fragment (api.deleteParam u a) = view.fragment (api.deleteParam v b) →
    api.deleteParam u a = api.deleteParam v b

/-- The pairs that `normalizeUrl` keeps: all but the three UTM parameters. -/
def notTracking (p : String × String) : Bool :=
  p.1 != "utm_source" && p.1 != "utm_medium" && p.1 != "utm_campaign"

namespace SimpleURL

/-- Characters of an accepted query. -/
def queryChar (c : Char) : Bool := plainChar c || c == '=' || c == '&'

/-- The records that `parseChars` and the setters produce. -/
def Valid (u : Obj) : Prop :=
  (u.protocol = "http:" ∨ u.protocol = "https:") ∧
  hostOk u.hostname.data = true ∧
  (u.port = "" ∨ portOk u.port.data = true) ∧
  (∃ rest, u.pathname.data = '/' :: rest) ∧
  pathOk u.pathname.data = true ∧
  (u.search = "" ∨ ∃ q, u.search.data = '?' :: q ∧ q ≠ [] ∧ q.all queryChar = true) ∧
  (u.hash = "" ∨ ∃ f, u.hash.data = '#' :: f ∧ f ≠ [] ∧ f.all plainChar = true)

/-- The view of a record: its stem is protocol, host name, port and path. -/
def view : URLView api :=
  { Stem := String × String × String × String,
    stem := fun u => (u.protocol, u.hostname, u.port, u.pathname),
    params := fun u =>
      (parseParams (u.search.data.drop 1)).map fun nv => (String.mk nv.1, String.mk nv.2),
    fragment := fun u => if u.hash = "" then none else some ⟨u.hash.data.drop 1⟩,
    Valid := Valid }

/-- A pair as `parseParams` returns it: no `=` in the name, no `&` in name
or value. -/
def CleanPair (nv : List Char × List Char) : Prop :=
  '=' ∉ nv.1 ∧ '&' ∉ nv.1 ∧ '&' ∉ nv.2

end SimpleURL

/-! ## Parsing of `robots.txt`

`parseRobotsTxt` lower-cases keys and agent names with `toLowerCase` and
compares the result with `user-agent`, `disallow`, `crawl-delay`, `*` and
`claudecode`.  The only character outside `A`..`Z` that `toLowerCase` maps
to a lower-case ASCII letter is the Kelvin sign (to `k`), and none of these
constants contains a `k`, so lowering `A`..`Z` alone (`jsToLowerCase`)
decides the same comparisons.  `parseInt` is modelled with exact integers;
JavaScript rounds values beyond `2^53`. -/

/-- The code points that `String.prototype.trim` and `parseInt` skip: the
ECMAScript `WhiteSpace` and `LineTerminator` characters. -/
def isJsWhitespace (c : Char) : Bool :=
  c.toNat == 9 || c.toNat == 10 || c.toNat == 11 || c.toNat == 12 || c.toNat == 13 ||
  c.toNat == 32 || c.toNat == 160 || c.toNat == 5760 ||
  (decide (8192 ≤ c.toNat) && decide (c.toNat ≤ 8202)) ||
  c.toNat == 8232 || c.toNat == 8233 || c.toNat == 8239 || c.toNat == 8287 ||
  c.toNat == 12288 || c.toNat == 65279

/-- Models `s.trim()` on character lists. -/
def trimChars (cs : List Char) : List Char :=
  ((cs.dropWhile isJsWhitespace).reverse.dropWhile isJsWhitespace).reverse

/-- Models `s.trim()`. -/
def jsTrim (s : String) : String := ⟨trimChars s.data⟩

/-- The value of a character as a digit of the given radix (10 or 16). -/
def digitValue (radix : Nat) (c : Char) : Option Nat :=
  if 48 ≤ c.toNat ∧ c.toNat ≤ 57 then some (c.toNat - 48)
  else if radix = 16 ∧ 97 ≤ c.toNat ∧ c.toNat ≤ 102 then some (c.toNat - 87)
  else if radix = 16 ∧ 65 ≤ c.toNat ∧ c.toNat ≤ 70 then some (c.toNat - 55)
  else none

/-- The digits of the longest prefix made of digits of the radix. -/
def digitsPrefix (radix : Nat) : List Char → List Nat
  | [] => []
  | c :: cs =>
    match digitValue radix c with
    | some v => v :: digitsPrefix radix cs
    | none => []

/-- The number written by a list of digits. -/
def digitsValue (radix : Nat) (ds : List Nat) : Nat :=
  ds.foldl (fun acc d => acc * radix + d) 0

/-- Models `parseInt(s)` for a string `s`; `none` stands for `NaN`.  Leading
white space is skipped, a sign and a `0x` prefix are read, then the longest
prefix of digits. -/
def jsParseInt (s : String) : Option Int :=
  let cs := s.data.dropWhile isJsWhitespace
  let signed : Int × List Char :=
    match cs with
    | '-' :: r => (-1, r)
    | '+' :: r => (1, r)
    | _ => (1, cs)
  let prefixed : Nat × List Char :=
    match signed.2 with
    | '0' :: 'x' :: r => (16, r)
    | '0' :: 'X' :: r => (16, r)
    | _ => (10, signed.2)
  let ds := digitsPrefix prefixed.1 prefixed.2
  if ds.isEmpty then none else some (signed.1 * (digitsValue prefixed.1 ds : Int))

/-- Models `parseInt(value) || 0` (line 460); `parseInt(undefined)` is `NaN`. -/
def crawlDelayOf (value : Option String) : Int :=
  match value with
  | none => 0
  | some v => (jsParseInt v).getD 0

/-- The variables of the loop of `parseRobotsTxt`: `currentUserAgent` (`none`
for `null`) and `rules`. -/
structure RobotsParseState where
  currentUserAgent : Option String
  rules : RobotsRules
deriving DecidableEq, Repr

/-- Models `trimmed.split(':').map(s => s.trim())` (line 447). -/
def lineFields (trimmed : String) : List String :=
  (splitOnChar ':' trimmed.data).map fun p => jsTrim ⟨p⟩

/-- The `key` of a line: the first field (there always is one). -/
def lineKey (line : String) : String := (lineFields (jsTrim line)).headD ""

/-- The `value` of a line: the second field, `none` for `undefined`. -/
def lineValue (line : String) : Option String := (lineFields (jsTrim line)).get? 1

/-- The test `currentUserAgent === '*' || currentUserAgent === 'claudecode'`
(line 451). -/
def agentApplies (currentUserAgent : Option String) : Bool :=
  currentUserAgent == some "*" || currentUserAgent == some "claudecode"

/-- One pass of the `for (const line of lines)` loop of `parseRobotsTxt`
(lines 443-463); `none` when `value.toLowerCase()` throws because the line
has no second field. -/
def robotsLine (st : RobotsParseState) (line : String) : Option RobotsParseState :=
  if jsStartsWith (jsTrim line) "#" || (jsTrim line).data.isEmpty then some st
  else if jsToLowerCase (lineKey line) = "user-agent" then
    match lineValue line with
    | none => none
    | some value => some { st with currentUserAgent := some (jsToLowerCase value) }
  else if agentApplies st.currentUserAgent then
    if jsToLowerCase (lineKey line) = "disallow" then
      match lineValue line with
      | none => some st
      | some value =>
        if value = "/" then
          some { st with rules := { st.rules with allowAll := false, disallowed := ["/"] } }
        else if value ≠ "" then
          some { st with rules := { st.rules with disallowed := st.rules.disallowed ++ [value] } }
        else some st
    else if jsToLowerCase (lineKey line) = "crawl-delay" then
      some { st with rules := { st.rules with crawlDelay := crawlDelayOf (lineValue line) } }
    else some st
  else some st

/-- The loop over the lines. -/
def robotsLines : RobotsParseState → List String → Option RobotsParseState
  | st, [] => some st
  | st, line :: rest =>
    match robotsLine st line with
    | none => none
    | some st2 => robotsLines st2 rest

/-- Models `robotsText.split('\n')` (line 440). -/
def textLines (robotsText : String) : List String :=
  (splitOnChar '\n' robotsText.data).map String.mk

/-- The state in which the loop starts (lines 434-441). -/
def robotsInit : RobotsParseState := ⟨none, ⟨false, [], 0⟩⟩

/-- The `rules` that the loop of `parseRobotsTxt` builds (lines 433-463);
`none` when it throws. -/
def parseRobotsRules (robotsText : String) : Option RobotsRules :=
  (robotsLines robotsInit (textLines robotsText)).map RobotsParseState.rules

/-- Models `parseRobotsTxt(host, robotsText)` (lines 433-470); `none` when it
throws. -/
def parseRobotsTxt (s : Scraper) (host : String) (robotsText : String) : Option Scraper :=
  match parseRobotsRules robotsText with
  | none => none
  | some rules =>
    let s1 := { s with robotsCache := s.robotsCache.set host rules }
    if rules.crawlDelay > 0 then
      some { s1 with delay := max s1.delay (rules.crawlDelay * 1000) }
    else some s1

/-- The response to the request of `loadRobotsTxt` when it is OK with body
`robotsText`: the rules parsed from it, or an exception inside the `try`. -/
def okResponse (robotsText : String) : RobotsResponse :=
  match parseRobotsRules robotsText with
  | some rules => RobotsResponse.ok rules
  | none => RobotsResponse.threw

/-! ## Invariants of the crawl: definitions -/

/-- The scraper `s2` is `s1` with entries appended to `pendingUrls`. -/
def PendingExt (s1 s2 : Scraper) : Prop :=
  ∃ added : PendingMap, s2 = { s1 with pendingUrls := s1.pendingUrls ++ added }

/-- The invariant on the shared fields: depths are bounded, visited URLs are
not pending, the frontier is capped and is a map. -/
structure SharedInv (s : Scraper) : Prop where
  pendingDepth : ∀ e ∈ s.pendingUrls, (e.2.depth : Int) ≤ max 0 s.maxDepth
  resultDepth : ∀ r ∈ s.results, (r.depth : Int) ≤ max 0 s.maxDepth
  disjoint : ∀ u ∈ s.visitedUrls, s.pendingUrls.has u = false
  size : (s.pendingUrls.length : Int) ≤ max 0 (s.maxPages * 2)
  keysNodup : (s.pendingUrls.map Prod.fst).Nodup

/-- The invariant on a worker: the URL it is processing is marked visited
and its depth is bounded. -/
def PcOk (s : Scraper) : Pc → Prop
  | Pc.awaitRobots url depth _ => (depth : Int) ≤ max 0 s.maxDepth ∧ url ∈ s.visitedUrls
  | Pc.fetching url depth => (depth : Int) ≤ max 0 s.maxDepth ∧ url ∈ s.visitedUrls
  | _ => True

/-- What a worker's stretch leaves alone. -/
structure Frame (s1 s2 : Scraper) : Prop where
  maxDepth : s2.maxDepth = s1.maxDepth
  maxPages : s2.maxPages = s1.maxPages
  workers : s2.workers = s1.workers
  visited : ∀ u ∈ s1.visitedUrls, u ∈ s2.visitedUrls

/-- The invariant of the whole crawl state. -/
def CrawlInv (s : Scraper) : Prop :=
  SharedInv s ∧ ∀ pc ∈ s.workers, PcOk s pc

/-- A worker at this point has dequeued a URL and may still record a result
for it. -/
def inFlight : Pc → Bool
  | Pc.awaitRobots _ _ _ => true
  | Pc.fetching _ _ => true
  | _ => false

/-- The results recorded and the fetches in flight together stay within
the budget left by the last test of `shouldContinueProcessing`. -/
def BudgetInv (s : Scraper) : Prop :=
  (s.results.length : Int) + (s.workers.countP inFlight : Nat)
    ≤ max 0 (s.maxPages - 1) + (s.workers.length : Nat)

/-- The priorities of the frontier lie in `[1,10]`. -/
def PriorityInv (s : Scraper) : Prop :=
  ∀ e ∈ s.pendingUrls, 1 ≤ e.2.priority ∧ e.2.priority ≤ 10

/-! ## Concrete crawls

Runs of the crawler over `SimpleURL.api` on the site `a.com`.  An event whose
worker does not await `scrapePage` carries an outcome that is not read. -/

namespace Example

/-- Worker `w` is resumed (timer or settled promise other than `scrapePage`). -/
def resume (w : Nat) : Event := ⟨w, FetchOutcome.failure ""⟩

/-- The `scrapePage` call awaited by worker `w` succeeds with `content`. -/
def deliver (w : Nat) (content : Content) : Event := ⟨w, FetchOutcome.success content⟩

/-- The state in which `scrapeRecursively` starts its workers, for a seed
whose `robots.txt` request is answered by a non-OK response. -/
def start (config : Config) (startUrl : String) : Scraper :=
  (startCrawl SimpleURL.api (construct config) startUrl RobotsResponse.notOk).getD
    (construct config)

/-- The home page: it links to `/b` and `/c`. -/
def homePage : Content :=
  ⟨"home", some [⟨"http://a.com/b", "b"⟩, ⟨"http://a.com/c", "c"⟩]⟩

/-- A page without links. -/
def leafPage : Content := ⟨"leaf", some []⟩

/-- A page that links to `/d`. -/
def pageToD : Content := ⟨"c", some [⟨"http://a.com/d", "d"⟩]⟩

/-- A page that links to the home page. -/
def pageToHome : Content := ⟨"top", some [⟨"http://a.com/", "home"⟩]⟩

/-- Config with `maxPages = 2`, `concurrency = 2`, `respectRobotsTxt = false`. -/
def twoWorkers : Config := ⟨none, some 2, none, some 2, some false⟩

/-- Config with `maxPages = 1`, `concurrency = 1`, `respectRobotsTxt = false`. -/
def onePage : Config := ⟨none, some 1, none, some 1, some false⟩

/-- Config with `concurrency = 1`, `respectRobotsTxt = false`, the other values default. -/
def oneWorker : Config := ⟨none, none, none, some 1, some false⟩

/-- The tool arguments `{url: 'http://a.com/', maxPages: 0}`. -/
def zeroPagesArgs : Args := ⟨"http://a.com/", none, some 0, none, none, none⟩

/-- Two workers, budget of two pages: worker 0 fetches the home page and
queues `/b` and `/c`; worker 1 takes `/b` and, while that fetch is in flight,
worker 0 takes `/c` (one result is recorded, the budget is not yet reached). -/
def bothInFlight : List Event :=
  [resume 0, resume 1, deliver 0 homePage, resume 0, resume 1, resume 0]

/-- The two fetches in flight complete, then both workers leave their loop. -/
def overshootSchedule : List Event :=
  bothInFlight ++ [deliver 1 leafPage, deliver 0 leafPage,
    resume 1, resume 0, resume 1, resume 0]

/-- The configuration in which every value is left to its default. -/
def defaults : Config := ⟨none, none, none, none, none⟩

/-- The state in which `scrapeRecursively` starts its workers when the request
for `robots.txt` is answered by `resp`. -/
def startWith (config : Config) (startUrl : String) (resp : RobotsResponse) : Scraper :=
  (startCrawl SimpleURL.api (construct config) startUrl resp).getD (construct config)

/-- Config with `concurrency = 1`, the other values default (`respectRobotsTxt`
is on). -/
def politeWorker : Config := ⟨none, none, none, some 1, none⟩

/-- A `robots.txt` that closes `/private` to every agent. -/
def privateRobots : String := "User-agent: *\nDisallow: /private"

/-- The same `robots.txt` followed by a `User-agent` line without a colon. -/
def brokenRobots : String := "User-agent: *\nDisallow: /private\nUser-agent"

/-- A page that links to `/private/x` on the same host. -/
def pageToPrivate : Content := ⟨"home", some [⟨"http://a.com/private/x", "x"⟩]⟩

/-- A page that links to `/private/x` on port 8080 of the same host name. -/
def pageToOtherPort : Content := ⟨"home", some [⟨"http://a.com:8080/private/x", "x"⟩]⟩

/-- One worker: the seed passes the robots check and is fetched, its page is
delivered, the worker comes back to its loop and takes the link found. -/
def seedThenLink (page : Content) : List Event :=
  [resume 0, resume 0, deliver 0 page, resume 0, resume 0]

/-- A frontier of three entries; `/docs` has the highest priority. -/
def threePending : PendingMap :=
  [("http://a.com/about", ⟨1, 4⟩), ("http://a.com/docs", ⟨1, 9⟩), ("http://a.com/x", ⟨2, 6⟩)]

/-- One worker, seed `http://a.com/#top` whose page links to the home page. -/
def fragmentSchedule : List Event :=
  [resume 0, deliver 0 pageToHome, resume 0, resume 0, deliver 0 leafPage,
    resume 0, resume 0]

end Example

/-! ## Post-processing of the results (`recursive_scrape.js`)

JavaScript strings are sequences of UTF-16 code units: `length` counts code
units and `charCodeAt` reads one; `charCodes` gives the code units of a Lean
string.  The patterns that `includes` and `split` look for in this file are
ASCII, and a code unit of an ASCII character never occurs inside the encoding
of another character, so these searches are made on the character list. -/

/-- The UTF-16 code units of a character. -/
def utf16Units (c : Char) : List Nat :=
  if c.toNat < 65536 then [c.toNat]
  else [55296 + (c.toNat - 65536) / 1024, 56320 + (c.toNat - 65536) % 1024]

/-- The code units of a string: `s.charCodeAt(i)` is the `i`-th of them. -/
def charCodes (s : String) : List Nat := s.data.flatMap utf16Units

/-- Models `s.length`. -/
def jsLength (s : String) : Nat := (charCodes s).length

/-- Models `categorizeError(errorMessage)` (lines 473-480). -/
def categorizeError (errorMessage : String) : String :=
  if jsIncludes errorMessage "timeout" then "timeout"
  else if jsIncludes errorMessage "network" then "network"
  else if jsIncludes errorMessage "404" then "not_found"
  else if jsIncludes errorMessage "403" || jsIncludes errorMessage "401" then "access_denied"
  else if jsIncludes errorMessage "robots" then "robots_blocked"
  else "other"

/-- Models `detectContentType(text)` (lines 382-396). -/
def detectContentType (text : String) : String :=
  if jsIncludes text "class " || jsIncludes text "function " || jsIncludes text "var " then
    "code"
  else if jsIncludes text "<!DOCTYPE" || jsIncludes text "<html" then "html"
  else if decide (jsLength text > 1000) &&
      decide ((splitOnChar '.' text.data).length > 10) then "article"
  else if jsLength text < 200 then "snippet"
  else "text"

/-- Models `obj[key] = (obj[key] || 0) + 1` on an object that starts as `{}` and
is used as a table of counters; the object is the list of its own properties.
The keys used by the source (depths, the six error categories, the five
content types) are not names of members of `Object.prototype`. -/
def countUp {κ : Type} [DecidableEq κ] : List (κ × Nat) → κ → List (κ × Nat)
  | [], key => [(key, 1)]
  | (k, v) :: rest, key =>
    if k = key then (k, v + 1) :: rest else (k, v) :: countUp rest key

/-- The `stats` object of `generateStatistics`; `successRate` and
`averagePageSize`, which are floating-point quotients of the other fields,
are not modelled. -/
structure Statistics where
  totalPages : Nat
  totalErrors : Nat
  depthDistribution : List (Nat × Nat)
  errorsByType : List (String × Nat)
  totalContentSize : Nat
deriving DecidableEq, Repr

/-- Models `generateStatistics(results, errors)` (lines 328-359). -/
def generateStatistics (results : List PageResult) (errors : List CrawlError) : Statistics :=
  { totalPages := results.length,
    totalErrors := errors.length,
    depthDistribution := results.foldl (fun m page => countUp m page.depth) [],
    errorsByType := errors.foldl (fun m error => countUp m (categorizeError error.error)) [],
    totalContentSize := results.foldl (fun acc page => acc + jsLength page.content.text) 0 }

/-- Models `ToInt32`: the wrap of an integer to signed 32 bits that the bitwise
operators apply. -/
def toInt32 (x : Int) : Int := (x + 2147483648) % 4294967296 - 2147483648

/-- One pass of the loop of `simpleHash` (lines 466-468): `hash << 5` wraps to
32 bits, the subtraction and the addition are exact, `hash & hash` wraps. -/
def hashStep (hash : Int) (char : Nat) : Int :=
  toInt32 ((toInt32 (toInt32 hash * 32) - hash) + (char : Int))

/-- Models `simpleHash(str)` (lines 463-471). -/
def simpleHash (str : String) : Int := (charCodes str).foldl hashStep 0

/-- An element of `duplicates`: `{url1, url2, similarity}`. -/
structure DuplicatePair where
  url1 : String
  url2 : String
  similarity : String
deriving DecidableEq, Repr

/-- Models `textHashes`: a `Map` from hash to URL. -/
abbrev HashMap32 := List (Int × String)

/-- Models `textHashes.get(hash)`, `none` when `textHashes.has(hash)` is false. -/
def HashMap32.get (m : HashMap32) (hash : Int) : Option String :=
  (m.find? fun e => e.1 == hash).map Prod.snd

/-- The body of the loop of `findDuplicateContent` (lines 444-458) on the pair
`(duplicates, textHashes)`; a key is set only when it is absent. -/
def duplicateStep (st : List DuplicatePair × HashMap32) (page : PageResult) :
    List DuplicatePair × HashMap32 :=
  if jsLength page.content.text < 100 then st
  else
    match st.2.get (simpleHash page.content.text) with
    | some url1 => (st.1 ++ [⟨url1, page.url, "exact"⟩], st.2)
    | none => (st.1, st.2 ++ [(simpleHash page.content.text, page.url)])

/-- Models `findDuplicateContent(results)` (lines 440-461). -/
def findDuplicateContent (results : List PageResult) : List DuplicatePair :=
  (results.foldl duplicateStep ([], [])).1

/-- An element of a `_pages` array: `{url, title, depth}` (the title is read
from `page.metadata`, which is not modelled). -/
structure SitePage where
  url : String
  depth : Nat
deriving DecidableEq, Repr

/-- A node of `sitemap.structure`: `{ _pages: [...], _children: {...} }`.  An
object is the list of its own properties. -/
inductive SiteNode where
  | mk (pages : List SitePage) (children : List (String × SiteNode))

/-- The objects `sitemap.structure` and `_children`. -/
abbrev SiteTree := List (String × SiteNode)

/-- Models `node._pages`. -/
def SiteNode.pages : SiteNode → List SitePage
  | SiteNode.mk pages _ => pages

/-- Models `node._children`. -/
def SiteNode.children : SiteNode → SiteTree
  | SiteNode.mk _ children => children

/-- The own property `key` of an object of the tree. -/
def SiteTree.get (t : SiteTree) (key : String) : Option SiteNode :=
  (t.find? fun e => e.1 == key).map Prod.snd

/-- Models `obj[key] = node`. -/
def SiteTree.set : SiteTree → String → SiteNode → SiteTree
  | [], key, node => [(key, node)]
  | (k, v) :: rest, key, node =>
    if k = key then (k, node) :: rest else (k, v) :: SiteTree.set rest key node

/-- The names of the members that an object created by `{}` inherits from
`Object.prototype`; each of them is a function or (`__proto__`) an object. -/
def objectPrototypeKeys : List String :=
  ["constructor", "__defineGetter__", "__defineSetter__", "hasOwnProperty",
   "__lookupGetter__", "__lookupSetter__", "isPrototypeOf", "propertyIsEnumerable",
   "toString", "valueOf", "__proto__", "toLocaleString"]

/-- What `obj[key]` yields on an object of the tree. -/
inductive Lookup where
  /-- an own property: a node -/
  | own (node : SiteNode)
  /-- a member of `Object.prototype`: truthy, without `_pages` and `_children` -/
  | inherited
  /-- the value `undefined` -/
  | undefined

/-- Models `obj[key]`. -/
def SiteTree.lookup (t : SiteTree) (key : String) : Lookup :=
  match t.get key with
  | some node => Lookup.own node
  | none => if objectPrototypeKeys.contains key then Lookup.inherited else Lookup.undefined

/-- The message of the `TypeError` that Node raises when a property of
`undefined` is read. -/
def cannotRead (property : String) : String :=
  "Cannot read properties of undefined (reading '" ++ property ++ "')"

/-- The loop `for (const part of pathParts)` of `generateSitemap` (lines
256-262), started with `current` at the object `t`: the object after the
loop, or the message of the exception.  After an inherited member is read
`current` is `undefined`, and the next pass reads a property of it. -/
def ensurePath : SiteTree → List String → Except String SiteTree
  | t, [] => Except.ok t
  | t, part :: rest =>
    match t.lookup part with
    | Lookup.own node =>
      match ensurePath node.children rest with
      | Except.ok children => Except.ok (t.set part (SiteNode.mk node.pages children))
      | Except.error e => Except.error e
    | Lookup.inherited =>
      match rest with
      | [] => Except.ok t
      | next :: _ => Except.error (cannotRead next)
    | Lookup.undefined =>
      match ensurePath [] rest with
      | Except.ok children => Except.ok (t.set part (SiteNode.mk [] children))
      | Except.error e => Except.error e

/-- Models lines 265-273 of `generateSitemap`: the page is pushed on
`sitemap.structure[leafKey]._pages`. -/
def addLeaf (t : SiteTree) (leafKey : String) (page : SitePage) : Except String SiteTree :=
  match t.lookup leafKey with
  | Lookup.own node => Except.ok (t.set leafKey (SiteNode.mk (node.pages ++ [page]) node.children))
  | Lookup.inherited => Except.error (cannotRead "push")
  | Lookup.undefined => Except.ok (t.set leafKey (SiteNode.mk [page] []))

/-- Models lines 276-280 of `generateSitemap` on `sitemap.byDepth`. -/
def pushByDepth : List (Nat × List String) → Nat → String → List (Nat × List String)
  | [], depth, url => [(depth, [url])]
  | (k, v) :: rest, depth, url =>
    if k = depth then (k, v ++ [url]) :: rest else (k, v) :: pushByDepth rest depth url

/-- The `sitemap` object; the field `structure` is `structureTree` here. -/
structure Sitemap where
  totalPages : Nat
  structureTree : SiteTree
  byDepth : List (Nat × List String)

/-- Models `urlObj.pathname.split('/').filter(p => p)` (line 253). -/
def pathParts (pathname : String) : List String :=
  ((splitOnChar '/' pathname.data).filter fun p => !p.isEmpty).map String.mk

/-- The body of the loop of `generateSitemap` (lines 251-281). -/
def sitemapPage (api : URLApi) (sitemap : Sitemap) (page : PageResult) :
    Except String Sitemap :=
  match api.parse page.url none with
  | none => Except.error "Invalid URL"
  | some urlObj =>
    match ensurePath sitemap.structureTree (pathParts (api.pathname urlObj)) with
    | Except.error e => Except.error e
    | Except.ok t1 =>
      match addLeaf t1 ((pathParts (api.pathname urlObj)).getLast?.getD "root")
          ⟨page.url, page.depth⟩ with
      | Except.error e => Except.error e
      | Except.ok t2 =>
        Except.ok { sitemap with structureTree := t2,
                                 byDepth := pushByDepth sitemap.byDepth page.depth page.url }

/-- The loop of `generateSitemap` over the pages. -/
def sitemapLoop (api : URLApi) : Sitemap → List PageResult → Except String Sitemap
  | sitemap, [] => Except.ok sitemap
  | sitemap, page :: rest =>
    match sitemapPage api sitemap page with
    | Except.error e => Except.error e
    | Except.ok sitemap2 => sitemapLoop api sitemap2 rest

/-- Models `generateSitemap(results)` (lines 244-284): the sitemap, or the
message of the exception that leaves the method. -/
def generateSitemap (api : URLApi) (results : List PageResult) : Except String Sitemap :=
  sitemapLoop api ⟨results.length, [], []⟩ results

/-- An element of `processedResults.pages`, as far as it is modelled. -/
structure ProcessedPage where
  url : String
  depth : Nat
  contentType : String
deriving DecidableEq, Repr

/-- The object that `processScrapingResults` returns, as far as it is modelled:
the word counts, languages, readability and keywords are left out. -/
structure Processed where
  pages : List ProcessedPage
  sitemap : Sitemap
  contentTypes : List (String × Nat)
  duplicateContent : List DuplicatePair
  errors : List CrawlError
  statistics : Statistics

/-- Models `processScrapingResults(rawResult, ...)` (lines 203-242) with
`analyzeContent` (lines 286-326); the sitemap is built first. -/
def processScrapingResults (api : URLApi) (results : List PageResult)
    (errors : List CrawlError) : Except String Processed :=
  match generateSitemap api results with
  | Except.error e => Except.error e
  | Except.ok sitemap =>
    Except.ok
      { pages := results.map fun page =>
          ⟨page.url, page.depth, detectContentType page.content.text⟩,
        sitemap := sitemap,
        contentTypes :=
          results.foldl (fun m page => countUp m (detectContentType page.content.text)) [],
        duplicateContent := findDuplicateContent results,
        errors := errors,
        statistics := generateStatistics results errors }

/-! ## The tool entry point `execute` -/

/-- A request that leaves the process: the `fetch` of `robots.txt` or a call
of `scrapePage`. -/
inductive Call where
  | robotsTxt (robotsUrl : String)
  | scrapePage (url : String)
deriving DecidableEq, Repr

/-- The request that `loadRobotsTxt(url)` issues (lines 410-419): none when
`new URL(url)` throws or the host is cached. -/
def loadRobotsCalls (api : URLApi) (s : Scraper) (url : String) : List Call :=
  match api.parse url none with
  | none => []
  | some urlObj =>
    if (s.robotsCache.get (api.host urlObj)).isSome then []
    else [Call.robotsTxt (api.protocol urlObj ++ "//" ++ api.host urlObj ++ "/robots.txt")]

/-- The `scrapePage` call that a step issues: the stretch of the resumed
worker ends at `await this.scrapePage(url, ...)`. -/
def callOf (api : URLApi) (s : Scraper) (e : Event) : List Call :=
  match s.workers.get? e.worker with
  | none => []
  | some pc =>
    match (workerStep api s e.outcome pc).2 with
    | Pc.fetching url _ => [Call.scrapePage url]
    | _ => []

/-- The `scrapePage` calls of a run, in the order in which they are issued. -/
def scrapeCalls (api : URLApi) : Scraper → List Event → List Call
  | _, [] => []
  | s, e :: es => callOf api s e ++ scrapeCalls api (step api s e) es

/-- What `execute` returns: `{success: false, error, url, ...}` or
`{success: true, data, ...}` (the request id, the adapter and the metadata
are not modelled). -/
inductive ExecResponse where
  | failure (error : String) (url : String)
  | success (data : Processed)

/-- An execution of `execute`: the response, the crawler object that was
constructed (in its final state), and the requests issued. -/
structure Execution where
  response : ExecResponse
  scraper : Option Scraper
  calls : List Call

/-- Models `RecursiveScrapeConfig.execute(args)` (lines 102-201 of
`recursive_scrape.js`) with `isValidUrl` (lines 362-369), under the answer
`resp` to the request for `robots.txt` and the schedule `events`; `none`
when the workers have not all finished under that schedule, so that
`execute` has not returned.  The saves to cache and memory, whose
exceptions are swallowed, are not modelled. -/
def execute (api : URLApi) (args : Args) (resp : RobotsResponse) (events : List Event) :
    Option Execution :=
  if (api.parse args.url none).isNone then
    some ⟨ExecResponse.failure "Invalid URL provided" args.url, none, []⟩
  else
    let scraper := construct (executeConfig args)
    let robotsCalls := if scraper.respectRobotsTxt then loadRobotsCalls api scraper args.url
      else []
    match startCrawl api scraper args.url resp with
    | none => some ⟨ExecResponse.failure "Invalid URL" args.url, some scraper, robotsCalls⟩
    | some s0 =>
      if !completed (run api s0 events) then none
      else
        match processScrapingResults api (run api s0 events).results
            (run api s0 events).errors with
        | Except.error e =>
          some ⟨ExecResponse.failure e args.url, some (run api s0 events),
            robotsCalls ++ scrapeCalls api s0 events⟩
        | Except.ok data =>
          some ⟨ExecResponse.success data, some (run api s0 events),
            robotsCalls ++ scrapeCalls api s0 events⟩

/-! ## A page-fetch collaborator -/

/-- The event that resumes worker `w` when `scrapePage(url)` is answered by
`site url`. -/
def siteEvent (site : String → FetchOutcome) (s : Scraper) (w : Nat) : Event :=
  match s.workers.get? w with
  | some (Pc.fetching url _) => ⟨w, site url⟩
  | _ => ⟨w, FetchOutcome.failure ""⟩

/-- The schedule in which the workers are resumed in the order `ws` and every
`scrapePage` call is answered by `site`. -/
def siteEvents (api : URLApi) (site : String → FetchOutcome) : Scraper → List Nat → List Event
  | _, [] => []
  | s, w :: ws => siteEvent site s w :: siteEvents api site (step api s (siteEvent site s w)) ws

namespace Example

/-- A text of 100 characters. -/
def longText : String := ⟨List.replicate 100 'x'⟩

/-- Three results: two pages with the text `longText` around a short page. -/
def twoLongPages : List PageResult :=
  [⟨"http://a.com/p", 1, ⟨longText, some []⟩⟩, ⟨"http://a.com/s", 1, ⟨"short", some []⟩⟩,
   ⟨"http://a.com/q", 2, ⟨longText, some []⟩⟩]

/-- A text of 100 characters that starts with `Aa`. -/
def collideA : String := ⟨'A' :: 'a' :: List.replicate 98 'x'⟩

/-- A text of 100 characters that starts with `BB` and goes on as `collideA`. -/
def collideB : String := ⟨'B' :: 'B' :: List.replicate 98 'x'⟩

/-- Two results whose texts differ in their first two characters. -/
def collidingPages : List PageResult :=
  [⟨"http://a.com/a", 1, ⟨collideA, some []⟩⟩, ⟨"http://a.com/b", 1, ⟨collideB, some []⟩⟩]

/-- Two results with the paths `/a/b` and `/c/b`. -/
def sameLeafPages : List PageResult :=
  [⟨"http://a.com/a/b", 2, leafPage⟩, ⟨"http://a.com/c/b", 2, leafPage⟩]

/-- One result with the path `/constructor`. -/
def constructorPage : List PageResult := [⟨"http://a.com/constructor", 1, leafPage⟩]

/-- The tool arguments `{url: 'http://a.com/', maxDepth: 50, maxPages: 100000,
concurrency: 64}`. -/
def overCapArgs : Args := ⟨"http://a.com/", some 50, some 100000, none, some 64, none⟩

/-- The tool arguments `{url: 'http://a.com/'}`. -/
def urlOnlyArgs : Args := ⟨"http://a.com/", none, none, none, none, none⟩

/-- The tool arguments `{url: 'not a url'}`. -/
def badUrlArgs : Args := ⟨"not a url", none, none, none, none, none⟩

/-- A page that links to `/constructor`. -/
def pageToConstructor : Content := ⟨"home", some [⟨"http://a.com/constructor", "c"⟩]⟩

/-- The tool arguments `{url: 'http://a.com/', concurrency: 1, respectRobotsTxt:
false}`. -/
def soloArgs : Args := ⟨"http://a.com/", none, none, none, some 1, some false⟩

/-- One worker fetches the seed, which links to one page, then that page, and
leaves its loop. -/
def twoPageSchedule (home : Content) : List Event :=
  [resume 0, deliver 0 home, resume 0, resume 0, deliver 0 leafPage, resume 0, resume 0]

end Example

/-- One step of a crawl whose worker 0 is served by `site`, together with the
log of the `scrapePage` calls issued so far. -/
def soloStep (api : URLApi) (site : String → FetchOutcome) (x : Scraper × List Call) :
    Scraper × List Call :=
  (step api x.1 (siteEvent site x.1 0), x.2 ++ callOf api x.1 (siteEvent site x.1 0))

/-- A crawler with `maxDepth = 2`, the default budget of 100 pages,
`respectRobotsTxt` set and a single worker, which stands at `pc`. -/
def soloCrawler (delay : Int) (cache : RobotsCache) (visited : List String)
    (pending : PendingMap) (results : List PageResult) (active : List String) (pc : Pc) :
    Scraper :=
  { maxDepth := 2, maxPages := 100, delay := delay, concurrency := 1,
    respectRobotsTxt := true, visitedUrls := visited, pendingUrls := pending,
    results := results, errors := [], robotsCache := cache, activeScraping := active,
    workers := [pc] }

namespace Example

/-- The page-fetch collaborator of a linear site: `/` links to `/b`, `/b` links
to `/c`, `/c` has no links. -/
def linearSite (url : String) : FetchOutcome :=
  if url = "http://a.com/" then FetchOutcome.success ⟨"home", some [⟨"http://a.com/b", "b"⟩]⟩
  else if url = "http://a.com/b" then
    FetchOutcome.success ⟨"b", some [⟨"http://a.com/c", "c"⟩]⟩
  else if url = "http://a.com/c" then FetchOutcome.success leafPage
  else FetchOutcome.failure "404"

/-- The crawler `{maxDepth: 2, concurrency: 1}` started at `http://a.com/` when
the request for `robots.txt` is answered by a non-OK response. -/
def linearStart : Scraper :=
  soloCrawler 1000 [("a.com", ⟨true, [], 0⟩)] [] [("http://a.com/", ⟨0, 10⟩)] [] [] Pc.ready

end Example

namespace Example

/-- A `robots.txt` that asks every agent for a crawl delay of 5 seconds. -/
def delayRobots : String := "User-agent: *\nCrawl-delay: 5"

/-- The same `robots.txt` followed by a `User-agent` line without a colon. -/
def brokenDelayRobots : String := "User-agent: *\nCrawl-delay: 5\nUser-agent"

end Example

end RecursiveScraper

/-!
# Keyboard layouts: `convertLayout`

Source: `mcp-free-translate/keyboard-layouts.js`.  The tables are object
literals whose keys are single characters, all distinct; a table is the list
of its entries and `mapping[char]` is the first entry with that key.
`text.split('')` yields the UTF-16 code units of the text; every key of the
tables is one code unit and no half of a surrogate pair is a key, so mapping
the characters of the text gives the same string.
-/

namespace KeyboardLayouts

/-- Models `EN_TO_RU` (lines 7-22); `Char.ofNat 39` is the apostrophe, `Char.ofNat 34`
the double quote and `Char.ofNat 96` the grave accent. -/
def EN_TO_RU : List (Char × Char) :=
  [('q', 'й'), ('w', 'ц'), ('e', 'у'), ('r', 'к'), ('t', 'е'), ('y', 'н'), ('u', 'г'),
   ('i', 'ш'), ('o', 'щ'), ('p', 'з'),
   ('[', 'х'), (']', 'ъ'), ('a', 'ф'), ('s', 'ы'), ('d', 'в'), ('f', 'а'), ('g', 'п'),
   ('h', 'р'), ('j', 'о'), ('k', 'л'),
   ('l', 'д'), (';', 'ж'), (Char.ofNat 39, 'э'), ('z', 'я'), ('x', 'ч'), ('c', 'с'), ('v', 'м'),
   ('b', 'и'), ('n', 'т'), ('m', 'ь'),
   (',', 'б'), ('.', 'ю'), ('/', '.'),
   ('Q', 'Й'), ('W', 'Ц'), ('E', 'У'), ('R', 'К'), ('T', 'Е'), ('Y', 'Н'), ('U', 'Г'),
   ('I', 'Ш'), ('O', 'Щ'), ('P', 'З'),
   ('{', 'Х'), ('}', 'Ъ'), ('A', 'Ф'), ('S', 'Ы'), ('D', 'В'), ('F', 'А'), ('G', 'П'),
   ('H', 'Р'), ('J', 'О'), ('K', 'Л'),
   ('L', 'Д'), (':', 'Ж'), (Char.ofNat 34, 'Э'), ('Z', 'Я'), ('X', 'Ч'), ('C', 'С'), ('V', 'М'),
   ('B', 'И'), ('N', 'Т'), ('M', 'Ь'),
   ('<', 'Б'), ('>', 'Ю'), ('?', ','),
   (Char.ofNat 96, 'ё'), ('~', 'Ё'), ('@', Char.ofNat 34), ('#', '№'), ('$', ';'), ('^', ':'),
   ('&', '?')]

/-- Models `RU_TO_EN` (lines 25-40). -/
def RU_TO_EN : List (Char × Char) :=
  [('й', 'q'), ('ц', 'w'), ('у', 'e'), ('к', 'r'), ('е', 't'), ('н', 'y'), ('г', 'u'),
   ('ш', 'i'), ('щ', 'o'), ('з', 'p'),
   ('х', '['), ('ъ', ']'), ('ф', 'a'), ('ы', 's'), ('в', 'd'), ('а', 'f'), ('п', 'g'),
   ('р', 'h'), ('о', 'j'), ('л', 'k'),
   ('д', 'l'), ('ж', ';'), ('э', Char.ofNat 39), ('я', 'z'), ('ч', 'x'), ('с', 'c'), ('м', 'v'),
   ('и', 'b'), ('т', 'n'), ('ь', 'm'),
   ('б', ','), ('ю', '.'), ('.', '/'),
   ('Й', 'Q'), ('Ц', 'W'), ('У', 'E'), ('К', 'R'), ('Е', 'T'), ('Н', 'Y'), ('Г', 'U'),
   ('Ш', 'I'), ('Щ', 'O'), ('З', 'P'),
   ('Х', '{'), ('Ъ', '}'), ('Ф', 'A'), ('Ы', 'S'), ('В', 'D'), ('А', 'F'), ('П', 'G'),
   ('Р', 'H'), ('О', 'J'), ('Л', 'K'),
   ('Д', 'L'), ('Ж', ':'), ('Э', Char.ofNat 34), ('Я', 'Z'), ('Ч', 'X'), ('С', 'C'), ('М', 'V'),
   ('И', 'B'), ('Т', 'N'), ('Ь', 'M'),
   ('Б', '<'), ('Ю', '>'), (',', '?'),
   ('ё', Char.ofNat 96), ('Ё', '~'), (Char.ofNat 34, '@'), ('№', '#'), (';', '$'), (':', '^'),
   ('?', '&')]

/-- Models `mapping[char] || char`: no value of the tables is the empty string. -/
def mapChar (mapping : List (Char × Char)) (char : Char) : Char :=
  (mapping.lookup char).getD char

/-- Models `convertLayout(text, fromLayout, toLayout)` (lines 80-90). -/
def convertLayout (text fromLayout toLayout : String) : String :=
  if fromLayout = toLayout then text
  else
    let mapping := if fromLayout = "en" ∧ toLayout = "ru" then EN_TO_RU else RU_TO_EN
    ⟨text.data.map (mapChar mapping)⟩

end KeyboardLayouts

/-! # Theorems -/

namespace RecursiveScraper

/-! ## Frontier lemmas -/

theorem PendingMap.has_eq_true_iff (m : PendingMap) (url : String) :
    m.has url = true ↔ ∃ e ∈ m, e.1 = url := by
  simp [PendingMap.has, List.any_eq_true]

theorem PendingMap.has_eq_false_iff (m : PendingMap) (url : String) :
    m.has url = false ↔ ∀ e ∈ m, e.1 ≠ url := by
  simp [PendingMap.has, List.any_eq_false]

theorem PendingMap.mem_delete (m : PendingMap) (url : String) (e : String × PendingInfo) :
    e ∈ m.delete url ↔ e ∈ m ∧ e.1 ≠ url := by
  simp [PendingMap.delete, List.mem_filter]

theorem PendingMap.has_delete_self (m : PendingMap) (url : String) :
    (m.delete url).has url = false := by
  rw [PendingMap.has_eq_false_iff]
  intro e he
  exact ((PendingMap.mem_delete m url e).1 he).2

theorem PendingMap.get_of_mem (m : PendingMap) (hnd : (m.map Prod.fst).Nodup)
    (e : String × PendingInfo) (he : e ∈ m) : m.get e.1 = some e.2 := by
  induction m with
  | nil => cases he
  | cons hd tl ih =>
    simp only [List.map_cons, List.nodup_cons] at hnd
    rcases List.mem_cons.1 he with rfl | h
    · simp [PendingMap.get, List.find?]
    · have hne : hd.1 ≠ e.1 := by
        intro heq
        exact hnd.1 (heq ▸ List.mem_map_of_mem Prod.fst h)
      have hb : (hd.1 == e.1) = false := by simpa using hne
      have := ih hnd.2 h
      simp only [PendingMap.get] at this ⊢
      rw [List.find?_cons, hb]
      exact this

theorem PendingMap.set_of_not_has (m : PendingMap) (url : String) (info : PendingInfo)
    (h : m.has url = false) : m.set url info = m ++ [(url, info)] := by
  induction m with
  | nil => rfl
  | cons hd tl ih =>
    obtain ⟨k, v⟩ := hd
    rw [PendingMap.has_eq_false_iff] at h
    have hk : k ≠ url := h (k, v) (List.mem_cons_self _ _)
    have htl : PendingMap.has tl url = false := by
      rw [PendingMap.has_eq_false_iff]
      intro e he
      exact h e (List.mem_cons_of_mem _ he)
    simp [PendingMap.set, hk, ih htl]

theorem PendingMap.length_set_le (m : PendingMap) (url : String) (info : PendingInfo) :
    (m.set url info).length ≤ m.length + 1 := by
  induction m with
  | nil => simp [PendingMap.set]
  | cons hd tl ih =>
    obtain ⟨k, v⟩ := hd
    simp only [PendingMap.set]
    split
    · simp
    · simp only [List.length_cons]; omega

theorem bestLoop_spec (m : PendingMap) (bu : Option String) (bp : Int) :
    bp ≤ (bestLoop m (bu, bp)).2 ∧
    (∀ e ∈ m, e.2.priority ≤ (bestLoop m (bu, bp)).2) ∧
    (bestLoop m (bu, bp) = (bu, bp) ∨
      ∃ e ∈ m, bestLoop m (bu, bp) = (some e.1, e.2.priority)) := by
  induction m generalizing bu bp with
  | nil => simp [bestLoop]
  | cons hd tl ih =>
    obtain ⟨url, info⟩ := hd
    simp only [bestLoop]
    split
    · rename_i hgt
      obtain ⟨h1, h2, h3⟩ := ih (some url) info.priority
      refine ⟨by omega, ?_, ?_⟩
      · intro e he
        rcases List.mem_cons.1 he with rfl | h
        · exact h1
        · exact h2 e h
      · rcases h3 with h | ⟨e, he, h⟩
        · exact Or.inr ⟨(url, info), List.mem_cons_self _ _, h⟩
        · exact Or.inr ⟨e, List.mem_cons_of_mem _ he, h⟩
    · rename_i hgt
      obtain ⟨h1, h2, h3⟩ := ih bu bp
      refine ⟨h1, ?_, ?_⟩
      · intro e he
        rcases List.mem_cons.1 he with rfl | h
        · have : info.priority ≤ bp := by
            simpa using hgt
          show info.priority ≤ _
          omega
        · exact h2 e h
      · rcases h3 with h | ⟨e, he, h⟩
        · exact Or.inl h
        · exact Or.inr ⟨e, List.mem_cons_of_mem _ he, h⟩

/-! ## getNextUrl -/

/-- C7: on a non-empty `pendingUrls` (a `Map`: no key twice) whose URLs are
non-empty and whose priorities lie in `[1,10]`, `getNextUrl` returns a pending
entry whose priority is at least that of every pending entry, and the new
`pendingUrls` is the old one with exactly that URL deleted; on the empty map it
returns `null` and changes nothing. -/
theorem getNextUrl_takes_highest_priority (pending : PendingMap)
    (hmap : (pending.map Prod.fst).Nodup)
    (hne : pending ≠ [])
    (hurl : ∀ e ∈ pending, e.1 ≠ "")
    (hprio : ∀ e ∈ pending, 1 ≤ e.2.priority ∧ e.2.priority ≤ 10) :
    (∃ e ∈ pending,
      getNextUrl pending = (some ⟨e.1, e.2.depth, e.2.priority⟩, pending.delete e.1) ∧
      (∀ e2 ∈ pending, e2.2.priority ≤ e.2.priority) ∧
      (∀ e2, e2 ∈ (getNextUrl pending).2 ↔ e2 ∈ pending ∧ e2.1 ≠ e.1)) ∧
    getNextUrl [] = (none, []) := by
  refine ⟨?_, rfl⟩
  obtain ⟨h1, h2, h3⟩ := bestLoop_spec pending none (-1)
  have hlen : pending.length ≠ 0 := by
    intro h
    exact hne (List.length_eq_zero.1 h)
  rcases h3 with h | ⟨e, he, h⟩
  · exfalso
    obtain ⟨hd, hmem⟩ := List.exists_mem_of_ne_nil pending hne
    have := h2 hd hmem
    have := (hprio hd hmem).1
    rw [h] at *
    simp at *
    omega
  · refine ⟨e, he, ?_⟩
    have hget := PendingMap.get_of_mem pending hmap e he
    have hres : getNextUrl pending =
        (some ⟨e.1, e.2.depth, e.2.priority⟩, pending.delete e.1) := by
      simp [getNextUrl, hlen, h, hurl e he, hget]
    refine ⟨hres, ?_, ?_⟩
    · intro e2 he2
      have := h2 e2 he2
      rw [h] at this
      exact this
    · intro e2
      rw [hres]
      exact PendingMap.mem_delete pending e.1 e2

/-- C7, at a concrete frontier of three entries. -/
theorem getNextUrl_takes_highest_priority_witness :
    (∃ e ∈ Example.threePending,
      getNextUrl Example.threePending =
        (some ⟨e.1, e.2.depth, e.2.priority⟩, PendingMap.delete Example.threePending e.1) ∧
      (∀ e2 ∈ Example.threePending, e2.2.priority ≤ e.2.priority) ∧
      (∀ e2, e2 ∈ (getNextUrl Example.threePending).2 ↔
        e2 ∈ Example.threePending ∧ e2.1 ≠ e.1)) ∧
    getNextUrl [] = (none, []) :=
  getNextUrl_takes_highest_priority Example.threePending
    (by decide) (by decide) (by decide) (by decide)

/-! ## addUrlToPending -/

theorem addUrlToPending_at_cap (p : PendingMap) (maxPages : Int) (url : String) (depth : Nat)
    (priority : Int) (h : (p.length : Int) ≥ maxPages * 2) :
    addUrlToPending p maxPages url depth priority = p := by
  simp [addUrlToPending, h]

theorem addUrlToPending_length_le (p : PendingMap) (maxPages : Int) (url : String)
    (depth : Nat) (priority : Int) :
    (addUrlToPending p maxPages url depth priority).length ≤ p.length + 1 := by
  unfold addUrlToPending
  split
  · omega
  · exact PendingMap.length_set_le p url _

theorem PendingMap.map_fst_set_of_has (m : PendingMap) (url : String) (info : PendingInfo)
    (h : m.has url = true) : (m.set url info).map Prod.fst = m.map Prod.fst := by
  induction m with
  | nil => simp [PendingMap.has] at h
  | cons hd tl ih =>
    obtain ⟨k, v⟩ := hd
    simp only [PendingMap.set]
    split
    · simp
    · rename_i hk
      have htl : PendingMap.has tl url = true := by
        simp only [PendingMap.has, List.any_cons, Bool.or_eq_true] at h ⊢
        rcases h with h | h
        · exact absurd (by simpa using h) hk
        · exact h
      simp [ih htl]

/-- C9, refuted as stated: `addUrlToPending` reads neither `visitedUrls` nor the
keys of `pendingUrls`.  With `http://a.com/x` pending at depth 1, priority 5,
the call `addUrlToPending('http://a.com/x', 2, 8)` overwrites the entry; and
with `http://a.com/x` visited and nothing pending the call inserts it. -/
theorem addUrlToPending_ignores_visited_and_pending :
    PendingMap.has [("http://a.com/x", ⟨1, 5⟩)] "http://a.com/x" = true ∧
    addUrlToPending [("http://a.com/x", ⟨1, 5⟩)] 100 "http://a.com/x" 2 8
      ≠ [("http://a.com/x", ⟨1, 5⟩)] ∧
    ("http://a.com/x" ∈ (({ construct ⟨none, none, none, none, none⟩ with
        visitedUrls := ["http://a.com/x"] } : Scraper).visitedUrls) ∧
      addUrlToPending ({ construct ⟨none, none, none, none, none⟩ with
        visitedUrls := ["http://a.com/x"] } : Scraper).pendingUrls 100 "http://a.com/x" 1 5
      ≠ ({ construct ⟨none, none, none, none, none⟩ with
        visitedUrls := ["http://a.com/x"] } : Scraper).pendingUrls) := by
  decide

/-- C9, amended: the check for visited and pending URLs is made by the caller.
For a link whose normalized URL is in `visitedUrls` or is a key of
`pendingUrls`, the loop body of `extractAndQueueLinks` leaves the scraper (so
`pendingUrls`: keys, depths and priorities) unchanged; `addUrlToPending` itself,
called on a URL that is already pending, keeps the keys of `pendingUrls`. -/
theorem queueLink_skips_visited_and_pending (api : URLApi) (baseUrl domain : String)
    (nextDepth : Nat) (s : Scraper) (link : Link)
    (h : ∀ linkUrl, api.parse link.href (some baseUrl) = some linkUrl →
      ∀ n, normalizeUrl api (api.href linkUrl) = some n →
        n ∈ s.visitedUrls ∨ s.pendingUrls.has n = true) :
    queueLink api baseUrl domain nextDepth s link = s ∧
    (∀ url depth priority, s.pendingUrls.has url = true →
      (addUrlToPending s.pendingUrls s.maxPages url depth priority).map Prod.fst
        = s.pendingUrls.map Prod.fst) := by
  constructor
  · unfold queueLink
    split
    · rfl
    · rename_i linkUrl hparse
      split
      · rfl
      · split
        · rfl
        · rename_i n hn
          rcases h linkUrl hparse n hn with hv | hp
          · simp [hv]
          · simp [hp]
  · intro url depth priority hhas
    unfold addUrlToPending
    split
    · rfl
    · exact PendingMap.map_fst_set_of_has _ _ _ hhas

/-- C9 amended, at a concrete state: the page links to a URL that is pending. -/
theorem queueLink_skips_visited_and_pending_witness :
    queueLink SimpleURL.api "http://a.com/" "a.com" 1
      ({ construct ⟨none, none, none, none, none⟩ with
          pendingUrls := [("http://a.com/x", ⟨1, 6⟩)] })
      ⟨"http://a.com/x#top", "x"⟩
      = { construct ⟨none, none, none, none, none⟩ with
          pendingUrls := [("http://a.com/x", ⟨1, 6⟩)] } ∧
    (∀ url depth priority,
      PendingMap.has ({ construct ⟨none, none, none, none, none⟩ with
          pendingUrls := [("http://a.com/x", ⟨1, 6⟩)] } : Scraper).pendingUrls url = true →
      (addUrlToPending ({ construct ⟨none, none, none, none, none⟩ with
          pendingUrls := [("http://a.com/x", ⟨1, 6⟩)] } : Scraper).pendingUrls
        ({ construct ⟨none, none, none, none, none⟩ with
          pendingUrls := [("http://a.com/x", ⟨1, 6⟩)] } : Scraper).maxPages
        url depth priority).map Prod.fst
        = ({ construct ⟨none, none, none, none, none⟩ with
          pendingUrls := [("http://a.com/x", ⟨1, 6⟩)] } : Scraper).pendingUrls.map Prod.fst) :=
  queueLink_skips_visited_and_pending SimpleURL.api "http://a.com/" "a.com" 1 _
    ⟨"http://a.com/x#top", "x"⟩ (by
      intro linkUrl hparse n hn
      have h1 : linkUrl = (⟨"http:", "a.com", "/x", "", "#top", ""⟩ : SimpleURL.Obj) := by
        have : SimpleURL.api.parse "http://a.com/x#top" (some "http://a.com/")
            = some (⟨"http:", "a.com", "/x", "", "#top", ""⟩ : SimpleURL.Obj) := by rfl
        exact Option.some.inj (hparse.symm.trans this)
      subst h1
      have h2 : normalizeUrl SimpleURL.api
          (SimpleURL.api.href (⟨"http:", "a.com", "/x", "", "#top", ""⟩ : SimpleURL.Obj))
          = some "http://a.com/x" := by decide
      have h3 : n = "http://a.com/x" := Option.some.inj (hn.symm.trans h2)
      subst h3
      exact Or.inr (by decide))

/-! ## shouldFollowLink -/

/-- C10: `shouldFollowLink` returns false if the scheme is neither `http:` nor
`https:`, or the hostname differs from the base domain, or the lower-cased
path ends with an excluded extension, or the lower-cased path contains an
excluded pattern. -/
theorem shouldFollowLink_rejects (api : URLApi) (linkUrl : api.U) (baseDomain : String)
    (h : (api.protocol linkUrl ≠ "http:" ∧ api.protocol linkUrl ≠ "https:") ∨
      api.hostname linkUrl ≠ baseDomain ∨
      (∃ ext ∈ [".pdf", ".doc", ".docx", ".xls", ".xlsx", ".zip", ".rar", ".exe"],
        jsEndsWith (jsToLowerCase (api.pathname linkUrl)) ext = true) ∨
      (∃ pattern ∈ ["/admin", "/login", "/logout", "/signup", "/register", "/api/"],
        jsIncludes (jsToLowerCase (api.pathname linkUrl)) pattern = true)) :
    shouldFollowLink api linkUrl baseDomain = false := by
  unfold shouldFollowLink
  split
  · rfl
  · rename_i hproto
    split
    · rfl
    · rename_i hhost
      simp only []
      split
      · rfl
      · rename_i hext
        split
        · rfl
        · rename_i hpat
          exfalso
          rcases h with ⟨h1, h2⟩ | h | ⟨ext, hmem, he⟩ | ⟨pat, hmem, hp⟩
          · simp [h1, h2] at hproto
          · simp [h] at hhost
          · exact hext (List.any_eq_true.2 ⟨ext, hmem, he⟩)
          · exact hpat (List.any_eq_true.2 ⟨pat, hmem, hp⟩)

/-- C10, at `http://a.com/Files/Report.PDF` with base domain `a.com`. -/
theorem shouldFollowLink_rejects_witness :
    shouldFollowLink SimpleURL.api
      (⟨"http:", "a.com", "/Files/Report.PDF", "", "", ""⟩ : SimpleURL.Obj) "a.com" = false :=
  shouldFollowLink_rejects SimpleURL.api
    (⟨"http:", "a.com", "/Files/Report.PDF", "", "", ""⟩ : SimpleURL.Obj) "a.com"
    (Or.inr (Or.inr (Or.inl ⟨".pdf", by decide, by decide⟩)))

/-! ## Invariants of the crawl -/

theorem PendingExt.self (s : Scraper) : PendingExt s s :=
  ⟨[], by simp⟩

theorem PendingExt.comp {a b c : Scraper} (h1 : PendingExt a b) (h2 : PendingExt b c) :
    PendingExt a c := by
  obtain ⟨x, rfl⟩ := h1
  obtain ⟨y, rfl⟩ := h2
  exact ⟨x ++ y, by simp [List.append_assoc]⟩

theorem Frame.refl (s : Scraper) : Frame s s :=
  ⟨rfl, rfl, rfl, fun _ h => h⟩

theorem Frame.trans {a b c : Scraper} (h1 : Frame a b) (h2 : Frame b c) : Frame a c :=
  ⟨h2.maxDepth.trans h1.maxDepth, h2.maxPages.trans h1.maxPages,
    h2.workers.trans h1.workers, fun u hu => h2.visited u (h1.visited u hu)⟩

theorem PendingExt.frame {a b : Scraper} (h : PendingExt a b) : Frame a b := by
  obtain ⟨x, rfl⟩ := h
  exact ⟨rfl, rfl, rfl, fun _ h => h⟩

theorem PcOk.mono {s1 s2 : Scraper} (hd : s2.maxDepth = s1.maxDepth)
    (hv : ∀ u ∈ s1.visitedUrls, u ∈ s2.visitedUrls) {pc : Pc} (h : PcOk s1 pc) :
    PcOk s2 pc := by
  cases pc with
  | awaitRobots url depth allowed =>
    exact ⟨by rw [hd]; exact h.1, hv _ h.2⟩
  | fetching url depth =>
    exact ⟨by rw [hd]; exact h.1, hv _ h.2⟩
  | ready => trivial
  | extracted url => trivial
  | finished => trivial

theorem queueLink_cases (api : URLApi) (baseUrl domain : String) (nextDepth : Nat)
    (s : Scraper) (link : Link) :
    queueLink api baseUrl domain nextDepth s link = s ∨
    ∃ n priority, n ∉ s.visitedUrls ∧ s.pendingUrls.has n = false ∧
      (s.pendingUrls.length : Int) < s.maxPages * 2 ∧
      queueLink api baseUrl domain nextDepth s link =
        { s with pendingUrls := s.pendingUrls ++ [(n, ⟨nextDepth, priority⟩)] } := by
  unfold queueLink
  split
  · exact Or.inl rfl
  · rename_i linkUrl _
    split
    · exact Or.inl rfl
    · split
      · exact Or.inl rfl
      · rename_i n _
        split
        · rename_i hcond
          simp only [Bool.and_eq_true, Bool.not_eq_true', List.contains_eq_any_beq,
            List.any_eq_false, beq_iff_eq] at hcond
          obtain ⟨hv, hp⟩ := hcond
          have hv2 : n ∉ s.visitedUrls := fun hmem => hv n hmem rfl
          by_cases hcap : (s.pendingUrls.length : Int) ≥ s.maxPages * 2
          · left
            simp [addUrlToPending, hcap]
          · right
            refine ⟨n, calculateLinkPriority api linkUrl, hv2, hp, by omega, ?_⟩
            simp [addUrlToPending, hcap, PendingMap.set_of_not_has _ _ _ hp]
        · exact Or.inl rfl

theorem SharedInv.append {s : Scraper} (hs : SharedInv s) (n : String) (info : PendingInfo)
    (hd : (info.depth : Int) ≤ max 0 s.maxDepth) (hv : n ∉ s.visitedUrls)
    (hp : s.pendingUrls.has n = false)
    (hl : (s.pendingUrls.length : Int) < s.maxPages * 2) :
    SharedInv { s with pendingUrls := s.pendingUrls ++ [(n, info)] } := by
  refine ⟨?_, hs.resultDepth, ?_, ?_, ?_⟩
  · intro e he
    rcases List.mem_append.1 he with h | h
    · exact hs.pendingDepth e h
    · rw [List.mem_singleton.1 h]; exact hd
  · intro u hu
    show PendingMap.has (s.pendingUrls ++ [(n, info)]) u = false
    rw [PendingMap.has_eq_false_iff]
    intro e he
    rcases List.mem_append.1 he with h | h
    · exact (PendingMap.has_eq_false_iff _ _).1 (hs.disjoint u hu) e h
    · rw [List.mem_singleton.1 h]
      intro heq
      have heq2 : n = u := heq
      exact hv (heq2 ▸ hu)
  · show ((s.pendingUrls ++ [(n, info)]).length : Int) ≤ max 0 (s.maxPages * 2)
    simp only [List.length_append, List.length_singleton, Nat.cast_add, Nat.cast_one]
    have := le_max_right 0 (s.maxPages * 2)
    omega
  · show ((s.pendingUrls ++ [(n, info)]).map Prod.fst).Nodup
    rw [List.map_append, List.nodup_append]
    refine ⟨hs.keysNodup, by simp, ?_⟩
    intro a ha hb
    simp only [List.map_cons, List.map_nil, List.mem_singleton] at hb
    subst hb
    obtain ⟨e, he, rfl⟩ := List.mem_map.1 ha
    exact (PendingMap.has_eq_false_iff _ _).1 hp e he rfl

theorem queueLink_inv (api : URLApi) (baseUrl domain : String) (nextDepth : Nat)
    (s : Scraper) (link : Link) (hs : SharedInv s)
    (hd : (nextDepth : Int) ≤ max 0 s.maxDepth) :
    SharedInv (queueLink api baseUrl domain nextDepth s link) ∧
      PendingExt s (queueLink api baseUrl domain nextDepth s link) := by
  rcases queueLink_cases api baseUrl domain nextDepth s link with h | ⟨n, p, hv, hp, hl, h⟩
  · rw [h]; exact ⟨hs, PendingExt.self s⟩
  · rw [h]; exact ⟨hs.append n ⟨nextDepth, p⟩ hd hv hp hl, ⟨_, rfl⟩⟩

theorem queueLink_ext (api : URLApi) (baseUrl domain : String) (nextDepth : Nat)
    (s : Scraper) (link : Link) :
    PendingExt s (queueLink api baseUrl domain nextDepth s link) := by
  rcases queueLink_cases api baseUrl domain nextDepth s link with h | ⟨n, p, _, _, _, h⟩
  · rw [h]; exact PendingExt.self s
  · rw [h]; exact ⟨_, rfl⟩

theorem foldl_queueLink_ext (api : URLApi) (baseUrl domain : String) (nextDepth : Nat)
    (links : List Link) (s : Scraper) :
    PendingExt s (links.foldl (queueLink api baseUrl domain nextDepth) s) := by
  induction links generalizing s with
  | nil => exact PendingExt.self s
  | cons l ls ih =>
    exact (queueLink_ext api baseUrl domain nextDepth s l).comp (ih _)

theorem foldl_queueLink_inv (api : URLApi) (baseUrl domain : String) (nextDepth : Nat)
    (links : List Link) (s : Scraper) (hs : SharedInv s)
    (hd : (nextDepth : Int) ≤ max 0 s.maxDepth) :
    SharedInv (links.foldl (queueLink api baseUrl domain nextDepth) s) := by
  induction links generalizing s with
  | nil => exact hs
  | cons l ls ih =>
    obtain ⟨h1, h2⟩ := queueLink_inv api baseUrl domain nextDepth s l hs hd
    exact ih _ h1 (by rw [h2.frame.maxDepth]; exact hd)

theorem extractAndQueueLinks_ext (api : URLApi) (s s2 : Scraper) (baseUrl : String)
    (content : Content) (nextDepth : Nat)
    (h : extractAndQueueLinks api s baseUrl content nextDepth = some s2) :
    PendingExt s s2 := by
  unfold extractAndQueueLinks at h
  split at h
  · cases h; exact PendingExt.self s
  · split at h
    · cases h
    · cases h; exact foldl_queueLink_ext _ _ _ _ _ _

theorem extractAndQueueLinks_inv (api : URLApi) (s s2 : Scraper) (baseUrl : String)
    (content : Content) (nextDepth : Nat) (hs : SharedInv s)
    (hd : (nextDepth : Int) ≤ max 0 s.maxDepth)
    (h : extractAndQueueLinks api s baseUrl content nextDepth = some s2) :
    SharedInv s2 := by
  unfold extractAndQueueLinks at h
  split at h
  · cases h; exact hs
  · split at h
    · cases h
    · cases h; exact foldl_queueLink_inv _ _ _ _ _ _ hs hd

theorem PendingMap.mem_of_get (m : PendingMap) (url : String) (info : PendingInfo)
    (h : m.get url = some info) : (url, info) ∈ m := by
  unfold PendingMap.get at h
  cases hf : m.find? (fun e => e.1 == url) with
  | none => rw [hf] at h; cases h
  | some e =>
    rw [hf] at h
    have h1 : e.2 = info := Option.some.inj h
    have h2 : e.1 = url := by simpa using List.find?_some hf
    have h3 := List.mem_of_find?_eq_some hf
    rw [← h1, ← h2]
    exact h3

theorem getNextUrl_cases (p : PendingMap) :
    getNextUrl p = (none, p) ∨
    ∃ url info, (url, info) ∈ p ∧
      getNextUrl p = (some ⟨url, info.depth, info.priority⟩, p.delete url) := by
  unfold getNextUrl
  split
  · exact Or.inl rfl
  · split
    · exact Or.inl rfl
    · rename_i bestUrl _
      split
      · exact Or.inl rfl
      · split
        · rename_i info hget
          exact Or.inr ⟨bestUrl, info, PendingMap.mem_of_get p bestUrl info hget, rfl⟩
        · exact Or.inl rfl

theorem mem_setAdd (s : List String) (x u : String) : u ∈ setAdd s x ↔ u ∈ s ∨ u = x := by
  unfold setAdd
  split
  · rename_i h
    constructor
    · exact Or.inl
    · rintro (h1 | rfl)
      · exact h1
      · exact h
  · simp

theorem SharedInv.delete {s : Scraper} (hs : SharedInv s) (url : String) :
    SharedInv { s with pendingUrls := s.pendingUrls.delete url } := by
  refine ⟨?_, hs.resultDepth, ?_, ?_, ?_⟩
  · intro e he
    exact hs.pendingDepth e ((PendingMap.mem_delete _ _ _).1 he).1
  · intro u hu
    show PendingMap.has (s.pendingUrls.delete url) u = false
    rw [PendingMap.has_eq_false_iff]
    intro e he
    exact (PendingMap.has_eq_false_iff _ _).1 (hs.disjoint u hu) e
      ((PendingMap.mem_delete _ _ _).1 he).1
  · show ((s.pendingUrls.delete url).length : Int) ≤ max 0 (s.maxPages * 2)
    have h1 : (s.pendingUrls.delete url).length ≤ s.pendingUrls.length :=
      List.length_filter_le _ _
    have h2 := hs.size
    omega
  · show ((s.pendingUrls.delete url).map Prod.fst).Nodup
    exact hs.keysNodup.sublist ((List.filter_sublist _).map Prod.fst)

theorem processUrlStart_inv (api : URLApi) (s : Scraper) (url : String) (depth : Nat)
    (hs : SharedInv s) (hp : s.pendingUrls.has url = false)
    (hd : (depth : Int) ≤ max 0 s.maxDepth) :
    SharedInv (processUrlStart api s url depth).1 ∧
    PcOk (processUrlStart api s url depth).1 (processUrlStart api s url depth).2 ∧
    Frame s (processUrlStart api s url depth).1 := by
  unfold processUrlStart
  split
  · exact ⟨hs, trivial, Frame.refl s⟩
  · have hs1 : SharedInv { s with visitedUrls := setAdd s.visitedUrls url,
                                  activeScraping := setAdd s.activeScraping url } := by
      refine ⟨hs.pendingDepth, hs.resultDepth, ?_, hs.size, hs.keysNodup⟩
      intro u hu
      rcases (mem_setAdd _ _ _).1 hu with h | rfl
      · exact hs.disjoint u h
      · exact hp
    have hf : Frame s { s with visitedUrls := setAdd s.visitedUrls url,
                               activeScraping := setAdd s.activeScraping url } :=
      ⟨rfl, rfl, rfl, fun u hu => (mem_setAdd _ _ _).2 (Or.inl hu)⟩
    have hmem : url ∈ setAdd s.visitedUrls url := (mem_setAdd _ _ _).2 (Or.inr rfl)
    simp only []
    split
    · exact ⟨hs1, ⟨hd, hmem⟩, hf⟩
    · exact ⟨hs1, ⟨hd, hmem⟩, hf⟩

theorem loopTop_inv (api : URLApi) (s : Scraper) (hs : SharedInv s) :
    SharedInv (loopTop api s).1 ∧ PcOk (loopTop api s).1 (loopTop api s).2 ∧
    Frame s (loopTop api s).1 := by
  unfold loopTop
  split
  · exact ⟨hs, trivial, Frame.refl s⟩
  · rcases getNextUrl_cases s.pendingUrls with h | ⟨url, info, hmem, h⟩
    · rw [h]; exact ⟨hs, trivial, Frame.refl s⟩
    · rw [h]
      dsimp only
      have h1 := hs.delete url
      have h2 : PendingMap.has ({ s with pendingUrls := s.pendingUrls.delete url } :
          Scraper).pendingUrls url = false := PendingMap.has_delete_self _ _
      have h3 := processUrlStart_inv api { s with pendingUrls := s.pendingUrls.delete url }
        url info.depth h1 h2 (hs.pendingDepth _ hmem)
      have hf0 : Frame s { s with pendingUrls := s.pendingUrls.delete url } :=
        ⟨rfl, rfl, rfl, fun _ hu => hu⟩
      exact ⟨h3.1, h3.2.1, Frame.trans hf0 h3.2.2⟩

theorem workerCatch_inv (api : URLApi) (s : Scraper) (url : String) (depth : Nat)
    (error : String) (hs : SharedInv s) :
    SharedInv (workerCatch api s url depth error).1 ∧
    PcOk (workerCatch api s url depth error).1 (workerCatch api s url depth error).2 ∧
    Frame s (workerCatch api s url depth error).1 := by
  unfold workerCatch
  have h1 : SharedInv { s with activeScraping := setDelete s.activeScraping url,
                                errors := s.errors ++ [⟨url, depth, error⟩] } :=
    ⟨hs.pendingDepth, hs.resultDepth, hs.disjoint, hs.size, hs.keysNodup⟩
  have h3 := loopTop_inv api _ h1
  have hf0 : Frame s { s with activeScraping := setDelete s.activeScraping url,
                              errors := s.errors ++ [⟨url, depth, error⟩] } :=
    ⟨rfl, rfl, rfl, fun _ hu => hu⟩
  exact ⟨h3.1, h3.2.1, Frame.trans hf0 h3.2.2⟩

theorem afterFetch_inv (api : URLApi) (s : Scraper) (url : String) (depth : Nat)
    (outcome : FetchOutcome) (hs : SharedInv s) (hd : (depth : Int) ≤ max 0 s.maxDepth) :
    SharedInv (afterFetch api s url depth outcome).1 ∧
    PcOk (afterFetch api s url depth outcome).1 (afterFetch api s url depth outcome).2 ∧
    Frame s (afterFetch api s url depth outcome).1 := by
  cases outcome with
  | success content =>
    have h1 : SharedInv { s with results := s.results ++ [⟨url, depth, content⟩] } := by
      refine ⟨hs.pendingDepth, ?_, hs.disjoint, hs.size, hs.keysNodup⟩
      intro r hr
      rcases List.mem_append.1 hr with h | h
      · exact hs.resultDepth r h
      · rw [List.mem_singleton.1 h]; exact hd
    have hf1 : Frame s { s with results := s.results ++ [⟨url, depth, content⟩] } :=
      ⟨rfl, rfl, rfl, fun _ h => h⟩
    simp only [afterFetch]
    split
    · rename_i hlt
      split
      · rename_i s2 hex
        have hd2 : ((depth + 1 : Nat) : Int) ≤
            max 0 ({ s with results := s.results ++ [⟨url, depth, content⟩] } :
              Scraper).maxDepth := by
          have : (depth : Int) < s.maxDepth := hlt
          have := le_max_right 0 s.maxDepth
          show ((depth + 1 : Nat) : Int) ≤ max 0 s.maxDepth
          push_cast
          omega
        exact ⟨extractAndQueueLinks_inv api _ s2 url content (depth + 1) h1 hd2 hex, trivial,
          Frame.trans hf1 (extractAndQueueLinks_ext api _ s2 url content (depth + 1) hex).frame⟩
      · have h3 := workerCatch_inv api _ url depth "Invalid URL" h1
        exact ⟨h3.1, h3.2.1, Frame.trans hf1 h3.2.2⟩
    · exact ⟨⟨h1.pendingDepth, h1.resultDepth, h1.disjoint, h1.size, h1.keysNodup⟩, trivial,
        ⟨rfl, rfl, rfl, fun _ h => h⟩⟩
  | failure error =>
    exact ⟨⟨hs.pendingDepth, hs.resultDepth, hs.disjoint, hs.size, hs.keysNodup⟩, trivial,
      ⟨rfl, rfl, rfl, fun _ h => h⟩⟩
  | threw error =>
    exact workerCatch_inv api s url depth error hs

theorem workerStep_inv (api : URLApi) (s : Scraper) (outcome : FetchOutcome) (pc : Pc)
    (hs : SharedInv s) (hpc : PcOk s pc) :
    SharedInv (workerStep api s outcome pc).1 ∧
    PcOk (workerStep api s outcome pc).1 (workerStep api s outcome pc).2 ∧
    Frame s (workerStep api s outcome pc).1 := by
  cases pc with
  | ready => exact loopTop_inv api s hs
  | awaitRobots url depth allowed =>
    cases allowed with
    | none => exact workerCatch_inv api s url depth "Invalid URL" hs
    | some b =>
      cases b with
      | false =>
        exact ⟨⟨hs.pendingDepth, hs.resultDepth, hs.disjoint, hs.size, hs.keysNodup⟩, trivial,
          ⟨rfl, rfl, rfl, fun _ h => h⟩⟩
      | true => exact ⟨hs, hpc, Frame.refl s⟩
  | fetching url depth => exact afterFetch_inv api s url depth outcome hs hpc.1
  | extracted url =>
    exact ⟨⟨hs.pendingDepth, hs.resultDepth, hs.disjoint, hs.size, hs.keysNodup⟩, trivial,
      ⟨rfl, rfl, rfl, fun _ h => h⟩⟩
  | finished => exact ⟨hs, trivial, Frame.refl s⟩

theorem step_inv (api : URLApi) (s : Scraper) (e : Event) (h : CrawlInv s) :
    CrawlInv (step api s e) ∧ (step api s e).maxDepth = s.maxDepth ∧
      (step api s e).maxPages = s.maxPages := by
  unfold step
  split
  · exact ⟨h, rfl, rfl⟩
  · rename_i pc hget
    obtain ⟨h1, h2, h3⟩ := workerStep_inv api s e.outcome pc h.1 (h.2 pc (List.get?_mem hget))
    refine ⟨⟨⟨h1.pendingDepth, h1.resultDepth, h1.disjoint, h1.size, h1.keysNodup⟩, ?_⟩,
      h3.maxDepth, h3.maxPages⟩
    intro pc2 hpc2
    rcases List.mem_or_eq_of_mem_set hpc2 with hm | rfl
    · rw [h3.workers] at hm
      have hold : PcOk s pc2 := h.2 pc2 hm
      exact PcOk.mono h3.maxDepth h3.visited hold
    · have hnew : PcOk (workerStep api s e.outcome pc).1 (workerStep api s e.outcome pc).2 := h2
      exact PcOk.mono rfl (fun _ hu => hu) hnew

theorem run_inv (api : URLApi) (events : List Event) (s : Scraper) (h : CrawlInv s) :
    CrawlInv (run api s events) ∧ (run api s events).maxDepth = s.maxDepth ∧
      (run api s events).maxPages = s.maxPages := by
  induction events generalizing s with
  | nil => exact ⟨h, rfl, rfl⟩
  | cons e es ih =>
    obtain ⟨h1, h2, h3⟩ := step_inv api s e h
    obtain ⟨h4, h5, h6⟩ := ih (step api s e) h1
    exact ⟨h4, h5.trans h2, h6.trans h3⟩

theorem loadRobotsTxt_fields (api : URLApi) (s s2 : Scraper) (url : String)
    (resp : RobotsResponse) (h : loadRobotsTxt api s url resp = some s2) :
    s2.maxDepth = s.maxDepth ∧ s2.maxPages = s.maxPages ∧ s2.visitedUrls = s.visitedUrls ∧
    s2.pendingUrls = s.pendingUrls ∧ s2.results = s.results := by
  unfold loadRobotsTxt at h
  split at h
  · cases h
  · split at h
    · cases h; simp
    · cases resp with
      | ok rules =>
        simp only [] at h
        split at h <;> (cases h; simp)
      | notOk => cases h; simp
      | threw => cases h; simp

theorem SharedInv.of_start (s : Scraper) (url : String) (hv : s.visitedUrls = [])
    (hr : s.results = []) (hp : s.pendingUrls = addUrlToPending [] s.maxPages url 0 10) :
    SharedInv s := by
  have hcases : s.pendingUrls = [] ∨
      (0 < s.maxPages * 2 ∧ s.pendingUrls = [(url, ⟨0, 10⟩)]) := by
    rw [hp]
    unfold addUrlToPending
    split
    · exact Or.inl rfl
    · rename_i hlt
      refine Or.inr ⟨?_, rfl⟩
      simpa using hlt
  refine ⟨?_, ?_, ?_, ?_, ?_⟩
  · intro e he
    rcases hcases with h | ⟨_, h⟩
    · rw [h] at he; cases he
    · rw [h, List.mem_singleton] at he
      rw [he]
      exact le_max_left _ _
  · intro r hr2
    rw [hr] at hr2; cases hr2
  · intro u hu
    rw [hv] at hu; cases hu
  · rcases hcases with h | ⟨hpos, h⟩
    · rw [h]; exact le_max_left _ _
    · rw [h]
      have := le_max_right 0 (s.maxPages * 2)
      simp only [List.length_singleton, Nat.cast_one]
      omega
  · rcases hcases with h | ⟨_, h⟩
    · rw [h]; simp
    · rw [h]; simp

theorem startCrawl_fields (api : URLApi) (s0 s : Scraper) (startUrl : String)
    (resp : RobotsResponse) (h : startCrawl api s0 startUrl resp = some s) :
    s.maxDepth = s0.maxDepth ∧ s.maxPages = s0.maxPages ∧ s.visitedUrls = [] ∧
    s.pendingUrls = addUrlToPending [] s0.maxPages startUrl 0 10 ∧ s.results = [] ∧
    s.workers = List.replicate s.concurrency.toNat Pc.ready := by
  unfold startCrawl at h
  simp only [] at h
  split at h
  · cases hl : loadRobotsTxt api _ startUrl resp with
    | none => rw [hl] at h; cases h
    | some s4 =>
      rw [hl] at h
      cases h
      obtain ⟨h1, h2, h3, h4, h5⟩ := loadRobotsTxt_fields api _ s4 startUrl resp hl
      exact ⟨h1, h2, h3, h4, h5, rfl⟩
  · cases h
    exact ⟨rfl, rfl, rfl, rfl, rfl, rfl⟩

theorem startCrawl_inv (api : URLApi) (s0 s : Scraper) (startUrl : String)
    (resp : RobotsResponse) (h : startCrawl api s0 startUrl resp = some s) :
    CrawlInv s ∧ s.maxDepth = s0.maxDepth ∧ s.maxPages = s0.maxPages := by
  obtain ⟨h1, h2, h3, h4, h5, h6⟩ := startCrawl_fields api s0 s startUrl resp h
  refine ⟨⟨SharedInv.of_start s startUrl h3 h5 (by rw [h4, h2]), ?_⟩, h1, h2⟩
  intro pc hpc
  rw [h6] at hpc
  rw [List.eq_of_mem_replicate hpc]
  trivial

/-- Every state of a crawl satisfies the invariant, and the configured limits
do not change. -/
theorem reachable_inv (api : URLApi) (s0 s : Scraper) (startUrl : String)
    (resp : RobotsResponse) (events : List Event)
    (h : startCrawl api s0 startUrl resp = some s) :
    CrawlInv (run api s events) ∧ (run api s events).maxDepth = s0.maxDepth ∧
      (run api s events).maxPages = s0.maxPages := by
  obtain ⟨h1, h2, h3⟩ := startCrawl_inv api s0 s startUrl resp h
  obtain ⟨h4, h5, h6⟩ := run_inv api events s h1
  exact ⟨h4, h5.trans h2, h6.trans h3⟩

theorem PendingMap.length_le_set (m : PendingMap) (url : String) (info : PendingInfo) :
    m.length ≤ (m.set url info).length := by
  induction m with
  | nil => simp [PendingMap.set]
  | cons hd tl ih =>
    obtain ⟨k, v⟩ := hd
    simp only [PendingMap.set]
    split
    · simp
    · simp only [List.length_cons]; omega

/-! ## The page budget (C1) -/

/-- C1, evaluated where it fails: with `maxPages = 2` and `concurrency = 2` the
crawl of `http://a.com/` (home page linking to `/b` and `/c`) completes under
the schedule `overshootSchedule` with three results: both workers pass the test
`results.length < maxPages` while one result is recorded, and both fetches then
push their result. -/
theorem results_exceed_maxPages_with_two_workers :
    startCrawl SimpleURL.api (construct Example.twoWorkers) "http://a.com/"
        RobotsResponse.notOk = some (Example.start Example.twoWorkers "http://a.com/") ∧
    (Example.start Example.twoWorkers "http://a.com/").concurrency = 2 ∧
    (Example.start Example.twoWorkers "http://a.com/").maxPages = 2 ∧
    completed (run SimpleURL.api (Example.start Example.twoWorkers "http://a.com/")
        Example.overshootSchedule) = true ∧
    (run SimpleURL.api (Example.start Example.twoWorkers "http://a.com/")
        Example.overshootSchedule).results.map PageResult.url
      = ["http://a.com/", "http://a.com/b", "http://a.com/c"] := by
  decide

/-! ## Depth bound (C2) -/

/-- C2: in every state of a crawl whose `maxDepth` is at least 0 (so in every
completed crawl) each entry of `results` and each pending entry has depth at
most `maxDepth`; the frontier starts with at most the seed, at depth 0. -/
theorem result_depth_le_maxDepth (api : URLApi) (s0 s : Scraper) (startUrl : String)
    (resp : RobotsResponse) (events : List Event) (hd : 0 ≤ s0.maxDepth)
    (h : startCrawl api s0 startUrl resp = some s) :
    (∀ r ∈ (run api s events).results, (r.depth : Int) ≤ s0.maxDepth) ∧
    (∀ e ∈ (run api s events).pendingUrls, (e.2.depth : Int) ≤ s0.maxDepth) ∧
    (∀ e ∈ s.pendingUrls, e = (startUrl, (⟨0, 10⟩ : PendingInfo))) := by
  obtain ⟨⟨hinv, _⟩, h2, _⟩ := reachable_inv api s0 s startUrl resp events h
  have hmax : max 0 (run api s events).maxDepth = s0.maxDepth := by
    rw [h2]; exact max_eq_right hd
  refine ⟨?_, ?_, ?_⟩
  · intro r hr
    have := hinv.resultDepth r hr
    rwa [hmax] at this
  · intro e he
    have := hinv.pendingDepth e he
    rwa [hmax] at this
  · intro e he
    rw [(startCrawl_fields api s0 s startUrl resp h).2.2.2.1] at he
    unfold addUrlToPending at he
    split at he
    · cases he
    · exact List.mem_singleton.1 he

/-- C2, at the crawl of `http://a.com/` with two workers. -/
theorem result_depth_le_maxDepth_witness :
    (∀ r ∈ (run SimpleURL.api (Example.start Example.twoWorkers "http://a.com/")
        Example.overshootSchedule).results,
      (r.depth : Int) ≤ (construct Example.twoWorkers).maxDepth) ∧
    (∀ e ∈ (run SimpleURL.api (Example.start Example.twoWorkers "http://a.com/")
        Example.overshootSchedule).pendingUrls,
      (e.2.depth : Int) ≤ (construct Example.twoWorkers).maxDepth) ∧
    (∀ e ∈ (Example.start Example.twoWorkers "http://a.com/").pendingUrls,
      e = ("http://a.com/", (⟨0, 10⟩ : PendingInfo))) :=
  result_depth_le_maxDepth SimpleURL.api (construct Example.twoWorkers)
    (Example.start Example.twoWorkers "http://a.com/") "http://a.com/" RobotsResponse.notOk
    Example.overshootSchedule (by decide) (by decide)

/-! ## Normalized URLs (C3) -/

/-- C3, evaluated where it fails: the seed `http://a.com/#top` is enqueued as
given, not normalized.  Its page links to `http://a.com/`, which is not in
`visitedUrls` as a string, so it is crawled too: the completed crawl has two
results, and two visited URLs, with the same normalized form. -/
theorem seed_is_not_normalized :
    completed (run SimpleURL.api (Example.start Example.oneWorker "http://a.com/#top")
        Example.fragmentSchedule) = true ∧
    (run SimpleURL.api (Example.start Example.oneWorker "http://a.com/#top")
        Example.fragmentSchedule).results.map PageResult.url
      = ["http://a.com/#top", "http://a.com/"] ∧
    (run SimpleURL.api (Example.start Example.oneWorker "http://a.com/#top")
        Example.fragmentSchedule).visitedUrls = ["http://a.com/#top", "http://a.com/"] ∧
    normalizeUrl SimpleURL.api "http://a.com/#top" = some "http://a.com/" ∧
    normalizeUrl SimpleURL.api "http://a.com/" = some "http://a.com/" := by
  decide

/-! ## Visited and pending (C4) -/

theorem foldl_queueLink_new (api : URLApi) (baseUrl domain : String) (nextDepth : Nat)
    (links : List Link) (s : Scraper) :
    ∀ e ∈ (links.foldl (queueLink api baseUrl domain nextDepth) s).pendingUrls,
      e ∈ s.pendingUrls ∨ e.1 ∉ s.visitedUrls := by
  induction links generalizing s with
  | nil => exact fun e he => Or.inl he
  | cons l ls ih =>
    intro e he
    rcases queueLink_cases api baseUrl domain nextDepth s l with h | ⟨n, p, hv, _, _, h⟩
    · simp only [List.foldl_cons, h] at he
      exact ih s e he
    · simp only [List.foldl_cons, h] at he
      rcases ih _ e he with h1 | h1
      · rcases List.mem_append.1 h1 with h2 | h2
        · exact Or.inl h2
        · rw [List.mem_singleton.1 h2]; exact Or.inr hv
      · exact Or.inr h1

/-- C4: in every state of a crawl no URL of `visitedUrls` is a key of
`pendingUrls`; a worker that awaits the robots check or the fetch of a URL has
that URL in `visitedUrls` already; and every entry that `extractAndQueueLinks`
adds to `pendingUrls` has a URL outside `visitedUrls`. -/
theorem visited_not_pending (api : URLApi) (s0 s : Scraper) (startUrl : String)
    (resp : RobotsResponse) (events : List Event)
    (h : startCrawl api s0 startUrl resp = some s) :
    (∀ u ∈ (run api s events).visitedUrls, (run api s events).pendingUrls.has u = false) ∧
    (∀ pc ∈ (run api s events).workers, ∀ url depth,
      (pc = Pc.fetching url depth ∨ ∃ a, pc = Pc.awaitRobots url depth a) →
        url ∈ (run api s events).visitedUrls) ∧
    (∀ (t t2 : Scraper) (baseUrl : String) (content : Content) (nextDepth : Nat),
      extractAndQueueLinks api t baseUrl content nextDepth = some t2 →
        ∀ e ∈ t2.pendingUrls, e ∈ t.pendingUrls ∨ e.1 ∉ t.visitedUrls) := by
  obtain ⟨⟨hinv, hpc⟩, _, _⟩ := reachable_inv api s0 s startUrl resp events h
  refine ⟨hinv.disjoint, ?_, ?_⟩
  · intro pc hmem url depth hcase
    have := hpc pc hmem
    rcases hcase with rfl | ⟨a, rfl⟩
    · exact this.2
    · exact this.2
  · intro t t2 baseUrl content nextDepth hex
    unfold extractAndQueueLinks at hex
    split at hex
    · cases hex; exact fun e he => Or.inl he
    · split at hex
      · cases hex
      · cases hex; exact foldl_queueLink_new _ _ _ _ _ _

/-- C4, at the state in which both workers of the two-worker crawl fetch. -/
theorem visited_not_pending_witness :
    (∀ u ∈ (run SimpleURL.api (Example.start Example.twoWorkers "http://a.com/")
        Example.bothInFlight).visitedUrls,
      (run SimpleURL.api (Example.start Example.twoWorkers "http://a.com/")
        Example.bothInFlight).pendingUrls.has u = false) ∧
    (∀ pc ∈ (run SimpleURL.api (Example.start Example.twoWorkers "http://a.com/")
        Example.bothInFlight).workers, ∀ url depth,
      (pc = Pc.fetching url depth ∨ ∃ a, pc = Pc.awaitRobots url depth a) →
        url ∈ (run SimpleURL.api (Example.start Example.twoWorkers "http://a.com/")
          Example.bothInFlight).visitedUrls) ∧
    (∀ (t t2 : Scraper) (baseUrl : String) (content : Content) (nextDepth : Nat),
      extractAndQueueLinks SimpleURL.api t baseUrl content nextDepth = some t2 →
        ∀ e ∈ t2.pendingUrls, e ∈ t.pendingUrls ∨ e.1 ∉ t.visitedUrls) :=
  visited_not_pending SimpleURL.api (construct Example.twoWorkers)
    (Example.start Example.twoWorkers "http://a.com/") "http://a.com/" RobotsResponse.notOk
    Example.bothInFlight (by decide)

/-! ## Frontier cap (C8) -/

/-- C8: in every state of a crawl with `maxPages >= 1` the frontier holds at
most `2 * maxPages` entries; `addUrlToPending` returns the frontier unchanged
when its size has reached `2 * maxPages`, and never adds more than one entry. -/
theorem pending_size_le_twice_maxPages (api : URLApi) (s0 s : Scraper) (startUrl : String)
    (resp : RobotsResponse) (events : List Event) (hm : 1 ≤ s0.maxPages)
    (h : startCrawl api s0 startUrl resp = some s) :
    ((run api s events).pendingUrls.length : Int) ≤ 2 * s0.maxPages ∧
    (∀ (p : PendingMap) (url : String) (depth : Nat) (priority : Int),
      (p.length : Int) ≥ 2 * s0.maxPages →
        addUrlToPending p s0.maxPages url depth priority = p) ∧
    (∀ (p : PendingMap) (url : String) (depth : Nat) (priority : Int),
      p.length ≤ (addUrlToPending p s0.maxPages url depth priority).length ∧
      (addUrlToPending p s0.maxPages url depth priority).length ≤ p.length + 1) := by
  obtain ⟨⟨hinv, _⟩, _, h3⟩ := reachable_inv api s0 s startUrl resp events h
  refine ⟨?_, ?_, ?_⟩
  · have := hinv.size
    rw [h3] at this
    have h2 : max 0 (s0.maxPages * 2) = s0.maxPages * 2 := max_eq_right (by omega)
    omega
  · intro p url depth priority hcap
    exact addUrlToPending_at_cap p s0.maxPages url depth priority (by omega)
  · intro p url depth priority
    refine ⟨?_, addUrlToPending_length_le p s0.maxPages url depth priority⟩
    unfold addUrlToPending
    split
    · exact le_refl _
    · exact PendingMap.length_le_set p url _

/-- C8, at the crawl with `maxPages = 1` after the home page is fetched: two
links are pending. -/
theorem pending_size_le_twice_maxPages_witness :
    ((run SimpleURL.api (Example.start Example.onePage "http://a.com/")
        [Example.resume 0, Example.deliver 0 Example.homePage]).pendingUrls.length : Int)
      ≤ 2 * (construct Example.onePage).maxPages ∧
    (∀ (p : PendingMap) (url : String) (depth : Nat) (priority : Int),
      (p.length : Int) ≥ 2 * (construct Example.onePage).maxPages →
        addUrlToPending p (construct Example.onePage).maxPages url depth priority = p) ∧
    (∀ (p : PendingMap) (url : String) (depth : Nat) (priority : Int),
      p.length ≤ (addUrlToPending p (construct Example.onePage).maxPages url depth
        priority).length ∧
      (addUrlToPending p (construct Example.onePage).maxPages url depth priority).length
        ≤ p.length + 1) :=
  pending_size_le_twice_maxPages SimpleURL.api (construct Example.onePage)
    (Example.start Example.onePage "http://a.com/") "http://a.com/" RobotsResponse.notOk
    [Example.resume 0, Example.deliver 0 Example.homePage] (by decide) (by decide)

/-! ## Links and the page cap (C5) -/

theorem PendingExt.fields {a b : Scraper} (h : PendingExt a b) :
    b.visitedUrls = a.visitedUrls ∧ a.pendingUrls <+: b.pendingUrls ∧
    b.results = a.results ∧ b.maxPages = a.maxPages := by
  obtain ⟨x, rfl⟩ := h
  exact ⟨rfl, List.prefix_append _ _, rfl, rfl⟩

theorem loopTop_at_cap (api : URLApi) (s : Scraper)
    (h : s.maxPages ≤ (s.results.length : Int)) : loopTop api s = (s, Pc.finished) := by
  have : shouldContinueProcessing s = false := by
    unfold shouldContinueProcessing
    have : ¬ ((s.results.length : Int) < s.maxPages) := by omega
    simp [this]
  simp [loopTop, this]

theorem workerStep_at_cap (api : URLApi) (s : Scraper) (outcome : FetchOutcome) (pc : Pc)
    (h : s.maxPages ≤ (s.results.length : Int)) :
    (workerStep api s outcome pc).1.visitedUrls = s.visitedUrls ∧
    s.pendingUrls <+: (workerStep api s outcome pc).1.pendingUrls ∧
    (workerStep api s outcome pc).1.maxPages = s.maxPages ∧
    s.results.length ≤ (workerStep api s outcome pc).1.results.length := by
  have hcatch : ∀ (t : Scraper) (url : String) (depth : Nat) (error : String),
      t.maxPages ≤ (t.results.length : Int) →
      (workerCatch api t url depth error).1.visitedUrls = t.visitedUrls ∧
      t.pendingUrls <+: (workerCatch api t url depth error).1.pendingUrls ∧
      (workerCatch api t url depth error).1.maxPages = t.maxPages ∧
      t.results.length ≤ (workerCatch api t url depth error).1.results.length := by
    intro t url depth error ht
    unfold workerCatch
    have hl := loopTop_at_cap api
      { t with activeScraping := setDelete t.activeScraping url,
               errors := t.errors ++ [CrawlError.mk url depth error] } ht
    rw [hl]
    exact ⟨rfl, List.prefix_refl _, rfl, le_refl _⟩
  cases pc with
  | ready =>
    simp only [workerStep]
    rw [loopTop_at_cap api s h]
    exact ⟨rfl, List.prefix_refl _, rfl, le_refl _⟩
  | awaitRobots url depth allowed =>
    cases allowed with
    | none => exact hcatch s url depth "Invalid URL" h
    | some b =>
      cases b with
      | false => exact ⟨rfl, List.prefix_refl _, rfl, le_refl _⟩
      | true => exact ⟨rfl, List.prefix_refl _, rfl, le_refl _⟩
  | fetching url depth =>
    cases outcome with
    | success content =>
      have h1 : s.maxPages
          ≤ (((s.results ++ [PageResult.mk url depth content]).length : Nat) : Int) := by
        simp only [List.length_append, List.length_singleton]
        push_cast
        omega
      simp only [workerStep, afterFetch]
      split
      · split
        · rename_i s2 hex
          obtain ⟨f1, f2, f3, f4⟩ :=
            (extractAndQueueLinks_ext api _ s2 url content _ hex).fields
          refine ⟨f1, f2, f4, ?_⟩
          rw [f3]
          simp
        · obtain ⟨c1, c2, c3, c4⟩ := hcatch
            { s with results := s.results ++ [PageResult.mk url depth content] }
            url depth "Invalid URL" h1
          refine ⟨c1, c2, c3, le_trans ?_ c4⟩
          simp
      · refine ⟨rfl, List.prefix_refl _, rfl, ?_⟩
        simp
    | failure error => exact ⟨rfl, List.prefix_refl _, rfl, le_refl _⟩
    | threw error => exact hcatch s url depth error h
  | extracted url => exact ⟨rfl, List.prefix_refl _, rfl, le_refl _⟩
  | finished => exact ⟨rfl, List.prefix_refl _, rfl, le_refl _⟩

theorem step_at_cap (api : URLApi) (s : Scraper) (e : Event)
    (h : s.maxPages ≤ (s.results.length : Int)) :
    (step api s e).visitedUrls = s.visitedUrls ∧
    s.pendingUrls <+: (step api s e).pendingUrls ∧
    (step api s e).maxPages ≤ ((step api s e).results.length : Int) := by
  unfold step
  split
  · exact ⟨rfl, List.prefix_refl _, h⟩
  · rename_i pc _
    obtain ⟨h1, h2, h3, h4⟩ := workerStep_at_cap api s e.outcome pc h
    refine ⟨h1, h2, ?_⟩
    show (workerStep api s e.outcome pc).1.maxPages
      ≤ ((workerStep api s e.outcome pc).1.results.length : Int)
    rw [h3]
    omega

/-- C5, refuted as stated.  With `maxPages = 1` the fetch of the home page
brings `results.length` to the cap and its links `/b` and `/c` are enqueued.
With `maxPages = 2` and two workers, the fetch of `/c` completes when two
results are recorded and its link `/d` is enqueued. -/
theorem links_are_enqueued_at_the_cap :
    ((run SimpleURL.api (Example.start Example.onePage "http://a.com/")
        [Example.resume 0]).pendingUrls = [] ∧
      (run SimpleURL.api (Example.start Example.onePage "http://a.com/")
        [Example.resume 0, Example.deliver 0 Example.homePage]).maxPages = 1 ∧
      (run SimpleURL.api (Example.start Example.onePage "http://a.com/")
        [Example.resume 0, Example.deliver 0 Example.homePage]).results.length = 1 ∧
      (run SimpleURL.api (Example.start Example.onePage "http://a.com/")
        [Example.resume 0, Example.deliver 0 Example.homePage]).pendingUrls.map Prod.fst
        = ["http://a.com/b", "http://a.com/c"]) ∧
    ((run SimpleURL.api (Example.start Example.twoWorkers "http://a.com/")
        (Example.bothInFlight ++ [Example.deliver 1 Example.leafPage])).maxPages = 2 ∧
      (run SimpleURL.api (Example.start Example.twoWorkers "http://a.com/")
        (Example.bothInFlight ++ [Example.deliver 1 Example.leafPage])).results.length = 2 ∧
      (run SimpleURL.api (Example.start Example.twoWorkers "http://a.com/")
        (Example.bothInFlight ++ [Example.deliver 1 Example.leafPage])).pendingUrls = [] ∧
      (run SimpleURL.api (Example.start Example.twoWorkers "http://a.com/")
        (Example.bothInFlight ++ [Example.deliver 1 Example.leafPage,
          Example.deliver 0 Example.pageToD])).pendingUrls.map Prod.fst
        = ["http://a.com/d"]) := by
  decide

/-- C5, amended: once `results.length >= maxPages` no entry is removed from
`pendingUrls` and no URL is added to `visitedUrls` (nothing more is dequeued),
in every later state; entries can only be appended behind the pending ones. -/
theorem nothing_dequeued_after_cap (api : URLApi) (s : Scraper) (events : List Event)
    (h : s.maxPages ≤ (s.results.length : Int)) :
    (run api s events).visitedUrls = s.visitedUrls ∧
    s.pendingUrls <+: (run api s events).pendingUrls := by
  induction events generalizing s with
  | nil => exact ⟨rfl, List.prefix_refl _⟩
  | cons e es ih =>
    obtain ⟨h1, h2, h3⟩ := step_at_cap api s e h
    obtain ⟨h4, h5⟩ := ih (step api s e) h3
    exact ⟨h4.trans h1, h2.trans h5⟩

/-- C5 amended, at the two-worker crawl once two results are recorded. -/
theorem nothing_dequeued_after_cap_witness :
    (run SimpleURL.api
        (run SimpleURL.api (Example.start Example.twoWorkers "http://a.com/")
          (Example.bothInFlight ++ [Example.deliver 1 Example.leafPage]))
        [Example.deliver 0 Example.pageToD, Example.resume 1, Example.resume 0]).visitedUrls
      = (run SimpleURL.api (Example.start Example.twoWorkers "http://a.com/")
          (Example.bothInFlight ++ [Example.deliver 1 Example.leafPage])).visitedUrls ∧
    (run SimpleURL.api (Example.start Example.twoWorkers "http://a.com/")
        (Example.bothInFlight ++ [Example.deliver 1 Example.leafPage])).pendingUrls <+:
      (run SimpleURL.api
        (run SimpleURL.api (Example.start Example.twoWorkers "http://a.com/")
          (Example.bothInFlight ++ [Example.deliver 1 Example.leafPage]))
        [Example.deliver 0 Example.pageToD, Example.resume 1, Example.resume 0]).pendingUrls :=
  nothing_dequeued_after_cap SimpleURL.api
    (run SimpleURL.api (Example.start Example.twoWorkers "http://a.com/")
      (Example.bothInFlight ++ [Example.deliver 1 Example.leafPage]))
    [Example.deliver 0 Example.pageToD, Example.resume 1, Example.resume 0] (by decide)

/-! ## `maxPages = 0` (C6) -/

theorem loadRobotsTxt_config (api : URLApi) (s s2 : Scraper) (url : String)
    (resp : RobotsResponse) (h : loadRobotsTxt api s url resp = some s2) :
    s2.concurrency = s.concurrency ∧ s2.respectRobotsTxt = s.respectRobotsTxt ∧
    s2.activeScraping = s.activeScraping := by
  unfold loadRobotsTxt at h
  split at h
  · cases h
  · split at h
    · cases h; simp
    · cases resp with
      | ok rules =>
        simp only [] at h
        split at h <;> (cases h; simp)
      | notOk => cases h; simp
      | threw => cases h; simp

theorem startCrawl_config (api : URLApi) (s0 s : Scraper) (startUrl : String)
    (resp : RobotsResponse) (h : startCrawl api s0 startUrl resp = some s) :
    s.concurrency = s0.concurrency ∧ s.respectRobotsTxt = s0.respectRobotsTxt ∧
    s.activeScraping = s0.activeScraping := by
  unfold startCrawl at h
  simp only [] at h
  split at h
  · cases hl : loadRobotsTxt api _ startUrl resp with
    | none => rw [hl] at h; cases h
    | some s4 =>
      rw [hl] at h
      cases h
      have := loadRobotsTxt_config api _ s4 startUrl resp hl
      exact this
  · cases h
    exact ⟨rfl, rfl, rfl⟩

theorem getNextUrl_singleton (url : String) (depth : Nat) (priority : Int)
    (hu : url ≠ "") (hp : -1 < priority) :
    getNextUrl [(url, ⟨depth, priority⟩)] = (some ⟨url, depth, priority⟩, []) := by
  have hp2 : priority > -1 := hp
  simp [getNextUrl, bestLoop, hp2, hu, PendingMap.get, PendingMap.delete]

/-- C6, refuted as stated: the tool arguments `{url: 'http://a.com/',
maxPages: 0}` give a crawler with `maxPages = 100`; its first worker dequeues
the seed and, once the robots check has passed, awaits the page fetch, whose
result is recorded. -/
theorem maxPages_zero_still_fetches :
    Example.zeroPagesArgs.maxPages = some 0 ∧
    (construct (executeConfig Example.zeroPagesArgs)).maxPages = 100 ∧
    startCrawl SimpleURL.api (construct (executeConfig Example.zeroPagesArgs)) "http://a.com/"
        RobotsResponse.notOk
      = some (Example.start (executeConfig Example.zeroPagesArgs) "http://a.com/") ∧
    (run SimpleURL.api (Example.start (executeConfig Example.zeroPagesArgs) "http://a.com/")
        [Example.resume 0, Example.resume 0]).workers
      = [Pc.fetching "http://a.com/" 0, Pc.ready] ∧
    (run SimpleURL.api (Example.start (executeConfig Example.zeroPagesArgs) "http://a.com/")
        [Example.resume 0, Example.resume 0,
          Example.deliver 0 Example.leafPage]).results.map PageResult.url
      = ["http://a.com/"] := by
  decide

/-- C6, amended: a `maxPages` of 0, passed to the constructor or through the
tool arguments, is replaced by the default 100.  The crawl of a non-empty seed
then starts with the seed pending, and the first step of the first worker
dequeues it, marks it visited and begins to process it: it awaits the robots
check if `respectRobotsTxt` is set, the page fetch otherwise. -/
theorem maxPages_zero_runs_with_default (api : URLApi) (config : Config) (startUrl : String)
    (resp : RobotsResponse) (s : Scraper) (outcome : FetchOutcome)
    (h0 : config.maxPages = some 0 ∨
      ∃ args : Args, args.maxPages = some 0 ∧ config = executeConfig args)
    (hu : startUrl ≠ "") (hc : 0 < (construct config).concurrency)
    (h : startCrawl api (construct config) startUrl resp = some s) :
    s.maxPages = 100 ∧
    s.pendingUrls = [(startUrl, ⟨0, 10⟩)] ∧
    (step api s ⟨0, outcome⟩).visitedUrls = [startUrl] ∧
    (step api s ⟨0, outcome⟩).pendingUrls = [] ∧
    (step api s ⟨0, outcome⟩).workers.head? = some
      (if s.respectRobotsTxt then
        Pc.awaitRobots startUrl 0 (isAllowedByRobots api s.robotsCache startUrl)
      else Pc.fetching startUrl 0) := by
  have hmp : (construct config).maxPages = 100 := by
    rcases h0 with h0 | ⟨args, ha, rfl⟩
    · simp [construct, orDefault, h0]
    · simp [construct, executeConfig, orDefault, ha]
  obtain ⟨_, f2, f3, f4, f5, f6⟩ := startCrawl_fields api _ s startUrl resp h
  obtain ⟨g1, _, g3⟩ := startCrawl_config api _ s startUrl resp h
  have hpend : s.pendingUrls = [(startUrl, ⟨0, 10⟩)] := by
    rw [f4, hmp]
    simp [addUrlToPending, PendingMap.set]
  have hact : s.activeScraping = [] := g3
  have hwork : ∃ n, s.workers = Pc.ready :: List.replicate n Pc.ready := by
    rw [f6, g1]
    obtain ⟨n, hn⟩ : ∃ n, (construct config).concurrency.toNat = n + 1 :=
      ⟨(construct config).concurrency.toNat - 1, by omega⟩
    exact ⟨n, by rw [hn]; rfl⟩
  obtain ⟨n, hw⟩ := hwork
  have hcont : shouldContinueProcessing s = true := by
    simp [shouldContinueProcessing, f5, f2, hmp, hpend]
  have hloop : loopTop api s = processUrlStart api { s with pendingUrls := [] } startUrl 0 := by
    simp [loopTop, hcont, hpend, getNextUrl_singleton startUrl 0 10 hu (by decide)]
  refine ⟨f2.trans hmp, hpend, ?_⟩
  cases hr : s.respectRobotsTxt <;>
    simp [step, hw, workerStep, hloop, processUrlStart, f3, setAdd, hr]

/-- C6 amended, at the tool arguments `{url: 'http://a.com/', maxPages: 0}`. -/
theorem maxPages_zero_runs_with_default_witness :
    (Example.start (executeConfig Example.zeroPagesArgs) "http://a.com/").maxPages = 100 ∧
    (Example.start (executeConfig Example.zeroPagesArgs) "http://a.com/").pendingUrls
      = [("http://a.com/", ⟨0, 10⟩)] ∧
    (step SimpleURL.api (Example.start (executeConfig Example.zeroPagesArgs) "http://a.com/")
      ⟨0, FetchOutcome.failure ""⟩).visitedUrls = ["http://a.com/"] ∧
    (step SimpleURL.api (Example.start (executeConfig Example.zeroPagesArgs) "http://a.com/")
      ⟨0, FetchOutcome.failure ""⟩).pendingUrls = [] ∧
    (step SimpleURL.api (Example.start (executeConfig Example.zeroPagesArgs) "http://a.com/")
      ⟨0, FetchOutcome.failure ""⟩).workers.head? = some
      (if (Example.start (executeConfig Example.zeroPagesArgs)
          "http://a.com/").respectRobotsTxt then
        Pc.awaitRobots "http://a.com/" 0 (isAllowedByRobots SimpleURL.api
          (Example.start (executeConfig Example.zeroPagesArgs) "http://a.com/").robotsCache
          "http://a.com/")
      else Pc.fetching "http://a.com/" 0) :=
  maxPages_zero_runs_with_default SimpleURL.api (executeConfig Example.zeroPagesArgs)
    "http://a.com/" RobotsResponse.notOk
    (Example.start (executeConfig Example.zeroPagesArgs) "http://a.com/")
    (FetchOutcome.failure "")
    (Or.inr ⟨Example.zeroPagesArgs, by decide, rfl⟩) (by decide) (by decide) (by decide)

/-! ## The page budget with in-flight fetches -/

theorem countP_set_inFlight (ws : List Pc) (i : Nat) (pc pc2 : Pc)
    (h : ws.get? i = some pc) :
    (ws.set i pc2).countP inFlight + (if inFlight pc then 1 else 0)
      = ws.countP inFlight + (if inFlight pc2 then 1 else 0) := by
  induction ws generalizing i with
  | nil => cases h
  | cons hd tl ih =>
    cases i with
    | zero =>
      simp only [List.get?_cons_zero, Option.some.injEq] at h
      subst h
      simp only [List.set_cons_zero, List.countP_cons]
      omega
    | succ j =>
      simp only [List.get?_cons_succ] at h
      have := ih j h
      simp only [List.set_cons_succ, List.countP_cons]
      omega

theorem processUrlStart_results (api : URLApi) (s : Scraper) (url : String) (depth : Nat) :
    (processUrlStart api s url depth).1.results = s.results ∧
    (processUrlStart api s url depth).1.maxPages = s.maxPages ∧
    (processUrlStart api s url depth).1.workers = s.workers := by
  unfold processUrlStart
  split
  · exact ⟨rfl, rfl, rfl⟩
  · simp only []
    split <;> exact ⟨rfl, rfl, rfl⟩

theorem loopTop_budget (api : URLApi) (s : Scraper) :
    (loopTop api s).1.results = s.results ∧ (loopTop api s).1.maxPages = s.maxPages ∧
    (loopTop api s).1.workers = s.workers ∧
    (inFlight (loopTop api s).2 = false ∨ (s.results.length : Int) < s.maxPages) := by
  unfold loopTop
  split
  · exact ⟨rfl, rfl, rfl, Or.inl rfl⟩
  · rename_i hcont
    have hlt : (s.results.length : Int) < s.maxPages := by
      have hc : shouldContinueProcessing s = true := by simpa using hcont
      unfold shouldContinueProcessing at hc
      simp only [Bool.and_eq_true, decide_eq_true_eq] at hc
      exact hc.1
    rcases getNextUrl_cases s.pendingUrls with h | ⟨url, info, _, h⟩
    · rw [h]; exact ⟨rfl, rfl, rfl, Or.inl rfl⟩
    · rw [h]
      dsimp only
      obtain ⟨h1, h2, h3⟩ := processUrlStart_results api
        { s with pendingUrls := s.pendingUrls.delete url } url info.depth
      exact ⟨h1, h2, h3, Or.inr hlt⟩

/-- One stretch of a worker either does not raise the number of results plus
fetches in flight, or it ends in a fresh dequeue made below the budget. -/
theorem workerStep_budget (api : URLApi) (s : Scraper) (outcome : FetchOutcome) (pc : Pc) :
    (workerStep api s outcome pc).1.maxPages = s.maxPages ∧
    (workerStep api s outcome pc).1.workers = s.workers ∧
    ((workerStep api s outcome pc).1.results.length
        + (if inFlight (workerStep api s outcome pc).2 then 1 else 0)
        ≤ s.results.length + (if inFlight pc then 1 else 0) ∨
      ((workerStep api s outcome pc).1.results.length : Int)
        < (workerStep api s outcome pc).1.maxPages) := by
  have hloop : ∀ t : Scraper,
      (loopTop api t).1.maxPages = t.maxPages ∧ (loopTop api t).1.workers = t.workers ∧
      ((loopTop api t).1.results.length + (if inFlight (loopTop api t).2 then 1 else 0)
          ≤ t.results.length ∨
        ((loopTop api t).1.results.length : Int) < (loopTop api t).1.maxPages) := by
    intro t
    obtain ⟨h1, h2, h3, h4⟩ := loopTop_budget api t
    refine ⟨h2, h3, ?_⟩
    rcases h4 with h4 | h4
    · left; rw [h1, h4]; simp
    · right; rw [h1, h2]; exact h4
  have hcatch : ∀ (t : Scraper) (url : String) (depth : Nat) (error : String),
      (workerCatch api t url depth error).1.maxPages = t.maxPages ∧
      (workerCatch api t url depth error).1.workers = t.workers ∧
      ((workerCatch api t url depth error).1.results.length
          + (if inFlight (workerCatch api t url depth error).2 then 1 else 0)
          ≤ t.results.length ∨
        ((workerCatch api t url depth error).1.results.length : Int)
          < (workerCatch api t url depth error).1.maxPages) := by
    intro t url depth error
    exact hloop { t with activeScraping := setDelete t.activeScraping url,
                         errors := t.errors ++ [CrawlError.mk url depth error] }
  cases pc with
  | ready =>
    obtain ⟨h1, h2, h3⟩ := hloop s
    exact ⟨h1, h2, h3.imp (fun h => by simpa [inFlight] using h) id⟩
  | awaitRobots url depth allowed =>
    cases allowed with
    | none =>
      obtain ⟨h1, h2, h3⟩ := hcatch s url depth "Invalid URL"
      exact ⟨h1, h2, h3.imp (fun h => Nat.le_succ_of_le h) id⟩
    | some b =>
      cases b with
      | false => exact ⟨rfl, rfl, Or.inl (by simp [workerStep, inFlight])⟩
      | true => exact ⟨rfl, rfl, Or.inl (by simp [workerStep, inFlight])⟩
  | fetching url depth =>
    cases outcome with
    | success content =>
      simp only [workerStep, afterFetch]
      split
      · split
        · rename_i s2 hex
          obtain ⟨_, _, f3, f4⟩ :=
            (extractAndQueueLinks_ext api _ s2 url content _ hex).fields
          have f5 := (extractAndQueueLinks_ext api _ s2 url content _ hex).frame.workers
          refine ⟨f4, f5, Or.inl ?_⟩
          rw [f3]
          simp [inFlight]
        · obtain ⟨h1, h2, h3⟩ := hcatch
            { s with results := s.results ++ [PageResult.mk url depth content] }
            url depth "Invalid URL"
          refine ⟨h1, h2, h3.imp (fun h => ?_) id⟩
          simpa [inFlight] using h
      · exact ⟨rfl, rfl, Or.inl (by simp [inFlight])⟩
    | failure error => exact ⟨rfl, rfl, Or.inl (by simp [workerStep, afterFetch, inFlight])⟩
    | threw error =>
      obtain ⟨h1, h2, h3⟩ := hcatch s url depth error
      exact ⟨h1, h2, h3.imp (fun h => Nat.le_succ_of_le h) id⟩
  | extracted url => exact ⟨rfl, rfl, Or.inl (by simp [workerStep, inFlight])⟩
  | finished => exact ⟨rfl, rfl, Or.inl (by simp [workerStep, inFlight])⟩

theorem step_budget (api : URLApi) (s : Scraper) (e : Event) (h : BudgetInv s) :
    BudgetInv (step api s e) ∧ (step api s e).maxPages = s.maxPages ∧
      (step api s e).workers.length = s.workers.length := by
  unfold step
  split
  · exact ⟨h, rfl, rfl⟩
  · rename_i pc hget
    obtain ⟨h1, h2, h3⟩ := workerStep_budget api s e.outcome pc
    have hcount := countP_set_inFlight s.workers e.worker pc
      (workerStep api s e.outcome pc).2 hget
    refine ⟨?_, h1, by simp [h2]⟩
    unfold BudgetInv at h ⊢
    simp only [h2, h1, List.length_set]
    rcases h3 with h3 | h3
    · have : ((workerStep api s e.outcome pc).1.results.length : Int)
          + ((s.workers.set e.worker (workerStep api s e.outcome pc).2).countP inFlight : Nat)
          ≤ (s.results.length : Int) + (s.workers.countP inFlight : Nat) := by
        split at h3 <;> split at h3 <;> simp_all <;> omega
      omega
    · have hle : (s.workers.set e.worker (workerStep api s e.outcome pc).2).countP inFlight
          ≤ s.workers.length := by
        have := List.countP_le_length inFlight
          (l := s.workers.set e.worker (workerStep api s e.outcome pc).2)
        simpa using this
      rw [h1] at h3
      have := le_max_right 0 (s.maxPages - 1)
      omega

/-- In every state of a crawl, the results recorded and the fetches in flight
together number at most `max 0 (maxPages - 1)` plus the number of workers: a
single worker keeps `results.length <= maxPages` (for `maxPages >= 1`), and
`concurrency` workers can exceed the budget by `concurrency - 1`. -/
theorem results_le_budget_plus_workers (api : URLApi) (s0 s : Scraper) (startUrl : String)
    (resp : RobotsResponse) (events : List Event)
    (h : startCrawl api s0 startUrl resp = some s) :
    ((run api s events).results.length : Int)
      ≤ max 0 (s0.maxPages - 1) + (s0.concurrency.toNat : Int) := by
  have hstart : BudgetInv s ∧ s.maxPages = s0.maxPages ∧
      s.workers.length = s0.concurrency.toNat := by
    obtain ⟨_, f2, _, _, f5, f6⟩ := startCrawl_fields api s0 s startUrl resp h
    obtain ⟨g1, _, _⟩ := startCrawl_config api s0 s startUrl resp h
    refine ⟨?_, f2, by rw [f6, g1]; simp⟩
    unfold BudgetInv
    have hz : (s.workers.countP inFlight) = 0 := by
      rw [f6]
      induction s.concurrency.toNat with
      | zero => rfl
      | succ n ih => simp [List.replicate_succ, inFlight]
    rw [f5, hz]
    have := le_max_left 0 (s.maxPages - 1)
    simp only [List.length_nil, Nat.cast_zero]
    omega
  have hrun : ∀ (evs : List Event) (t : Scraper), BudgetInv t →
      BudgetInv (run api t evs) ∧ (run api t evs).maxPages = t.maxPages ∧
        (run api t evs).workers.length = t.workers.length := by
    intro evs
    induction evs with
    | nil => exact fun t ht => ⟨ht, rfl, rfl⟩
    | cons e es ih =>
      intro t ht
      obtain ⟨a1, a2, a3⟩ := step_budget api t e ht
      obtain ⟨b1, b2, b3⟩ := ih (step api t e) a1
      exact ⟨b1, b2.trans a2, b3.trans a3⟩
  obtain ⟨r1, r2, r3⟩ := hrun events s hstart.1
  unfold BudgetInv at r1
  rw [r2, r3, hstart.2.1, hstart.2.2] at r1
  omega

/-! ## Link priority (C13, C14) -/

theorem calculateLinkPriority_range (api : URLApi) (linkUrl : api.U) :
    1 ≤ calculateLinkPriority api linkUrl ∧ calculateLinkPriority api linkUrl ≤ 10 := by
  unfold calculateLinkPriority
  simp only []
  constructor
  · exact le_max_left _ _
  · exact max_le (by decide) (min_le_left _ _)

theorem queueLink_pending_mem (api : URLApi) (baseUrl domain : String) (nextDepth : Nat)
    (s : Scraper) (link : Link) :
    ∀ e ∈ (queueLink api baseUrl domain nextDepth s link).pendingUrls,
      e ∈ s.pendingUrls ∨ ∃ linkUrl, e.2.priority = calculateLinkPriority api linkUrl := by
  intro e he
  unfold queueLink at he
  split at he
  · exact Or.inl he
  · rename_i linkUrl _
    split at he
    · exact Or.inl he
    · split at he
      · exact Or.inl he
      · rename_i n _
        split at he
        · rename_i hcond
          simp only [Bool.and_eq_true, Bool.not_eq_true'] at hcond
          unfold addUrlToPending at he
          simp only [] at he
          split at he
          · exact Or.inl he
          · rw [PendingMap.set_of_not_has _ _ _ hcond.2] at he
            rcases List.mem_append.1 he with h | h
            · exact Or.inl h
            · rw [List.mem_singleton.1 h]
              exact Or.inr ⟨linkUrl, rfl⟩
        · exact Or.inl he

theorem foldl_queueLink_pending_mem (api : URLApi) (baseUrl domain : String)
    (nextDepth : Nat) (links : List Link) (s : Scraper) :
    ∀ e ∈ (links.foldl (queueLink api baseUrl domain nextDepth) s).pendingUrls,
      e ∈ s.pendingUrls ∨ ∃ linkUrl, e.2.priority = calculateLinkPriority api linkUrl := by
  induction links generalizing s with
  | nil => exact fun e he => Or.inl he
  | cons l ls ih =>
    intro e he
    rcases ih _ e he with h | h
    · exact queueLink_pending_mem api baseUrl domain nextDepth s l e h
    · exact Or.inr h

theorem priorityInv_workerStep (api : URLApi) (s : Scraper) (outcome : FetchOutcome)
    (pc : Pc) (h : PriorityInv s) : PriorityInv (workerStep api s outcome pc).1 := by
  have hloop : ∀ t : Scraper, PriorityInv t → PriorityInv (loopTop api t).1 := by
    intro t ht
    unfold loopTop
    split
    · exact ht
    · rcases getNextUrl_cases t.pendingUrls with hg | ⟨url, info, _, hg⟩
      · rw [hg]; exact ht
      · rw [hg]
        dsimp only
        have hdel : PriorityInv { t with pendingUrls := t.pendingUrls.delete url } :=
          fun e he => ht e ((PendingMap.mem_delete _ _ _).1 he).1
        unfold processUrlStart
        split
        · exact hdel
        · simp only []
          split <;> exact hdel
  have hcatch : ∀ (t : Scraper) (url : String) (depth : Nat) (error : String),
      PriorityInv t → PriorityInv (workerCatch api t url depth error).1 := by
    intro t url depth error ht
    exact hloop { t with activeScraping := setDelete t.activeScraping url,
                         errors := t.errors ++ [CrawlError.mk url depth error] } ht
  cases pc with
  | ready => exact hloop s h
  | awaitRobots url depth allowed =>
    cases allowed with
    | none => exact hcatch s url depth "Invalid URL" h
    | some b => cases b <;> exact h
  | fetching url depth =>
    cases outcome with
    | success content =>
      simp only [workerStep, afterFetch]
      split
      · split
        · rename_i s2 hex
          unfold extractAndQueueLinks at hex
          split at hex
          · cases hex; exact h
          · split at hex
            · cases hex
            · cases hex
              intro e he
              rcases foldl_queueLink_pending_mem _ _ _ _ _ _ e he with h1 | ⟨l, h1⟩
              · exact h e h1
              · rw [h1]; exact calculateLinkPriority_range api l
        · exact hcatch
            { s with results := s.results ++ [PageResult.mk url depth content] }
            url depth "Invalid URL" h
      · exact h
    | failure error => exact h
    | threw error => exact hcatch s url depth error h
  | extracted url => exact h
  | finished => exact h

theorem priorityInv_run (api : URLApi) (events : List Event) (s : Scraper)
    (h : PriorityInv s) : PriorityInv (run api s events) := by
  induction events generalizing s with
  | nil => exact h
  | cons e es ih =>
    apply ih
    unfold step
    split
    · exact h
    · exact priorityInv_workerStep api s e.outcome _ h

/-- C13: `calculateLinkPriority` reads only the path of the link URL (not the
link text, not the base URL) and returns
`min(10, max(1, 5 + 3*[high] - 2*[low] + [depth <= 2]))`, where `[high]` and
`[low]` say whether the path contains one of the high-value or low-value
patterns and the depth is the number of non-empty path segments; and in every
state of a crawl each pending entry, the seed with its priority 10 included,
has a priority in `[1,10]`. -/
theorem priority_formula_and_range (api : URLApi) (s0 s : Scraper) (startUrl : String)
    (resp : RobotsResponse) (events : List Event)
    (h : startCrawl api s0 startUrl resp = some s) :
    (∀ linkUrl : api.U, calculateLinkPriority api linkUrl =
      min 10 (max 1 (5
        + 3 * (if (["/docs", "/documentation", "/help", "/support", "/api"].any
            fun p => jsIncludes (api.pathname linkUrl) p) then 1 else 0)
        - 2 * (if (["/contact", "/about", "/privacy", "/terms"].any
            fun p => jsIncludes (api.pathname linkUrl) p) then 1 else 0)
        + (if ((splitOnChar '/' (api.pathname linkUrl).data).filter
            fun seg => !seg.isEmpty).length ≤ 2 then 1 else 0)))) ∧
    (∀ e ∈ s.pendingUrls, e = (startUrl, (⟨0, 10⟩ : PendingInfo))) ∧
    (∀ e ∈ (run api s events).pendingUrls, 1 ≤ e.2.priority ∧ e.2.priority ≤ 10) := by
  have hseed : ∀ e ∈ s.pendingUrls, e = (startUrl, (⟨0, 10⟩ : PendingInfo)) := by
    intro e he
    rw [(startCrawl_fields api s0 s startUrl resp h).2.2.2.1] at he
    unfold addUrlToPending at he
    split at he
    · cases he
    · exact List.mem_singleton.1 he
  refine ⟨?_, hseed, ?_⟩
  · intro linkUrl
    unfold calculateLinkPriority pathDepth highPriorityPatterns lowPriorityPatterns
    simp only []
    split <;> split <;> split <;> simp
  · apply priorityInv_run
    intro e he
    rw [hseed e he]
    show (1 : Int) ≤ 10 ∧ (10 : Int) ≤ 10
    exact ⟨by decide, by decide⟩

/-- C13, at the crawl with `maxPages = 1` after the home page is fetched. -/
theorem priority_formula_and_range_witness :
    (∀ linkUrl : SimpleURL.api.U, calculateLinkPriority SimpleURL.api linkUrl =
      min 10 (max 1 (5
        + 3 * (if (["/docs", "/documentation", "/help", "/support", "/api"].any
            fun p => jsIncludes (SimpleURL.api.pathname linkUrl) p) then 1 else 0)
        - 2 * (if (["/contact", "/about", "/privacy", "/terms"].any
            fun p => jsIncludes (SimpleURL.api.pathname linkUrl) p) then 1 else 0)
        + (if ((splitOnChar '/' (SimpleURL.api.pathname linkUrl).data).filter
            fun seg => !seg.isEmpty).length ≤ 2 then 1 else 0)))) ∧
    (∀ e ∈ (Example.start Example.onePage "http://a.com/").pendingUrls,
      e = ("http://a.com/", (⟨0, 10⟩ : PendingInfo))) ∧
    (∀ e ∈ (run SimpleURL.api (Example.start Example.onePage "http://a.com/")
        [Example.resume 0, Example.deliver 0 Example.homePage]).pendingUrls,
      1 ≤ e.2.priority ∧ e.2.priority ≤ 10) :=
  priority_formula_and_range SimpleURL.api (construct Example.onePage)
    (Example.start Example.onePage "http://a.com/") "http://a.com/" RobotsResponse.notOk
    [Example.resume 0, Example.deliver 0 Example.homePage] (by decide)

/-- C14: of two link URLs with the same path-depth bonus, one whose path
contains a high-value pattern and no low-value pattern has a strictly higher
priority than one whose path contains a low-value pattern and no high-value
pattern. -/
theorem high_value_beats_low_value (api : URLApi) (a b : api.U)
    (hdepth : decide (pathDepth (api.pathname a) ≤ 2) = decide (pathDepth (api.pathname b) ≤ 2))
    (ha1 : (["/docs", "/documentation", "/help", "/support", "/api"].any
      fun p => jsIncludes (api.pathname a) p) = true)
    (ha2 : (["/contact", "/about", "/privacy", "/terms"].any
      fun p => jsIncludes (api.pathname a) p) = false)
    (hb1 : (["/contact", "/about", "/privacy", "/terms"].any
      fun p => jsIncludes (api.pathname b) p) = true)
    (hb2 : (["/docs", "/documentation", "/help", "/support", "/api"].any
      fun p => jsIncludes (api.pathname b) p) = false) :
    calculateLinkPriority api b < calculateLinkPriority api a := by
  unfold calculateLinkPriority highPriorityPatterns lowPriorityPatterns
  simp only [ha1, ha2, hb1, hb2]
  by_cases h : pathDepth (api.pathname a) ≤ 2
  · have hb : pathDepth (api.pathname b) ≤ 2 := by
      have := hdepth
      simp only [h, decide_True] at this
      exact of_decide_eq_true this.symm
    simp [h, hb]
  · have hb : ¬ pathDepth (api.pathname b) ≤ 2 := by
      have := hdepth
      simp only [h, decide_False] at this
      exact of_decide_eq_false this.symm
    simp [h, hb]

/-- C14, at the paths `/docs/intro` (priority 9) and `/contact` (priority 4). -/
theorem high_value_beats_low_value_witness :
    calculateLinkPriority SimpleURL.api
        (⟨"http:", "a.com", "/contact", "", "", ""⟩ : SimpleURL.Obj)
      < calculateLinkPriority SimpleURL.api
        (⟨"http:", "a.com", "/docs/intro", "", "", ""⟩ : SimpleURL.Obj) :=
  high_value_beats_low_value SimpleURL.api
    (⟨"http:", "a.com", "/docs/intro", "", "", ""⟩ : SimpleURL.Obj)
    (⟨"http:", "a.com", "/contact", "", "", ""⟩ : SimpleURL.Obj)
    (by decide) (by decide) (by decide) (by decide) (by decide)

/-! ## Robots rules: lookup and fail-open (C16, C19) -/

theorem RobotsCache.get_set_self (c : RobotsCache) (host : String) (rules : RobotsRules) :
    (c.set host rules).get host = some rules := by
  induction c with
  | nil => simp [RobotsCache.set, RobotsCache.get]
  | cons hd tl ih =>
    obtain ⟨k, v⟩ := hd
    simp only [RobotsCache.set]
    split
    · rename_i hk
      simp [RobotsCache.get, hk]
    · rename_i hk
      have hb : (k == host) = false := by simpa using hk
      simp only [RobotsCache.get] at ih ⊢
      rw [List.find?_cons, hb]
      exact ih

/-- C16: for a URL that parses, `isAllowedByRobots` returns true if no rules
are recorded for the URL's host or the recorded rules have `allowAll`;
otherwise it returns a boolean that is false if and only if some recorded
disallowed prefix is `/` or is a prefix of the URL's path. -/
theorem isAllowedByRobots_spec (api : URLApi) (cache : RobotsCache) (url : String)
    (urlObj : api.U) (hparse : api.parse url none = some urlObj) :
    (cache.get (api.host urlObj) = none → isAllowedByRobots api cache url = some true) ∧
    (∀ rules, cache.get (api.host urlObj) = some rules → rules.allowAll = true →
      isAllowedByRobots api cache url = some true) ∧
    (∀ rules, cache.get (api.host urlObj) = some rules → rules.allowAll = false →
      (isAllowedByRobots api cache url = some true ∨
        isAllowedByRobots api cache url = some false) ∧
      (isAllowedByRobots api cache url = some false ↔
        ∃ p ∈ rules.disallowed, p = "/" ∨ jsStartsWith (api.pathname urlObj) p = true)) := by
  refine ⟨?_, ?_, ?_⟩
  · intro h
    simp [isAllowedByRobots, hparse, h]
  · intro rules h ha
    simp [isAllowedByRobots, hparse, h, ha]
  · intro rules h ha
    have hres : isAllowedByRobots api cache url = some (!(rules.disallowed.any fun pattern =>
        if pattern = "/" then true else jsStartsWith (api.pathname urlObj) pattern)) := by
      simp [isAllowedByRobots, hparse, h, ha]
    rw [hres]
    constructor
    · cases (rules.disallowed.any fun pattern =>
        if pattern = "/" then true else jsStartsWith (api.pathname urlObj) pattern) <;> simp
    · simp only [Option.some.injEq, Bool.not_eq_false', List.any_eq_true]
      constructor
      · rintro ⟨p, hp, hc⟩
        refine ⟨p, hp, ?_⟩
        by_cases hs : p = "/"
        · exact Or.inl hs
        · right; simpa [hs] using hc
      · rintro ⟨p, hp, hc⟩
        refine ⟨p, hp, ?_⟩
        rcases hc with hs | hs
        · simp [hs]
        · by_cases h1 : p = "/"
          · simp [h1]
          · simp [h1, hs]

/-- C16, at `http://a.com/private/x` with the rule `Disallow: /private`. -/
theorem isAllowedByRobots_spec_witness :
    (RobotsCache.get [("a.com", ⟨false, ["/private"], 0⟩)]
        (SimpleURL.api.host (⟨"http:", "a.com", "/private/x", "", "", ""⟩ : SimpleURL.Obj))
        = none →
      isAllowedByRobots SimpleURL.api [("a.com", ⟨false, ["/private"], 0⟩)]
        "http://a.com/private/x" = some true) ∧
    (∀ rules, RobotsCache.get [("a.com", ⟨false, ["/private"], 0⟩)]
        (SimpleURL.api.host (⟨"http:", "a.com", "/private/x", "", "", ""⟩ : SimpleURL.Obj))
        = some rules → rules.allowAll = true →
      isAllowedByRobots SimpleURL.api [("a.com", ⟨false, ["/private"], 0⟩)]
        "http://a.com/private/x" = some true) ∧
    (∀ rules, RobotsCache.get [("a.com", ⟨false, ["/private"], 0⟩)]
        (SimpleURL.api.host (⟨"http:", "a.com", "/private/x", "", "", ""⟩ : SimpleURL.Obj))
        = some rules → rules.allowAll = false →
      (isAllowedByRobots SimpleURL.api [("a.com", ⟨false, ["/private"], 0⟩)]
          "http://a.com/private/x" = some true ∨
        isAllowedByRobots SimpleURL.api [("a.com", ⟨false, ["/private"], 0⟩)]
          "http://a.com/private/x" = some false) ∧
      (isAllowedByRobots SimpleURL.api [("a.com", ⟨false, ["/private"], 0⟩)]
          "http://a.com/private/x" = some false ↔
        ∃ p ∈ rules.disallowed, p = "/" ∨ jsStartsWith (SimpleURL.api.pathname
          (⟨"http:", "a.com", "/private/x", "", "", ""⟩ : SimpleURL.Obj)) p = true)) :=
  isAllowedByRobots_spec SimpleURL.api [("a.com", ⟨false, ["/private"], 0⟩)]
    "http://a.com/private/x"
    (⟨"http:", "a.com", "/private/x", "", "", ""⟩ : SimpleURL.Obj) (by rfl)

/-- C19: when no rules are cached for the host of a URL that parses and the
request for `robots.txt` throws or is answered by a non-OK response,
`loadRobotsTxt` returns normally, records `{allowAll: true}` for that host,
and `isAllowedByRobots` is then true for every URL of that host. -/
theorem loadRobotsTxt_fails_open (api : URLApi) (s : Scraper) (url : String)
    (urlObj : api.U) (resp : RobotsResponse)
    (hparse : api.parse url none = some urlObj)
    (hfresh : s.robotsCache.get (api.host urlObj) = none)
    (hresp : resp = RobotsResponse.notOk ∨ resp = RobotsResponse.threw) :
    ∃ s2, loadRobotsTxt api s url resp = some s2 ∧
      (∃ rules, s2.robotsCache.get (api.host urlObj) = some rules ∧ rules.allowAll = true) ∧
      (∀ url2 u2, api.parse url2 none = some u2 → api.host u2 = api.host urlObj →
        isAllowedByRobots api s2.robotsCache url2 = some true) := by
  refine ⟨{ s with robotsCache := s.robotsCache.set (api.host urlObj) ⟨true, [], 0⟩ }, ?_,
    ⟨⟨true, [], 0⟩, RobotsCache.get_set_self _ _ _, rfl⟩, ?_⟩
  · rcases hresp with rfl | rfl <;> simp [loadRobotsTxt, hparse, hfresh]
  · intro url2 u2 h2 hhost
    have hget : RobotsCache.get (s.robotsCache.set (api.host urlObj) ⟨true, [], 0⟩)
        (api.host u2) = some ⟨true, [], 0⟩ := by
      rw [hhost]; exact RobotsCache.get_set_self _ _ _
    simp [isAllowedByRobots, h2, hget]

/-- C19, at the seed `http://a.com/` with a non-OK response. -/
theorem loadRobotsTxt_fails_open_witness :
    ∃ s2, loadRobotsTxt SimpleURL.api (construct Example.defaults) "http://a.com/"
        RobotsResponse.notOk = some s2 ∧
      (∃ rules, s2.robotsCache.get (SimpleURL.api.host
          (⟨"http:", "a.com", "/", "", "", ""⟩ : SimpleURL.Obj)) = some rules ∧
        rules.allowAll = true) ∧
      (∀ url2 u2, SimpleURL.api.parse url2 none = some u2 →
        SimpleURL.api.host u2 = SimpleURL.api.host
          (⟨"http:", "a.com", "/", "", "", ""⟩ : SimpleURL.Obj) →
        isAllowedByRobots SimpleURL.api s2.robotsCache url2 = some true) :=
  loadRobotsTxt_fails_open SimpleURL.api (construct Example.defaults) "http://a.com/"
    (⟨"http:", "a.com", "/", "", "", ""⟩ : SimpleURL.Obj) RobotsResponse.notOk
    (by rfl) (by rfl) (Or.inl rfl)

/-! ## Parsing `robots.txt` (C17, C18) -/

/-- C17, evaluated where it fails.  In the block of `User-agent: *` the line
`Disallow: /wiki/Special:Search` has the non-empty value
`/wiki/Special:Search`, but `split(':')` cuts it at the second colon and the
prefix recorded is `/wiki/Special`.  And a line `User-agent` without a colon
makes `value.toLowerCase()` throw, so nothing is recorded for the whole text:
`loadRobotsTxt` stores `{allowAll: true}` although `Disallow: /private` stands
in the block of `User-agent: *`. -/
theorem disallow_value_cut_or_dropped :
    parseRobotsRules "User-agent: *\nDisallow: /wiki/Special:Search"
      = some ⟨false, ["/wiki/Special"], 0⟩ ∧
    parseRobotsRules "User-agent: *\nDisallow: /private\nUser-agent" = none ∧
    (loadRobotsTxt SimpleURL.api (construct Example.defaults) "http://a.com/"
        (okResponse "User-agent: *\nDisallow: /private\nUser-agent")).map
        Scraper.robotsCache
      = some [("a.com", ⟨true, [], 0⟩)] ∧
    parseRobotsRules "User-agent: *\nDisallow: /private" = some ⟨false, ["/private"], 0⟩ := by
  decide

theorem robotsLines_append (st : RobotsParseState) (a b : List String) :
    robotsLines st (a ++ b) = (robotsLines st a).bind fun st2 => robotsLines st2 b := by
  induction a generalizing st with
  | nil => rfl
  | cons l ls ih =>
    simp only [List.cons_append, robotsLines]
    cases robotsLine st l with
    | none => rfl
    | some st2 => exact ih st2

theorem robotsLine_crawlDelay_keep (st st2 : RobotsParseState) (line : String)
    (h : robotsLine st line = some st2)
    (hk : jsToLowerCase (lineKey line) = "crawl-delay" → agentApplies st.currentUserAgent = false) :
    st2.rules.crawlDelay = st.rules.crawlDelay := by
  unfold robotsLine at h
  split at h
  · cases h; rfl
  · split at h
    · split at h
      · cases h
      · cases h; rfl
    · split at h
      · rename_i happ
        split at h
        · split at h
          · cases h; rfl
          · split at h
            · cases h; rfl
            · split at h
              · cases h; rfl
              · cases h; rfl
        · split at h
          · rename_i hcd
            have := hk hcd
            rw [this] at happ
            cases happ
          · cases h; rfl
      · cases h; rfl

theorem robotsLines_crawlDelay_keep (lines : List String) (st fin : RobotsParseState)
    (h : robotsLines st lines = some fin)
    (hnone : ∀ pre l post st2, lines = pre ++ l :: post → robotsLines st pre = some st2 →
      jsToLowerCase (lineKey l) = "crawl-delay" → agentApplies st2.currentUserAgent = false) :
    fin.rules.crawlDelay = st.rules.crawlDelay := by
  induction lines generalizing st with
  | nil => cases h; rfl
  | cons l rest ih =>
    simp only [robotsLines] at h
    cases h1 : robotsLine st l with
    | none => rw [h1] at h; cases h
    | some st1 =>
      rw [h1] at h
      have hkeep := robotsLine_crawlDelay_keep st st1 l h1
        (fun hk => hnone [] l rest st rfl rfl hk)
      rw [← hkeep]
      apply ih st1 h
      intro pre l2 post st2 hsplit hpre hk
      apply hnone (l :: pre) l2 post st2 (by rw [hsplit]; rfl) _ hk
      simp only [robotsLines, h1]
      exact hpre

theorem robotsLine_crawlDelay_set (st : RobotsParseState) (line : String)
    (hc : (jsStartsWith (jsTrim line) "#" || (jsTrim line).data.isEmpty) = false)
    (hkey : jsToLowerCase (lineKey line) = "crawl-delay")
    (happ : agentApplies st.currentUserAgent = true) :
    robotsLine st line = some { st with rules :=
      { st.rules with crawlDelay := crawlDelayOf (lineValue line) } } := by
  have h1 : jsToLowerCase (lineKey line) ≠ "user-agent" := by rw [hkey]; decide
  have h2 : jsToLowerCase (lineKey line) ≠ "disallow" := by rw [hkey]; decide
  unfold robotsLine
  rw [hc]
  simp [h1, h2, happ, hkey]

/-- On a text on which `parseRobotsTxt` returns, the delay only grows, it is
`max(d, n * 1000)` if the last `Crawl-delay` line that stands in an
applicable block has the non-negative integer value `n`, and it stays `d` if
no `Crawl-delay` line stands in an applicable block.  Here `d >= 0` is the
delay before the call, and `n * 1000` lies in the range in which JavaScript
numbers are exact.  On a text on which `parseRobotsTxt` throws nothing of
this holds: see `crawl_delay_lost_after_parse_error`. -/
theorem crawl_delay_is_floor (s : Scraper) (host robotsText : String) (rules : RobotsRules)
    (hparse : parseRobotsRules robotsText = some rules) (hd : 0 ≤ s.delay) :
    ∃ s2, parseRobotsTxt s host robotsText = some s2 ∧
      s.delay ≤ s2.delay ∧
      (∀ (pre post : List String) (cd : String) (st : RobotsParseState) (n : Int),
        textLines robotsText = pre ++ cd :: post →
        robotsLines robotsInit pre = some st →
        agentApplies st.currentUserAgent = true →
        (jsStartsWith (jsTrim cd) "#" || (jsTrim cd).data.isEmpty) = false →
        jsToLowerCase (lineKey cd) = "crawl-delay" →
        (∃ v, lineValue cd = some v ∧ jsParseInt v = some n) →
        0 ≤ n → n * 1000 ≤ 2 ^ 53 →
        (∀ pre2 l post2 st2, post = pre2 ++ l :: post2 →
          robotsLines { st with rules := { st.rules with crawlDelay := n } } pre2 = some st2 →
          jsToLowerCase (lineKey l) = "crawl-delay" →
          agentApplies st2.currentUserAgent = false) →
        s2.delay = max s.delay (n * 1000)) ∧
      ((∀ pre l post st2, textLines robotsText = pre ++ l :: post →
          robotsLines robotsInit pre = some st2 →
          jsToLowerCase (lineKey l) = "crawl-delay" →
          agentApplies st2.currentUserAgent = false) →
        s2.delay = s.delay) := by
  obtain ⟨fin, hfin, hrules⟩ : ∃ fin, robotsLines robotsInit (textLines robotsText) = some fin ∧
      fin.rules = rules := by
    unfold parseRobotsRules at hparse
    cases hr : robotsLines robotsInit (textLines robotsText) with
    | none => rw [hr] at hparse; cases hparse
    | some fin => rw [hr] at hparse; exact ⟨fin, rfl, Option.some.inj hparse⟩
  have hdelay : ∀ s2, parseRobotsTxt s host robotsText = some s2 →
      s2.delay = if rules.crawlDelay > 0 then max s.delay (rules.crawlDelay * 1000)
        else s.delay := by
    intro s2 h2
    unfold parseRobotsTxt at h2
    rw [hparse] at h2
    simp only [] at h2
    split at h2
    · rename_i hpos; cases h2; simp [hpos]
    · rename_i hpos; cases h2; simp [hpos]
  obtain ⟨s2, hs2⟩ : ∃ s2, parseRobotsTxt s host robotsText = some s2 := by
    unfold parseRobotsTxt
    rw [hparse]
    simp only []
    split <;> exact ⟨_, rfl⟩
  have hd2 := hdelay s2 hs2
  refine ⟨s2, hs2, ?_, ?_, ?_⟩
  · rw [hd2]
    split
    · exact le_max_left _ _
    · exact le_refl _
  · intro pre post cd st n hlines hpre happ hc hkey hval hn _ hpost
    obtain ⟨v, hv, hint⟩ := hval
    have hset := robotsLine_crawlDelay_set st cd hc hkey happ
    have hcd : crawlDelayOf (lineValue cd) = n := by simp [crawlDelayOf, hv, hint]
    rw [hcd] at hset
    rw [hlines, robotsLines_append, hpre] at hfin
    simp only [Option.bind, robotsLines, hset] at hfin
    have hkeep := robotsLines_crawlDelay_keep post _ fin hfin hpost
    have hn2 : rules.crawlDelay = n := by rw [← hrules, hkeep]
    rw [hd2, hn2]
    split
    · rfl
    · have : n = 0 := by omega
      rw [this]
      simp [hd]
  · intro hnone
    have hkeep := robotsLines_crawlDelay_keep _ robotsInit fin hfin hnone
    have h0 : rules.crawlDelay = 0 := by rw [← hrules, hkeep]; rfl
    rw [hd2, h0]
    simp

/-- The delay at `User-agent: *`, `Crawl-delay: 5` with the default delay of
1000 ms: it becomes 5000 ms. -/
theorem crawl_delay_is_floor_witness :
    ∃ s2, parseRobotsTxt (construct Example.defaults) "a.com"
        "User-agent: *\nCrawl-delay: 5" = some s2 ∧
      s2.delay = max (construct Example.defaults).delay (5 * 1000) ∧ s2.delay = 5000 := by
  obtain ⟨s2, h1, _, h3, _⟩ := crawl_delay_is_floor (construct Example.defaults) "a.com"
    "User-agent: *\nCrawl-delay: 5" ⟨false, [], 5⟩ (by decide) (by decide)
  have h4 := h3 ["User-agent: *"] [] "Crawl-delay: 5" ⟨some "*", ⟨false, [], 0⟩⟩ 5
    (by decide) (by decide) (by decide) (by decide) (by decide) ⟨"5", by decide, by decide⟩
    (by decide) (by decide)
    (by intro pre2 l post2 st2 hsplit; cases pre2 <;> cases hsplit)
  exact ⟨s2, h1, h4, by rw [h4]; decide⟩

/-- C18, evaluated where it fails: the `robots.txt` of `a.com` has
`Crawl-delay: 5` under `User-agent: *` and, further down, a line `User-agent`
without a colon.  `parseRobotsTxt` throws on that line before it reaches the
update of the delay, `loadRobotsTxt` records `{allowAll: true}`, and the
crawler starts with the configured delay of 1000 ms instead of
`max(1000, 5 * 1000)`.  Without the broken line the delay is 5000 ms. -/
theorem crawl_delay_lost_after_parse_error :
    parseRobotsRules Example.brokenDelayRobots = none ∧
    parseRobotsTxt (construct Example.defaults) "a.com" Example.brokenDelayRobots = none ∧
    (loadRobotsTxt SimpleURL.api (construct Example.defaults) "http://a.com/"
        (okResponse Example.brokenDelayRobots)).map (fun s => (s.delay, s.robotsCache))
      = some (1000, [("a.com", ⟨true, [], 0⟩)]) ∧
    (Example.startWith Example.defaults "http://a.com/"
        (okResponse Example.brokenDelayRobots)).delay = 1000 ∧
    (parseRobotsTxt (construct Example.defaults) "a.com" Example.delayRobots).map
        (fun s => s.delay) = some 5000 ∧
    (Example.startWith Example.defaults "http://a.com/"
        (okResponse Example.delayRobots)).delay = 5000 := by
  decide

/-! ## Robots rules during a crawl (C15, C20) -/

theorem RobotsCache.get_set_other (c : RobotsCache) (host other : String)
    (rules : RobotsRules) (h : other ≠ host) :
    (c.set host rules).get other = c.get other := by
  induction c with
  | nil =>
    have hb : (host == other) = false := by simpa using fun e => h e.symm
    simp [RobotsCache.set, RobotsCache.get, List.find?_cons, hb]
  | cons hd tl ih =>
    obtain ⟨k, v⟩ := hd
    simp only [RobotsCache.set]
    split
    · rename_i hk
      have hb : (k == other) = false := by simpa [hk] using fun e => h e.symm
      simp only [RobotsCache.get, List.find?_cons, hb]
    · simp only [RobotsCache.get, List.find?_cons] at ih ⊢
      cases hko : (k == other) with
      | true => rfl
      | false => exact ih

theorem PendingExt.static {a b : Scraper} (h : PendingExt a b) :
    b.robotsCache = a.robotsCache ∧ b.respectRobotsTxt = a.respectRobotsTxt ∧
    b.errors = a.errors := by
  obtain ⟨x, rfl⟩ := h
  exact ⟨rfl, rfl, rfl⟩

theorem loopTop_static (api : URLApi) (s : Scraper) :
    (loopTop api s).1.robotsCache = s.robotsCache ∧
    (loopTop api s).1.respectRobotsTxt = s.respectRobotsTxt := by
  unfold loopTop
  split
  · exact ⟨rfl, rfl⟩
  · rcases getNextUrl_cases s.pendingUrls with h | ⟨url, info, _, h⟩
    · rw [h]; exact ⟨rfl, rfl⟩
    · rw [h]
      dsimp only
      unfold processUrlStart
      split
      · exact ⟨rfl, rfl⟩
      · simp only []
        split <;> exact ⟨rfl, rfl⟩

theorem workerStep_static (api : URLApi) (s : Scraper) (outcome : FetchOutcome) (pc : Pc) :
    (workerStep api s outcome pc).1.robotsCache = s.robotsCache ∧
    (workerStep api s outcome pc).1.respectRobotsTxt = s.respectRobotsTxt := by
  have hcatch : ∀ (t : Scraper) (url : String) (depth : Nat) (error : String),
      (workerCatch api t url depth error).1.robotsCache = t.robotsCache ∧
      (workerCatch api t url depth error).1.respectRobotsTxt = t.respectRobotsTxt := by
    intro t url depth error
    exact loopTop_static api
      { t with activeScraping := setDelete t.activeScraping url,
               errors := t.errors ++ [CrawlError.mk url depth error] }
  cases pc with
  | ready => exact loopTop_static api s
  | awaitRobots url depth allowed =>
    cases allowed with
    | none => exact hcatch s url depth "Invalid URL"
    | some b => cases b <;> exact ⟨rfl, rfl⟩
  | fetching url depth =>
    cases outcome with
    | success content =>
      simp only [workerStep, afterFetch]
      split
      · split
        · rename_i s2 hex
          obtain ⟨f1, f2, _⟩ := (extractAndQueueLinks_ext api _ s2 url content _ hex).static
          exact ⟨f1, f2⟩
        · exact hcatch
            { s with results := s.results ++ [PageResult.mk url depth content] }
            url depth "Invalid URL"
      · exact ⟨rfl, rfl⟩
    | failure error => exact ⟨rfl, rfl⟩
    | threw error => exact hcatch s url depth error
  | extracted url => exact ⟨rfl, rfl⟩
  | finished => exact ⟨rfl, rfl⟩

theorem run_static (api : URLApi) (events : List Event) (s : Scraper) :
    (run api s events).robotsCache = s.robotsCache ∧
    (run api s events).respectRobotsTxt = s.respectRobotsTxt := by
  induction events generalizing s with
  | nil => exact ⟨rfl, rfl⟩
  | cons e es ih =>
    obtain ⟨h1, h2⟩ := ih (step api s e)
    have hstep : (step api s e).robotsCache = s.robotsCache ∧
        (step api s e).respectRobotsTxt = s.respectRobotsTxt := by
      unfold step
      split
      · exact ⟨rfl, rfl⟩
      · exact workerStep_static api s e.outcome _
    exact ⟨h1.trans hstep.1, h2.trans hstep.2⟩

/-- What `loadRobotsTxt` leaves in `robotsCache`: an entry for the host of the
URL, the entries of the other hosts untouched, and for a host without entry
the rules of the response (`{allowAll: true}` unless the response is OK). -/
theorem loadRobotsTxt_cache (api : URLApi) (s s2 : Scraper) (url : String) (urlObj : api.U)
    (resp : RobotsResponse) (hparse : api.parse url none = some urlObj)
    (h : loadRobotsTxt api s url resp = some s2) :
    (s2.robotsCache.get (api.host urlObj)).isSome = true ∧
    (∀ host, host ≠ api.host urlObj → s2.robotsCache.get host = s.robotsCache.get host) ∧
    (s.robotsCache.get (api.host urlObj) = none →
      s2.robotsCache.get (api.host urlObj) = some
        (match resp with
          | RobotsResponse.ok rules => rules
          | _ => ⟨true, [], 0⟩)) := by
  unfold loadRobotsTxt at h
  simp only [hparse] at h
  split at h
  · rename_i hsome
    cases h
    refine ⟨hsome, fun _ _ => rfl, fun hnone => ?_⟩
    rw [hnone] at hsome
    cases hsome
  · cases resp with
    | ok rules =>
      simp only [] at h
      split at h <;>
      · cases h
        exact ⟨by simp [RobotsCache.get_set_self],
          fun host hne => RobotsCache.get_set_other _ _ _ _ hne,
          fun _ => RobotsCache.get_set_self _ _ _⟩
    | notOk =>
      cases h
      exact ⟨by simp [RobotsCache.get_set_self],
        fun host hne => RobotsCache.get_set_other _ _ _ _ hne,
        fun _ => RobotsCache.get_set_self _ _ _⟩
    | threw =>
      cases h
      exact ⟨by simp [RobotsCache.get_set_self],
        fun host hne => RobotsCache.get_set_other _ _ _ _ hne,
        fun _ => RobotsCache.get_set_self _ _ _⟩

theorem startCrawl_loads (api : URLApi) (s0 s : Scraper) (startUrl : String)
    (resp : RobotsResponse) (hr : s0.respectRobotsTxt = true)
    (h : startCrawl api s0 startUrl resp = some s) :
    ∃ s4, loadRobotsTxt api
        { s0 with visitedUrls := [], pendingUrls := addUrlToPending [] s0.maxPages startUrl 0 10,
                  results := [], errors := [] } startUrl resp = some s4 ∧
      s.robotsCache = s4.robotsCache := by
  unfold startCrawl at h
  simp only [] at h
  split at h
  · cases hl : loadRobotsTxt api
        { s0 with visitedUrls := [], pendingUrls := addUrlToPending [] s0.maxPages startUrl 0 10,
                  results := [], errors := [] } startUrl resp with
    | none => rw [hl] at h; cases h
    | some s4 =>
      rw [hl] at h
      cases h
      exact ⟨s4, rfl, rfl⟩
  · rename_i hneg
    exact absurd hr hneg

/-- C20, refuted as stated: the seed `http://a.com/` has its `robots.txt`
(`Disallow: /private` for every agent) loaded under the host `a.com`.  Its
page links to `http://a.com:8080/private/x`, which passes the host-name test
of `shouldFollowLink`; no rules are recorded for the host `a.com:8080`, so
`isAllowedByRobots` allows the URL and the worker fetches it. -/
theorem other_port_is_fetched_without_rules :
    startCrawl SimpleURL.api (construct Example.politeWorker) "http://a.com/"
        (okResponse Example.privateRobots)
      = some (Example.startWith Example.politeWorker "http://a.com/"
          (okResponse Example.privateRobots)) ∧
    (run SimpleURL.api (Example.startWith Example.politeWorker "http://a.com/"
        (okResponse Example.privateRobots))
      (Example.seedThenLink Example.pageToOtherPort ++ [Example.resume 0])).workers
      = [Pc.fetching "http://a.com:8080/private/x" 1] ∧
    (run SimpleURL.api (Example.startWith Example.politeWorker "http://a.com/"
        (okResponse Example.privateRobots))
      (Example.seedThenLink Example.pageToOtherPort ++ [Example.resume 0])).robotsCache
      = [("a.com", ⟨false, ["/private"], 0⟩)] ∧
    (SimpleURL.parseChars "http://a.com:8080/private/x".data).map SimpleURL.host
      = some "a.com:8080" ∧
    RobotsCache.get [("a.com", ⟨false, ["/private"], 0⟩)] "a.com:8080" = none := by
  decide

/-- C20, amended: with `respectRobotsTxt` set, the rules of the seed's host
are in `robotsCache` when the workers start; `loadRobotsTxt` has touched the
entry of no other host, and `robotsCache` does not change during the crawl.  A
URL whose host has no entry is allowed by `isAllowedByRobots` for that
reason. -/
theorem robots_loaded_for_seed_host_only (api : URLApi) (s0 s : Scraper)
    (startUrl : String) (seedObj : api.U) (resp : RobotsResponse) (events : List Event)
    (hr : s0.respectRobotsTxt = true) (hparse : api.parse startUrl none = some seedObj)
    (h : startCrawl api s0 startUrl resp = some s) :
    (run api s events).robotsCache = s.robotsCache ∧
    (s.robotsCache.get (api.host seedObj)).isSome = true ∧
    (∀ host, host ≠ api.host seedObj → s.robotsCache.get host = s0.robotsCache.get host) ∧
    (∀ url u, api.parse url none = some u →
      (run api s events).robotsCache.get (api.host u) = none →
      isAllowedByRobots api (run api s events).robotsCache url = some true) := by
  obtain ⟨s4, hl, hsc⟩ := startCrawl_loads api s0 s startUrl resp hr h
  obtain ⟨c1, c2, _⟩ := loadRobotsTxt_cache api _ s4 startUrl seedObj resp hparse hl
  have hcache : (s.robotsCache.get (api.host seedObj)).isSome = true ∧
      ∀ host, host ≠ api.host seedObj → s.robotsCache.get host = s0.robotsCache.get host := by
    rw [hsc]
    exact ⟨c1, c2⟩
  refine ⟨(run_static api events s).1, hcache.1, hcache.2, ?_⟩
  intro url u hu hnone
  simp [isAllowedByRobots, hu, hnone]

/-- C20 amended, at the crawl of `http://a.com/` that meets a link to port
8080. -/
theorem robots_loaded_for_seed_host_only_witness :
    (run SimpleURL.api (Example.startWith Example.politeWorker "http://a.com/"
        (okResponse Example.privateRobots))
      (Example.seedThenLink Example.pageToOtherPort)).robotsCache
      = (Example.startWith Example.politeWorker "http://a.com/"
          (okResponse Example.privateRobots)).robotsCache ∧
    ((Example.startWith Example.politeWorker "http://a.com/"
        (okResponse Example.privateRobots)).robotsCache.get
      (SimpleURL.api.host (⟨"http:", "a.com", "/", "", "", ""⟩ : SimpleURL.Obj))).isSome
      = true ∧
    (∀ host, host ≠ SimpleURL.api.host (⟨"http:", "a.com", "/", "", "", ""⟩ : SimpleURL.Obj) →
      (Example.startWith Example.politeWorker "http://a.com/"
        (okResponse Example.privateRobots)).robotsCache.get host
      = (construct Example.politeWorker).robotsCache.get host) ∧
    (∀ url u, SimpleURL.api.parse url none = some u →
      (run SimpleURL.api (Example.startWith Example.politeWorker "http://a.com/"
          (okResponse Example.privateRobots))
        (Example.seedThenLink Example.pageToOtherPort)).robotsCache.get
        (SimpleURL.api.host u) = none →
      isAllowedByRobots SimpleURL.api
        (run SimpleURL.api (Example.startWith Example.politeWorker "http://a.com/"
          (okResponse Example.privateRobots))
        (Example.seedThenLink Example.pageToOtherPort)).robotsCache url = some true) :=
  robots_loaded_for_seed_host_only SimpleURL.api (construct Example.politeWorker)
    (Example.startWith Example.politeWorker "http://a.com/" (okResponse Example.privateRobots))
    "http://a.com/" (⟨"http:", "a.com", "/", "", "", ""⟩ : SimpleURL.Obj)
    (okResponse Example.privateRobots)
    (Example.seedThenLink Example.pageToOtherPort) (by decide) (by rfl) (by decide)

/-- C15, evaluated where it fails: the `robots.txt` of `a.com` has
`Disallow: /private` under `User-agent: *` and, further down, a line
`User-agent` without a colon.  `parseRobotsTxt` throws on that line,
`loadRobotsTxt` records `{allowAll: true}`, and the crawl fetches
`http://a.com/private/x` and records its result.  Without the broken line the
same schedule skips the URL. -/
theorem private_page_fetched_after_parse_error :
    (run SimpleURL.api (Example.startWith Example.politeWorker "http://a.com/"
        (okResponse Example.brokenRobots))
      (Example.seedThenLink Example.pageToPrivate ++ [Example.resume 0])).workers
      = [Pc.fetching "http://a.com/private/x" 1] ∧
    completed (run SimpleURL.api (Example.startWith Example.politeWorker "http://a.com/"
        (okResponse Example.brokenRobots))
      (Example.seedThenLink Example.pageToPrivate ++ [Example.resume 0,
        Example.deliver 0 Example.leafPage, Example.resume 0, Example.resume 0])) = true ∧
    (run SimpleURL.api (Example.startWith Example.politeWorker "http://a.com/"
        (okResponse Example.brokenRobots))
      (Example.seedThenLink Example.pageToPrivate ++ [Example.resume 0,
        Example.deliver 0 Example.leafPage, Example.resume 0,
        Example.resume 0])).results.map PageResult.url
      = ["http://a.com/", "http://a.com/private/x"] ∧
    completed (run SimpleURL.api (Example.startWith Example.politeWorker "http://a.com/"
        (okResponse Example.privateRobots))
      (Example.seedThenLink Example.pageToPrivate ++ [Example.resume 0,
        Example.resume 0])) = true ∧
    (run SimpleURL.api (Example.startWith Example.politeWorker "http://a.com/"
        (okResponse Example.privateRobots))
      (Example.seedThenLink Example.pageToPrivate ++ [Example.resume 0,
        Example.resume 0])).results.map PageResult.url
      = ["http://a.com/"] := by
  decide

/-! ## Lemmas on character lists -/

theorem takeWhile_dropWhile_append (p : Char → Bool) (a b : List Char)
    (ha : ∀ c ∈ a, p c = true) (hb : b = [] ∨ ∃ c r, b = c :: r ∧ p c = false) :
    (a ++ b).takeWhile p = a ∧ (a ++ b).dropWhile p = b := by
  induction a with
  | nil =>
    rcases hb with rfl | ⟨c, r, rfl, hc⟩
    · exact ⟨rfl, rfl⟩
    · simp [List.takeWhile, List.dropWhile, hc]
  | cons x xs ih =>
    have hx : p x = true := ha x (List.mem_cons_self _ _)
    obtain ⟨h1, h2⟩ := ih (fun c hc => ha c (List.mem_cons_of_mem _ hc))
    simp [List.takeWhile, List.dropWhile, hx, h1, h2]

theorem dropWhile_stops (p : Char → Bool) (l : List Char) :
    l.dropWhile p = [] ∨ ∃ c r, l.dropWhile p = c :: r ∧ p c = false := by
  induction l with
  | nil => exact Or.inl rfl
  | cons x xs ih =>
    cases hx : p x with
    | true => simpa [List.dropWhile, hx] using ih
    | false => exact Or.inr ⟨x, xs, by simp [List.dropWhile, hx], hx⟩

theorem takeWhile_all (p : Char → Bool) (l : List Char) :
    ∀ c ∈ l.takeWhile p, p c = true := by
  induction l with
  | nil => intro c hc; cases hc
  | cons x xs ih =>
    intro c hc
    cases hx : p x with
    | true =>
      simp only [List.takeWhile, hx, List.mem_cons] at hc
      rcases hc with rfl | hc
      · exact hx
      · exact ih c hc
    | false => simp [List.takeWhile, hx] at hc

theorem splitOnChar_ne_nil (sep : Char) (l : List Char) : splitOnChar sep l ≠ [] := by
  induction l with
  | nil => simp [splitOnChar]
  | cons x xs ih =>
    unfold splitOnChar
    split
    · simp
    · split <;> simp

theorem splitOnChar_of_not_mem (sep : Char) (a : List Char) (h : sep ∉ a) :
    splitOnChar sep a = [a] := by
  induction a with
  | nil => rfl
  | cons x xs ih =>
    have hx : x ≠ sep := fun e => h (e ▸ List.mem_cons_self _ _)
    have hxs : sep ∉ xs := fun e => h (List.mem_cons_of_mem _ e)
    simp [splitOnChar, hx, ih hxs]

theorem splitOnChar_append_sep (sep : Char) (a b : List Char) (h : sep ∉ a) :
    splitOnChar sep (a ++ sep :: b) = a :: splitOnChar sep b := by
  induction a with
  | nil => simp [splitOnChar]
  | cons x xs ih =>
    have hx : x ≠ sep := fun e => h (e ▸ List.mem_cons_self _ _)
    have hxs : sep ∉ xs := fun e => h (List.mem_cons_of_mem _ e)
    simp [splitOnChar, hx, ih hxs]

theorem splitOnChar_segments (sep : Char) (l : List Char) :
    ∀ seg ∈ splitOnChar sep l, sep ∉ seg ∧ ∀ c ∈ seg, c ∈ l := by
  induction l with
  | nil =>
    intro seg hseg
    simp only [splitOnChar, List.mem_singleton] at hseg
    subst hseg
    exact ⟨List.not_mem_nil _, fun c hc => hc⟩
  | cons x xs ih =>
    intro seg hseg
    unfold splitOnChar at hseg
    split at hseg
    · rcases List.mem_cons.1 hseg with rfl | h
      · exact ⟨List.not_mem_nil _, fun c hc => absurd hc (List.not_mem_nil _)⟩
      · exact ⟨(ih seg h).1, fun c hc => List.mem_cons_of_mem _ ((ih seg h).2 c hc)⟩
    · rename_i hx
      split at hseg
      · rename_i hnil
        exact absurd hnil (splitOnChar_ne_nil sep xs)
      · rename_i s0 rest hsplit
        have hs0 : s0 ∈ splitOnChar sep xs := by rw [hsplit]; exact List.mem_cons_self _ _
        rcases List.mem_cons.1 hseg with rfl | h
        · refine ⟨?_, ?_⟩
          · intro hmem
            rcases List.mem_cons.1 hmem with e | e
            · exact hx e.symm
            · exact (ih s0 hs0).1 e
          · intro c hc
            rcases List.mem_cons.1 hc with rfl | e
            · exact List.mem_cons_self _ _
            · exact List.mem_cons_of_mem _ ((ih s0 hs0).2 c e)
        · have hr : seg ∈ splitOnChar sep xs := by rw [hsplit]; exact List.mem_cons_of_mem _ h
          exact ⟨(ih seg hr).1, fun c hc => List.mem_cons_of_mem _ ((ih seg hr).2 c hc)⟩

theorem splitOnChar_covers (sep : Char) (l : List Char) :
    ∀ c ∈ l, c = sep ∨ ∃ seg ∈ splitOnChar sep l, c ∈ seg := by
  induction l with
  | nil => intro c hc; cases hc
  | cons x xs ih =>
    intro c hc
    unfold splitOnChar
    split
    · rename_i hx
      rcases List.mem_cons.1 hc with rfl | h
      · exact Or.inl hx
      · rcases ih c h with e | ⟨seg, hseg, hcs⟩
        · exact Or.inl e
        · exact Or.inr ⟨seg, List.mem_cons_of_mem _ hseg, hcs⟩
    · split
      · rename_i hnil
        exact absurd hnil (splitOnChar_ne_nil sep xs)
      · rename_i s0 rest hsplit
        rcases List.mem_cons.1 hc with rfl | h
        · exact Or.inr ⟨_, List.mem_cons_self _ _, List.mem_cons_self _ _⟩
        · rcases ih c h with e | ⟨seg, hseg, hcs⟩
          · exact Or.inl e
          · rw [hsplit] at hseg
            rcases List.mem_cons.1 hseg with rfl | h2
            · exact Or.inr ⟨_, List.mem_cons_self _ _, List.mem_cons_of_mem _ hcs⟩
            · exact Or.inr ⟨seg, List.mem_cons_of_mem _ h2, hcs⟩

/-! ## Lemmas on query strings of `SimpleURL` -/

namespace SimpleURL

theorem serializeParams_single (x : List Char × List Char) :
    serializeParams [x] = x.1 ++ '=' :: x.2 := by
  simp [serializeParams, List.intercalate, List.intersperse]

theorem serializeParams_cons (x y : List Char × List Char)
    (r : List (List Char × List Char)) :
    serializeParams (x :: y :: r) = (x.1 ++ '=' :: x.2) ++ '&' :: serializeParams (y :: r) := by
  simp [serializeParams, List.intercalate, List.intersperse]

theorem serializeParams_ne_nil (ps : List (List Char × List Char)) (h : ps ≠ []) :
    serializeParams ps ≠ [] := by
  match ps, h with
  | [x], _ => rw [serializeParams_single]; simp
  | x :: y :: r, _ => rw [serializeParams_cons]; simp

theorem serializeParams_chars (ps : List (List Char × List Char)) :
    ∀ c ∈ serializeParams ps,
      c = '&' ∨ c = '=' ∨ ∃ nv ∈ ps, c ∈ nv.1 ∨ c ∈ nv.2 := by
  induction ps with
  | nil => intro c hc; simp [serializeParams, List.intercalate, List.intersperse] at hc
  | cons x r ih =>
    intro c hc
    have hx : c ∈ x.1 ++ '=' :: x.2 →
        c = '&' ∨ c = '=' ∨ ∃ nv ∈ x :: r, c ∈ nv.1 ∨ c ∈ nv.2 := by
      intro h
      rcases List.mem_append.1 h with h1 | h1
      · exact Or.inr (Or.inr ⟨x, List.mem_cons_self _ _, Or.inl h1⟩)
      · rcases List.mem_cons.1 h1 with h2 | h2
        · exact Or.inr (Or.inl h2)
        · exact Or.inr (Or.inr ⟨x, List.mem_cons_self _ _, Or.inr h2⟩)
    cases r with
    | nil =>
      rw [serializeParams_single] at hc
      exact hx hc
    | cons y r2 =>
      rw [serializeParams_cons] at hc
      rcases List.mem_append.1 hc with h | h
      · exact hx h
      · rcases List.mem_cons.1 h with h1 | h1
        · exact Or.inl h1
        · rcases ih c h1 with e | e | ⟨nv, hnv, e⟩
          · exact Or.inl e
          · exact Or.inr (Or.inl e)
          · exact Or.inr (Or.inr ⟨nv, List.mem_cons_of_mem _ hnv, e⟩)

theorem parsePiece_eq (n v : List Char) (h : '=' ∉ n) :
    ((n ++ '=' :: v).takeWhile fun c => c != '=') = n ∧
    (((n ++ '=' :: v).dropWhile fun c => c != '=').drop 1) = v := by
  obtain ⟨h1, h2⟩ := takeWhile_dropWhile_append (fun c => c != '=') n ('=' :: v)
    (fun c hc => by
      have : c ≠ '=' := fun e => h (e ▸ hc)
      simpa using this)
    (Or.inr ⟨'=', v, rfl, by simp⟩)
  rw [h1, h2]
  exact ⟨rfl, rfl⟩

theorem parseParams_serializeParams (ps : List (List Char × List Char))
    (h : ∀ nv ∈ ps, CleanPair nv) : parseParams (serializeParams ps) = ps := by
  induction ps with
  | nil => simp [serializeParams, List.intercalate, List.intersperse, parseParams, splitOnChar]
  | cons x r ih =>
    obtain ⟨hx1, hx2, hx3⟩ := h x (List.mem_cons_self _ _)
    have hamp : '&' ∉ x.1 ++ '=' :: x.2 := by
      intro hm
      rcases List.mem_append.1 hm with e | e
      · exact hx2 e
      · rcases List.mem_cons.1 e with e2 | e2
        · exact absurd e2 (by decide)
        · exact hx3 e2
    have hne : (x.1 ++ '=' :: x.2).isEmpty = false := by
      cases x.1 <;> rfl
    obtain ⟨p1, p2⟩ := parsePiece_eq x.1 x.2 hx1
    cases r with
    | nil =>
      rw [serializeParams_single]
      simp only [parseParams, splitOnChar_of_not_mem _ _ hamp, List.filter_cons, hne,
        Bool.not_false, if_true, List.filter_nil, List.map_cons, List.map_nil, p1, p2]
    | cons y r2 =>
      have ih2 := ih (fun nv hnv => h nv (List.mem_cons_of_mem _ hnv))
      rw [serializeParams_cons]
      simp only [parseParams, splitOnChar_append_sep _ _ _ hamp, List.filter_cons, hne,
        Bool.not_false, if_true, List.map_cons, p1, p2]
      simp only [parseParams] at ih2
      rw [ih2]

theorem parseParams_clean (q : List Char) :
    ∀ nv ∈ parseParams q, CleanPair nv ∧ ∀ c, (c ∈ nv.1 ∨ c ∈ nv.2) → c ∈ q := by
  intro nv hnv
  simp only [parseParams, List.mem_map, List.mem_filter] at hnv
  obtain ⟨piece, ⟨hpiece, _⟩, rfl⟩ := hnv
  obtain ⟨hsep, hsub⟩ := splitOnChar_segments '&' q piece hpiece
  have htake : ∀ c ∈ piece.takeWhile (fun c => c != '='), c ∈ piece :=
    fun c hc => (List.takeWhile_prefix _).subset hc
  have hdrop : ∀ c ∈ (piece.dropWhile (fun c => c != '=')).drop 1, c ∈ piece :=
    fun c hc => (List.dropWhile_suffix _).subset (List.mem_of_mem_drop hc)
  refine ⟨⟨?_, ?_, ?_⟩, ?_⟩
  · intro hm
    have := takeWhile_all (fun c => c != '=') piece '=' hm
    simp at this
  · exact fun hm => hsep (htake _ hm)
  · exact fun hm => hsep (hdrop _ hm)
  · intro c hc
    rcases hc with hc | hc
    · exact hsub c (htake c hc)
    · exact hsub c (hdrop c hc)

end SimpleURL

namespace SimpleURL

theorem plainChar_not_special (c : Char) (h : plainChar c = true) :
    c ≠ '#' ∧ c ≠ '?' ∧ c ≠ '/' ∧ c ≠ ':' := by
  refine ⟨?_, ?_, ?_, ?_⟩ <;> (intro e; subst e; revert h; decide)

theorem queryChar_not_hash (c : Char) (h : queryChar c = true) : c ≠ '#' := by
  intro e; subst e; revert h; decide

theorem isLower_not_special (c : Char) (h : c.isLower = true) :
    c ≠ '#' ∧ c ≠ '?' ∧ c ≠ '/' ∧ c ≠ ':' := by
  refine ⟨?_, ?_, ?_, ?_⟩ <;> (intro e; subst e; revert h; decide)

theorem isDigit_not_special (c : Char) (h : c.isDigit = true) :
    c ≠ '#' ∧ c ≠ '?' ∧ c ≠ '/' := by
  refine ⟨?_, ?_, ?_⟩ <;> (intro e; subst e; revert h; decide)

theorem hostOk_chars (h : List Char) (hok : hostOk h = true) :
    ∀ c ∈ h, c ≠ '#' ∧ c ≠ '?' ∧ c ≠ '/' ∧ c ≠ ':' := by
  intro c hc
  rcases splitOnChar_covers '.' h c hc with rfl | ⟨seg, hseg, hcs⟩
  · decide
  · simp only [hostOk, List.all_eq_true, Bool.and_eq_true] at hok
    exact isLower_not_special c ((hok seg hseg).2 c hcs)

theorem portOk_chars (p : List Char) (hok : portOk p = true) :
    ∀ c ∈ p, c ≠ '#' ∧ c ≠ '?' ∧ c ≠ '/' := by
  intro c hc
  simp only [portOk, Bool.and_eq_true, List.all_eq_true] at hok
  exact isDigit_not_special c (hok.1.2 c hc)

theorem pathOk_chars (p : List Char) (hok : pathOk p = true) :
    ∀ c ∈ p, c ≠ '#' ∧ c ≠ '?' := by
  intro c hc
  rcases splitOnChar_covers '/' p c hc with rfl | ⟨seg, hseg, hcs⟩
  · decide
  · simp only [pathOk, List.all_eq_true, Bool.and_eq_true] at hok
    have := plainChar_not_special c ((hok seg hseg).1.1 c hcs)
    exact ⟨this.1, this.2.1⟩

theorem stripScheme_protocol (l r : List Char) (p : String)
    (h : stripScheme l = some (p, r)) : p = "http:" ∨ p = "https:" := by
  unfold stripScheme at h
  split at h
  · cases h; exact Or.inl rfl
  · split at h
    · cases h; exact Or.inr rfl
    · cases h

/-- The parser on a string that is put together from valid parts. -/
theorem parseChars_assembled (protocol : String) (scheme H Pt Pa S F : List Char)
    (hscheme : stripScheme (scheme ++ (H ++ Pt ++ Pa)) = some (protocol, H ++ Pt ++ Pa))
    (hsc : ∀ c ∈ scheme, c ≠ '#' ∧ c ≠ '?')
    (hH : hostOk H = true)
    (hPt : Pt = [] ∨ ∃ p, Pt = ':' :: p ∧ portOk p = true)
    (hPa : ∃ r, Pa = '/' :: r) (hPaOk : pathOk Pa = true)
    (hS : S = [] ∨ ∃ q, S = '?' :: q ∧ q ≠ [] ∧ q.all queryChar = true)
    (hF : F = [] ∨ ∃ f, F = '#' :: f ∧ f ≠ [] ∧ f.all plainChar = true) :
    parseChars (scheme ++ (H ++ Pt ++ Pa) ++ S ++ F)
      = some ⟨protocol, ⟨H⟩, ⟨Pa⟩, ⟨S⟩, ⟨F⟩, ⟨Pt.drop 1⟩⟩ := by
  have hHc := hostOk_chars H hH
  have hPac := pathOk_chars Pa hPaOk
  have hPtc : ∀ c ∈ Pt, c ≠ '#' ∧ c ≠ '?' ∧ c ≠ '/' := by
    intro c hc
    rcases hPt with rfl | ⟨p, rfl, hp⟩
    · cases hc
    · rcases List.mem_cons.1 hc with rfl | h
      · decide
      · exact portOk_chars p hp c h
  have hSc : ∀ c ∈ S, c ≠ '#' := by
    intro c hc
    rcases hS with rfl | ⟨q, rfl, _, hq⟩
    · cases hc
    · rcases List.mem_cons.1 hc with rfl | h
      · decide
      · exact queryChar_not_hash c (List.all_eq_true.1 hq c h)
  have hmid : ∀ c ∈ scheme ++ (H ++ Pt ++ Pa), c ≠ '#' ∧ c ≠ '?' := by
    intro c hc
    simp only [List.mem_append] at hc
    rcases hc with h | (h | h) | h
    · exact hsc c h
    · exact ⟨(hHc c h).1, (hHc c h).2.1⟩
    · exact ⟨(hPtc c h).1, (hPtc c h).2.1⟩
    · exact hPac c h
  -- fragment
  obtain ⟨e1, e2⟩ := takeWhile_dropWhile_append (fun c => c != '#')
    (scheme ++ (H ++ Pt ++ Pa) ++ S) F
    (by
      intro c hc
      rcases List.mem_append.1 hc with h | h
      · simpa using (hmid c h).1
      · simpa using hSc c h)
    (by
      rcases hF with rfl | ⟨f, rfl, _, _⟩
      · exact Or.inl rfl
      · exact Or.inr ⟨'#', f, rfl, by decide⟩)
  -- query
  obtain ⟨e3, e4⟩ := takeWhile_dropWhile_append (fun c => c != '?')
    (scheme ++ (H ++ Pt ++ Pa)) S
    (by intro c hc; simpa using (hmid c hc).2)
    (by
      rcases hS with rfl | ⟨q, rfl, _, _⟩
      · exact Or.inl rfl
      · exact Or.inr ⟨'?', q, rfl, by decide⟩)
  -- path
  obtain ⟨e5, e6⟩ := takeWhile_dropWhile_append (fun c => c != '/') (H ++ Pt) Pa
    (by
      intro c hc
      rcases List.mem_append.1 hc with h | h
      · simpa using (hHc c h).2.2.1
      · simpa using (hPtc c h).2.2)
    (by
      obtain ⟨r, rfl⟩ := hPa
      exact Or.inr ⟨'/', r, rfl, by decide⟩)
  -- port
  obtain ⟨e7, e8⟩ := takeWhile_dropWhile_append (fun c => c != ':') H Pt
    (by intro c hc; simpa using (hHc c hc).2.2.2)
    (by
      rcases hPt with rfl | ⟨p, rfl, _⟩
      · exact Or.inl rfl
      · exact Or.inr ⟨':', p, rfl, by decide⟩)
  have hport : (Pt.isEmpty || portOk (Pt.drop 1)) = true := by
    rcases hPt with rfl | ⟨p, rfl, hp⟩
    · rfl
    · simpa using hp
  have hquery : (S.isEmpty || (decide (S.length > 1) &&
      (S.drop 1).all fun c => plainChar c || c == '=' || c == '&')) = true := by
    rcases hS with rfl | ⟨q, rfl, hq1, hq2⟩
    · rfl
    · have hlen : q.length > 0 := List.length_pos.2 hq1
      have hq3 : (q.all fun c => plainChar c || c == '=' || c == '&') = true := hq2
      simp only [List.isEmpty_cons, List.length_cons, List.drop_succ_cons, List.drop_zero,
        Bool.false_or, Bool.and_eq_true, decide_eq_true_eq]
      exact ⟨by omega, hq3⟩
  have hhash : (F.isEmpty || (decide (F.length > 1) && (F.drop 1).all plainChar)) = true := by
    rcases hF with rfl | ⟨f, rfl, hf1, hf2⟩
    · rfl
    · have hlen : f.length > 0 := List.length_pos.2 hf1
      simp only [List.isEmpty_cons, List.length_cons, List.drop_succ_cons, List.drop_zero,
        Bool.false_or, Bool.and_eq_true, decide_eq_true_eq]
      exact ⟨by omega, hf2⟩
  have hpathne : Pa.isEmpty = false := by
    obtain ⟨r, rfl⟩ := hPa
    rfl
  unfold parseChars
  simp only [e1, e2, e3, e4, hscheme, e5, e6, e7, e8, hH, hport, hPaOk, hquery, hhash,
    hpathne, Bool.and_self, if_true, Bool.false_eq_true, if_false]

end SimpleURL

namespace SimpleURL

theorem string_data_nil (s : String) (h : s = "") : s.data = [] := by
  subst h; rfl

theorem string_of_data_nil (s : String) (h : s.data = []) : s = "" := by
  cases s
  simp only at h
  subst h
  rfl

/-- The serializer output of a valid record parses back to the record. -/
theorem parseChars_href (u : Obj) (hu : Valid u) : parseChars (href u).data = some u := by
  obtain ⟨hp, hH, hPt, hPa, hPaOk, hS, hF⟩ := hu
  have hS2 : u.search.data = [] ∨
      ∃ q, u.search.data = '?' :: q ∧ q ≠ [] ∧ q.all queryChar = true := by
    rcases hS with h | h
    · exact Or.inl (string_data_nil _ h)
    · exact Or.inr h
  have hF2 : u.hash.data = [] ∨
      ∃ f, u.hash.data = '#' :: f ∧ f ≠ [] ∧ f.all plainChar = true := by
    rcases hF with h | h
    · exact Or.inl (string_data_nil _ h)
    · exact Or.inr h
  have hsch : ∀ rest, stripScheme ((u.protocol.data ++ ['/', '/']) ++ rest)
      = some (u.protocol, rest) ∧ ∀ c ∈ u.protocol.data ++ ['/', '/'], c ≠ '#' ∧ c ≠ '?' := by
    intro rest
    rcases hp with h | h
    · rw [h]
      refine ⟨?_, by decide⟩
      have hd : ("http:" : String).data = ['h', 't', 't', 'p', ':'] := rfl
      have hd2 : ("http://" : String).data = ['h', 't', 't', 'p', ':', '/', '/'] := rfl
      simp [stripScheme, hd, hd2]
    · rw [h]
      refine ⟨?_, by decide⟩
      have hd : ("https:" : String).data = ['h', 't', 't', 'p', 's', ':'] := rfl
      have hd2 : ("http://" : String).data = ['h', 't', 't', 'p', ':', '/', '/'] := rfl
      have hd3 : ("https://" : String).data = ['h', 't', 't', 'p', 's', ':', '/', '/'] := rfl
      simp [stripScheme, hd, hd2, hd3]
  by_cases hport : u.port = ""
  · have hdata : (href u).data = (u.protocol.data ++ ['/', '/']) ++
        (u.hostname.data ++ [] ++ u.pathname.data) ++ u.search.data ++ u.hash.data := by
      simp [href, host, hport, String.data_append]
    rw [hdata, parseChars_assembled u.protocol _ _ [] _ _ _ (hsch _).1 (hsch []).2 hH
      (Or.inl rfl) hPa hPaOk hS2 hF2]
    cases u
    simp only at hport
    subst hport
    rfl
  · have hpok : portOk u.port.data = true := by
      rcases hPt with h | h
      · exact absurd h hport
      · exact h
    have hdata : (href u).data = (u.protocol.data ++ ['/', '/']) ++
        (u.hostname.data ++ (':' :: u.port.data) ++ u.pathname.data) ++ u.search.data
          ++ u.hash.data := by
      simp [href, host, hport, String.data_append]
    rw [hdata, parseChars_assembled u.protocol _ _ (':' :: u.port.data) _ _ _ (hsch _).1
      (hsch []).2 hH (Or.inr ⟨_, rfl, hpok⟩) hPa hPaOk hS2 hF2]
    rfl

/-- Every record that the parser returns is valid. -/
theorem parseChars_valid (cs : List Char) (u : Obj) (h : parseChars cs = some u) :
    Valid u := by
  unfold parseChars at h
  simp only [] at h
  split at h
  · cases h
  · rename_i protocol rest hstrip
    split at h
    · rename_i hcond
      cases h
      simp only [Bool.and_eq_true] at hcond
      obtain ⟨⟨⟨⟨c1, c2⟩, c3⟩, c4⟩, c5⟩ := hcond
      refine ⟨stripScheme_protocol _ _ _ hstrip, c1, ?_, ?_, ?_, ?_, ?_⟩
      · -- port
        rcases dropWhile_stops (fun c => c != ':')
          (rest.takeWhile fun c => c != '/') with e | ⟨c, r, e, _⟩
        · left
          simp only [e]
          rfl
        · right
          simp only [e, List.isEmpty_cons, Bool.false_or] at c2
          simp only [e]
          exact c2
      · -- path starts with a slash
        rcases dropWhile_stops (fun c => c != '/') rest with e | ⟨c, r, e, hc⟩
        · simp only [e]
          exact ⟨[], rfl⟩
        · have hc2 : c = '/' := by simpa using hc
          subst hc2
          simp only [e]
          exact ⟨r, rfl⟩
      · -- path is accepted
        rcases dropWhile_stops (fun c => c != '/') rest with e | ⟨c, r, e, hc⟩
        · simp only [e]
          decide
        · rw [e] at c3
          simp only [e]
          exact c3
      · -- query
        rcases dropWhile_stops (fun c => c != '?')
          ((cs.takeWhile fun c => c != '#')) with e | ⟨c, r, e, hc⟩
        · left
          simp only [e]
        · right
          have hc2 : c = '?' := by simpa using hc
          subst hc2
          simp only [e, List.isEmpty_cons, Bool.false_or, Bool.and_eq_true,
            decide_eq_true_eq, List.length_cons, List.drop_succ_cons, List.drop_zero] at c4
          refine ⟨r, by simp only [e], ?_, c4.2⟩
          intro hr
          rw [hr] at c4
          simp at c4
      · -- fragment
        rcases dropWhile_stops (fun c => c != '#') cs with e | ⟨c, r, e, hc⟩
        · left
          simp only [e]
        · right
          have hc2 : c = '#' := by simpa using hc
          subst hc2
          simp only [e, List.isEmpty_cons, Bool.false_or, Bool.and_eq_true,
            decide_eq_true_eq, List.length_cons, List.drop_succ_cons, List.drop_zero] at c5
          refine ⟨r, by simp only [e], ?_, c5.2⟩
          intro hr
          rw [hr] at c5
          simp at c5
    · cases h

end SimpleURL

namespace SimpleURL

theorem deleteParam_pairs (u : Obj) (name : String) :
    parseParams ((deleteParam u name).search.data.drop 1)
      = (parseParams (u.search.data.drop 1)).filter fun nv => nv.1 != name.data := by
  unfold deleteParam
  simp only []
  split
  · rename_i hempty
    rw [List.isEmpty_iff] at hempty
    rw [hempty]
    rfl
  · show parseParams (serializeParams _) = _
    apply parseParams_serializeParams
    intro nv hnv
    exact (parseParams_clean _ nv (List.mem_filter.1 hnv).1).1

theorem deleteParam_valid (u : Obj) (name : String) (hu : Valid u) :
    Valid (deleteParam u name) := by
  obtain ⟨hp, hH, hPt, hPa, hPaOk, hS, hF⟩ := hu
  refine ⟨hp, hH, hPt, hPa, hPaOk, ?_, hF⟩
  unfold deleteParam
  simp only []
  split
  · exact Or.inl rfl
  · rename_i hne
    right
    refine ⟨serializeParams _, rfl, ?_, ?_⟩
    · apply serializeParams_ne_nil
      intro h
      rw [h] at hne
      exact hne rfl
    · rw [List.all_eq_true]
      intro c hc
      rcases serializeParams_chars _ c hc with rfl | rfl | ⟨nv, hnv, hmem⟩
      · decide
      · decide
      · have hin := (parseParams_clean _ nv (List.mem_filter.1 hnv).1).2 c hmem
        rcases hS with h | ⟨q, hq, _, hall⟩
        · rw [string_data_nil _ h] at hin
          cases hin
        · rw [hq] at hin
          exact List.all_eq_true.1 hall c hin

theorem mk_bne (a : List Char) (name : String) :
    (String.mk a != name) = (a != name.data) := by
  cases name with
  | mk b =>
    by_cases h : a = b
    · subst h; simp
    · have h2 : String.mk a ≠ String.mk b := fun e => h (congrArg String.data e)
      have e1 : (String.mk a != String.mk b) = true := bne_iff_ne.2 h2
      have e2 : (a != b) = true := bne_iff_ne.2 h
      show (String.mk a != String.mk b) = (a != b)
      rw [e1, e2]

theorem view_params_deleteParam (u : Obj) (name : String) :
    view.params (deleteParam u name) = (view.params u).filter fun p => p.1 != name := by
  show (parseParams ((deleteParam u name).search.data.drop 1)).map _ = _
  rw [deleteParam_pairs]
  show _ = ((parseParams (u.search.data.drop 1)).map _).filter _
  rw [List.filter_map]
  congr 1
  apply List.filter_congr
  intro nv _
  exact (mk_bne nv.1 name).symm

theorem pairs_map_injective (a b : List (List Char × List Char))
    (h : a.map (fun nv => (String.mk nv.1, String.mk nv.2))
      = b.map (fun nv => (String.mk nv.1, String.mk nv.2))) : a = b := by
  induction a generalizing b with
  | nil =>
    cases b with
    | nil => rfl
    | cons y ys => cases h
  | cons x xs ih =>
    cases b with
    | nil => cases h
    | cons y ys =>
      simp only [List.map_cons, List.cons.injEq, Prod.mk.injEq] at h
      obtain ⟨⟨h1, h2⟩, h3⟩ := h
      have e1 : x.1 = y.1 := congrArg String.data h1
      have e2 : x.2 = y.2 := congrArg String.data h2
      rw [ih ys h3, Prod.ext e1 e2]

theorem deleteParam_ext (u v : Obj) (a b : String) (hu : Valid u) (hv : Valid v)
    (hstem : view.stem (deleteParam u a) = view.stem (deleteParam v b))
    (hparams : view.params (deleteParam u a) = view.params (deleteParam v b))
    (hfrag : view.fragment (deleteParam u a) = view.fragment (deleteParam v b)) :
    deleteParam u a = deleteParam v b := by
  have hps : (parseParams (u.search.data.drop 1)).filter (fun nv => nv.1 != a.data)
      = (parseParams (v.search.data.drop 1)).filter (fun nv => nv.1 != b.data) := by
    have := pairs_map_injective _ _ hparams
    rw [deleteParam_pairs, deleteParam_pairs] at this
    exact this
  have hstem2 : (u.protocol, u.hostname, u.port, u.pathname)
      = (v.protocol, v.hostname, v.port, v.pathname) := hstem
  simp only [Prod.mk.injEq] at hstem2
  obtain ⟨s1, s2, s3, s4⟩ := hstem2
  have hhash : u.hash = v.hash := by
    have hf : (if u.hash = "" then none else some (String.mk (u.hash.data.drop 1)))
        = (if v.hash = "" then none else some (String.mk (v.hash.data.drop 1))) := hfrag
    obtain ⟨_, _, _, _, _, _, hFu⟩ := hu
    obtain ⟨_, _, _, _, _, _, hFv⟩ := hv
    rcases hFu with h1 | ⟨f1, h1, hne1, _⟩ <;> rcases hFv with h2 | ⟨f2, h2, hne2, _⟩
    · rw [h1, h2]
    · have hn : v.hash ≠ "" := by
        intro e
        rw [string_data_nil _ e] at h2
        cases h2
      simp [h1, hn] at hf
    · have hn : u.hash ≠ "" := by
        intro e
        rw [string_data_nil _ e] at h1
        cases h1
      simp [h2, hn] at hf
    · have hn1 : u.hash ≠ "" := by
        intro e
        rw [string_data_nil _ e] at h1
        cases h1
      have hn2 : v.hash ≠ "" := by
        intro e
        rw [string_data_nil _ e] at h2
        cases h2
      simp only [hn1, hn2, if_false, Option.some.injEq, h1, h2,
        List.drop_succ_cons, List.drop_zero] at hf
      have e : f1 = f2 := congrArg String.data hf
      apply String.ext
      rw [h1, h2, e]
  unfold deleteParam
  simp only [hps]
  cases u
  cases v
  simp only at s1 s2 s3 s4 hhash
  subst s1 s2 s3 s4 hhash
  rfl

end SimpleURL

/-- The concrete instance obeys the laws. -/
theorem SimpleURL.lawful : URLLawful SimpleURL.api SimpleURL.view where
  valid_parse := fun input _ u h => SimpleURL.parseChars_valid input.data u h
  valid_clearHash := fun u hu => by
    obtain ⟨hp, hH, hPt, hPa, hPaOk, hS, _⟩ := hu
    exact ⟨hp, hH, hPt, hPa, hPaOk, hS, Or.inl rfl⟩
  valid_deleteParam := fun u name hu => SimpleURL.deleteParam_valid u name hu
  parse_href := fun u hu => SimpleURL.parseChars_href u hu
  stem_clearHash := fun _ => rfl
  params_clearHash := fun _ => rfl
  fragment_clearHash := fun _ => rfl
  stem_deleteParam := fun _ _ => rfl
  fragment_deleteParam := fun _ _ => rfl
  params_deleteParam := fun u name => SimpleURL.view_params_deleteParam u name
  updated_ext := fun u v a b hu hv h1 h2 h3 => SimpleURL.deleteParam_ext u v a b hu hv h1 h2 h3

/-! ## Normalization (C11, C12) -/

theorem filter_notTracking (ps : List (String × String)) :
    ((ps.filter fun p => p.1 != "utm_source").filter fun p => p.1 != "utm_medium").filter
      (fun p => p.1 != "utm_campaign") = ps.filter notTracking := by
  simp only [List.filter_filter]
  congr 1
  funext p
  unfold notTracking
  cases (p.1 != "utm_source") <;> cases (p.1 != "utm_medium") <;>
    cases (p.1 != "utm_campaign") <;> rfl

/-- The record that `normalizeUrl` serializes, seen through the view. -/
theorem normalized_view (api : URLApi) (view : URLView api) (laws : URLLawful api view)
    (u : api.U) (hu : view.Valid u) :
    view.Valid (api.deleteParam (api.deleteParam (api.deleteParam (api.clearHash u)
      "utm_source") "utm_medium") "utm_campaign") ∧
    view.stem (api.deleteParam (api.deleteParam (api.deleteParam (api.clearHash u)
      "utm_source") "utm_medium") "utm_campaign") = view.stem u ∧
    view.params (api.deleteParam (api.deleteParam (api.deleteParam (api.clearHash u)
      "utm_source") "utm_medium") "utm_campaign") = (view.params u).filter notTracking ∧
    view.fragment (api.deleteParam (api.deleteParam (api.deleteParam (api.clearHash u)
      "utm_source") "utm_medium") "utm_campaign") = none := by
  refine ⟨?_, ?_, ?_, ?_⟩
  · exact laws.valid_deleteParam _ _ (laws.valid_deleteParam _ _
      (laws.valid_deleteParam _ _ (laws.valid_clearHash _ hu)))
  · rw [laws.stem_deleteParam, laws.stem_deleteParam, laws.stem_deleteParam,
      laws.stem_clearHash]
  · rw [laws.params_deleteParam, laws.params_deleteParam, laws.params_deleteParam,
      laws.params_clearHash]
    exact filter_notTracking _
  · rw [laws.fragment_deleteParam, laws.fragment_deleteParam, laws.fragment_deleteParam,
      laws.fragment_clearHash]

/-- Two valid records with the same stem and the same pairs other than the UTM
parameters are normalized to the same record. -/
theorem normalized_eq (api : URLApi) (view : URLView api) (laws : URLLawful api view)
    (u v : api.U) (hu : view.Valid u) (hv : view.Valid v)
    (hstem : view.stem u = view.stem v)
    (hparams : (view.params u).filter notTracking = (view.params v).filter notTracking) :
    api.deleteParam (api.deleteParam (api.deleteParam (api.clearHash u)
      "utm_source") "utm_medium") "utm_campaign"
    = api.deleteParam (api.deleteParam (api.deleteParam (api.clearHash v)
      "utm_source") "utm_medium") "utm_campaign" := by
  obtain ⟨_, a2, a3, a4⟩ := normalized_view api view laws u hu
  obtain ⟨_, b2, b3, b4⟩ := normalized_view api view laws v hv
  apply laws.updated_ext
  · exact laws.valid_deleteParam _ _ (laws.valid_deleteParam _ _ (laws.valid_clearHash _ hu))
  · exact laws.valid_deleteParam _ _ (laws.valid_deleteParam _ _ (laws.valid_clearHash _ hv))
  · rw [a2, b2, hstem]
  · rw [a3, b3, hparams]
  · rw [a4, b4]

/-- C11: for a `URL` class that obeys the laws of `URLLawful`, every URL that
parses has a normalized form, and normalizing that form returns it
unchanged: `normalizeUrl(normalizeUrl(u)) = normalizeUrl(u)`. -/
theorem normalizeUrl_idempotent (api : URLApi) (view : URLView api)
    (laws : URLLawful api view) (url : String) (u : api.U)
    (hparse : api.parse url none = some u) :
    ∃ n, normalizeUrl api url = some n ∧ normalizeUrl api n = some n := by
  have hu := laws.valid_parse url none u hparse
  obtain ⟨a1, a2, a3, a4⟩ := normalized_view api view laws u hu
  have hn : normalizeUrl api url = some (api.href (api.deleteParam (api.deleteParam
      (api.deleteParam (api.clearHash u) "utm_source") "utm_medium") "utm_campaign")) := by
    simp only [normalizeUrl, hparse]
  refine ⟨_, hn, ?_⟩
  simp only [normalizeUrl, laws.parse_href _ a1]
  congr 2
  apply normalized_eq api view laws _ u a1 hu a2
  rw [a3, List.filter_filter]
  simp

/-- C12: for a `URL` class that obeys the laws of `URLLawful`, two URLs that
parse to records with the same stem (scheme, host, port, path) and the same
query pairs apart from `utm_source`, `utm_medium` and `utm_campaign`, whatever
their fragments, have the same normalized form; that form parses to a record
without fragment and without any of the three parameters. -/
theorem normalizeUrl_ignores_fragment_and_utm (api : URLApi) (view : URLView api)
    (laws : URLLawful api view) (a b : String) (u v : api.U)
    (ha : api.parse a none = some u) (hb : api.parse b none = some v)
    (hstem : view.stem u = view.stem v)
    (hparams : (view.params u).filter notTracking = (view.params v).filter notTracking) :
    ∃ n w, normalizeUrl api a = some n ∧ normalizeUrl api b = some n ∧
      api.parse n none = some w ∧ view.fragment w = none ∧
      ∀ p ∈ view.params w,
        p.1 ≠ "utm_source" ∧ p.1 ≠ "utm_medium" ∧ p.1 ≠ "utm_campaign" := by
  have hu := laws.valid_parse a none u ha
  have hv := laws.valid_parse b none v hb
  obtain ⟨a1, _, a3, a4⟩ := normalized_view api view laws u hu
  have hn : normalizeUrl api a = some (api.href (api.deleteParam (api.deleteParam
      (api.deleteParam (api.clearHash u) "utm_source") "utm_medium") "utm_campaign")) := by
    simp only [normalizeUrl, ha]
  refine ⟨_, _, hn, ?_, laws.parse_href _ a1, a4, ?_⟩
  · simp only [normalizeUrl, hb]
    rw [normalized_eq api view laws u v hu hv hstem hparams]
  · intro p hp
    rw [a3] at hp
    have := (List.mem_filter.1 hp).2
    simp only [notTracking, Bool.and_eq_true, bne_iff_ne, ne_eq] at this
    exact ⟨this.1.1, this.1.2, this.2⟩

/-- C11, at `http://a.com:8080/docs?utm_source=x&b=1#top`. -/
theorem normalizeUrl_idempotent_witness :
    ∃ n, normalizeUrl SimpleURL.api "http://a.com:8080/docs?utm_source=x&b=1#top" = some n ∧
      normalizeUrl SimpleURL.api n = some n :=
  normalizeUrl_idempotent SimpleURL.api SimpleURL.view SimpleURL.lawful
    "http://a.com:8080/docs?utm_source=x&b=1#top"
    (⟨"http:", "a.com", "/docs", "?utm_source=x&b=1", "#top", "8080"⟩ : SimpleURL.Obj) (by rfl)

/-- C12, at two URLs of `/docs?b=1` that differ in fragment and UTM
parameters. -/
theorem normalizeUrl_ignores_fragment_and_utm_witness :
    ∃ n w, normalizeUrl SimpleURL.api "http://a.com/docs?utm_source=x&b=1#top" = some n ∧
      normalizeUrl SimpleURL.api "http://a.com/docs?b=1&utm_medium=mail&utm_campaign=c"
        = some n ∧
      SimpleURL.api.parse n none = some w ∧ SimpleURL.view.fragment w = none ∧
      ∀ p ∈ SimpleURL.view.params w,
        p.1 ≠ "utm_source" ∧ p.1 ≠ "utm_medium" ∧ p.1 ≠ "utm_campaign" :=
  normalizeUrl_ignores_fragment_and_utm SimpleURL.api SimpleURL.view SimpleURL.lawful
    "http://a.com/docs?utm_source=x&b=1#top"
    "http://a.com/docs?b=1&utm_medium=mail&utm_campaign=c"
    (⟨"http:", "a.com", "/docs", "?utm_source=x&b=1", "#top", ""⟩ : SimpleURL.Obj)
    (⟨"http:", "a.com", "/docs", "?b=1&utm_medium=mail&utm_campaign=c", "", ""⟩ :
      SimpleURL.Obj)
    (by rfl) (by rfl) (by rfl) (by decide)

/-! ## Classification of errors and of content (C26, C27) -/

theorem includesChars_iff (pat s : List Char) : includesChars pat s = true ↔ pat <:+: s := by
  induction s with
  | nil => simp [includesChars, List.isEmpty_iff]
  | cons c cs ih =>
    rw [List.infix_cons_iff, ← ih, ← List.isPrefixOf_iff_prefix]
    simp [includesChars]

theorem jsIncludes_iff (s pat : String) : jsIncludes s pat = true ↔ pat.data <:+: s.data :=
  includesChars_iff pat.data s.data

theorem splitOnChar_length (sep : Char) (l : List Char) :
    (splitOnChar sep l).length = l.count sep + 1 := by
  induction l with
  | nil => simp [splitOnChar]
  | cons x xs ih =>
    unfold splitOnChar
    by_cases h : x = sep
    · subst h
      simp [ih]
    · have hne := splitOnChar_ne_nil sep xs
      simp only [h, if_false]
      cases hs : splitOnChar sep xs with
      | nil => exact absurd hs hne
      | cons seg rest =>
        rw [hs] at ih
        rw [List.count_cons_of_ne (Ne.symm h)]
        simpa using ih

theorem countUp_sum {κ : Type} [DecidableEq κ] (m : List (κ × Nat)) (key : κ) :
    ((countUp m key).map Prod.snd).sum = (m.map Prod.snd).sum + 1 := by
  induction m with
  | nil => simp [countUp]
  | cons e rest ih =>
    obtain ⟨k, v⟩ := e
    unfold countUp
    split
    · simp; omega
    · simp [ih]; omega

theorem foldl_countUp_sum {κ α : Type} [DecidableEq κ] (f : α → κ) (l : List α)
    (m : List (κ × Nat)) :
    ((l.foldl (fun m x => countUp m (f x)) m).map Prod.snd).sum
      = (m.map Prod.snd).sum + l.length := by
  induction l generalizing m with
  | nil => simp
  | cons x xs ih =>
    rw [List.foldl_cons, ih, countUp_sum, List.length_cons]
    omega

/-- C26: `categorizeError` returns the first category, in the order timeout,
network, not_found, access_denied, robots_blocked, whose pattern occurs in the
message, and `other` if none does; the counts of `errorsByType` that
`generateStatistics` builds add up to the number of errors. -/
theorem categorizeError_first_match_and_counts :
    (∀ msg : String, categorizeError msg =
      if "timeout".data <:+: msg.data then "timeout"
      else if "network".data <:+: msg.data then "network"
      else if "404".data <:+: msg.data then "not_found"
      else if "403".data <:+: msg.data ∨ "401".data <:+: msg.data then "access_denied"
      else if "robots".data <:+: msg.data then "robots_blocked"
      else "other") ∧
    (∀ (results : List PageResult) (errors : List CrawlError),
      ((generateStatistics results errors).errorsByType.map Prod.snd).sum = errors.length) := by
  constructor
  · intro msg
    unfold categorizeError
    simp only [Bool.or_eq_true, jsIncludes_iff]
  · intro results errors
    show ((errors.foldl (fun m error => countUp m (categorizeError error.error)) []).map
      Prod.snd).sum = errors.length
    rw [foldl_countUp_sum (fun e : CrawlError => categorizeError e.error)]
    simp

/-- C27: `detectContentType` returns one of the five types, by first match:
`code` if the text contains `class `, `function ` or `var `; else `html` if
it contains `<!DOCTYPE` or `<html`; else `article` if it has more than 1000
code units and more than 10 parts between full stops (that is, one more
part than full stops); else `snippet` if it has fewer than 200 code units;
else `text`. -/
theorem detectContentType_first_match (text : String) :
    detectContentType text =
      (if "class ".data <:+: text.data ∨ "function ".data <:+: text.data ∨
          "var ".data <:+: text.data then "code"
      else if "<!DOCTYPE".data <:+: text.data ∨ "<html".data <:+: text.data then "html"
      else if jsLength text > 1000 ∧ text.data.count '.' + 1 > 10 then "article"
      else if jsLength text < 200 then "snippet"
      else "text") ∧
    detectContentType text ∈ ["code", "html", "article", "snippet", "text"] := by
  constructor
  · unfold detectContentType
    simp only [Bool.or_eq_true, Bool.and_eq_true, decide_eq_true_eq, jsIncludes_iff,
      splitOnChar_length, or_assoc]
  · unfold detectContentType
    split
    · simp
    · split
      · simp
      · split
        · simp
        · split <;> simp

/-! ## Duplicate content (C24, C29) -/

theorem duplicateStep_short (st : List DuplicatePair × HashMap32) (page : PageResult)
    (h : jsLength page.content.text < 100) : duplicateStep st page = st := by
  simp [duplicateStep, h]

theorem foldl_duplicateStep_filter (rs : List PageResult)
    (st : List DuplicatePair × HashMap32) :
    rs.foldl duplicateStep st
      = (rs.filter fun p => decide (100 ≤ jsLength p.content.text)).foldl duplicateStep st := by
  induction rs generalizing st with
  | nil => rfl
  | cons p ps ih =>
    by_cases h : 100 ≤ jsLength p.content.text
    · rw [List.filter_cons_of_pos (by simpa using h), List.foldl_cons, List.foldl_cons, ih]
    · rw [List.filter_cons_of_neg (by simpa using h), List.foldl_cons,
        duplicateStep_short st p (by omega), ih]

theorem findDuplicateContent_filter (rs : List PageResult) :
    findDuplicateContent rs
      = findDuplicateContent (rs.filter fun p => decide (100 ≤ jsLength p.content.text)) := by
  unfold findDuplicateContent
  rw [foldl_duplicateStep_filter]

theorem HashMap32.get_some (m : HashMap32) (hash : Int) (url : String)
    (h : m.get hash = some url) : (hash, url) ∈ m := by
  unfold HashMap32.get at h
  cases hf : m.find? (fun e => e.1 == hash) with
  | none => rw [hf] at h; cases h
  | some e =>
    rw [hf] at h
    have hmem := List.mem_of_find?_eq_some hf
    have hk := List.find?_some hf
    simp only [Option.map_some', Option.some.injEq] at h
    have hk2 : e.1 = hash := by simpa using hk
    have : e = (hash, url) := Prod.ext hk2 h
    rw [← this]
    exact hmem

theorem foldl_duplicateStep_origin (pre rs : List PageResult)
    (st : List DuplicatePair × HashMap32)
    (hdup : ∀ d ∈ st.1, ∃ p q, [p, q].Sublist (pre ++ rs) ∧
      100 ≤ jsLength p.content.text ∧ 100 ≤ jsLength q.content.text ∧
      simpleHash p.content.text = simpleHash q.content.text ∧ d = ⟨p.url, q.url, "exact"⟩)
    (hmap : ∀ e ∈ st.2, ∃ p ∈ pre, 100 ≤ jsLength p.content.text ∧
      e = (simpleHash p.content.text, p.url)) :
    ∀ d ∈ (rs.foldl duplicateStep st).1, ∃ p q, [p, q].Sublist (pre ++ rs) ∧
      100 ≤ jsLength p.content.text ∧ 100 ≤ jsLength q.content.text ∧
      simpleHash p.content.text = simpleHash q.content.text ∧ d = ⟨p.url, q.url, "exact"⟩ := by
  induction rs generalizing pre st with
  | nil => exact hdup
  | cons page rest ih =>
    have hall : pre ++ page :: rest = (pre ++ [page]) ++ rest := by simp
    rw [List.foldl_cons, hall]
    apply ih (pre ++ [page])
    · rw [← hall]
      intro d hd
      unfold duplicateStep at hd
      split at hd
      · exact hdup d hd
      · rename_i hlong
        split at hd
        · rename_i url1 hget
          rcases List.mem_append.1 hd with h | h
          · exact hdup d h
          · obtain ⟨p, hp, hpl, he⟩ := hmap _ (HashMap32.get_some _ _ _ hget)
            simp only [Prod.mk.injEq] at he
            refine ⟨p, page, ?_, hpl, by omega, he.1.symm, ?_⟩
            · have h1 : [p].Sublist pre := List.singleton_sublist.2 hp
              have h2 : [page].Sublist (page :: rest) :=
                List.singleton_sublist.2 (List.mem_cons_self _ _)
              exact h1.append h2
            · rw [List.mem_singleton] at h
              rw [h, he.2]
        · exact hdup d hd
    · intro e he
      unfold duplicateStep at he
      split at he
      · obtain ⟨p, hp, h⟩ := hmap e he
        exact ⟨p, List.mem_append_left _ hp, h⟩
      · rename_i hlong
        split at he
        · obtain ⟨p, hp, h⟩ := hmap e he
          exact ⟨p, List.mem_append_left _ hp, h⟩
        · rcases List.mem_append.1 he with h | h
          · obtain ⟨p, hp, h2⟩ := hmap e h
            exact ⟨p, List.mem_append_left _ hp, h2⟩
          · rw [List.mem_singleton] at h
            exact ⟨page, List.mem_append_right _ (List.mem_singleton.2 rfl), by omega, h⟩

/-- Every pair that `findDuplicateContent` reports joins an earlier and a later
page of the list, both with at least 100 code units of text, whose texts have
the same `simpleHash`. -/
theorem duplicate_pairs_origin (rs : List PageResult) :
    ∀ d ∈ findDuplicateContent rs, ∃ p q, [p, q].Sublist rs ∧
      100 ≤ jsLength p.content.text ∧ 100 ≤ jsLength q.content.text ∧
      simpleHash p.content.text = simpleHash q.content.text ∧ d = ⟨p.url, q.url, "exact"⟩ := by
  have := foldl_duplicateStep_origin [] rs ([], []) (by simp) (by simp)
  simpa [findDuplicateContent] using this

/-- C24: when exactly two pages of the results have a text of at least 100
code units, `p` the earlier and `q` the later, and the two texts are equal,
`findDuplicateContent` returns the single pair of `p.url` and `q.url`; and,
for every results list, the pages with shorter text can be removed without
changing the answer, and each pair reported joins two pages with a text of
at least 100 code units, the earlier one first. -/
theorem findDuplicateContent_two_identical :
    (∀ (rs : List PageResult) (p q : PageResult),
      rs.filter (fun r => decide (100 ≤ jsLength r.content.text)) = [p, q] →
      p.content.text = q.content.text →
      findDuplicateContent rs = [⟨p.url, q.url, "exact"⟩]) ∧
    (∀ rs : List PageResult,
      findDuplicateContent rs
        = findDuplicateContent (rs.filter fun r => decide (100 ≤ jsLength r.content.text)) ∧
      ∀ d ∈ findDuplicateContent rs, ∃ p q, [p, q].Sublist rs ∧
        100 ≤ jsLength p.content.text ∧ 100 ≤ jsLength q.content.text ∧
        d.url1 = p.url ∧ d.url2 = q.url) := by
  constructor
  · intro rs p q hf htext
    have hp : 100 ≤ jsLength p.content.text := by
      have : p ∈ rs.filter (fun r => decide (100 ≤ jsLength r.content.text)) := by
        rw [hf]; simp
      simpa using (List.mem_filter.1 this).2
    have hq : 100 ≤ jsLength q.content.text := by
      have : q ∈ rs.filter (fun r => decide (100 ≤ jsLength r.content.text)) := by
        rw [hf]; simp
      simpa using (List.mem_filter.1 this).2
    rw [findDuplicateContent_filter, hf]
    have h1 : ¬ jsLength p.content.text < 100 := by omega
    have h2 : ¬ jsLength q.content.text < 100 := by omega
    simp [findDuplicateContent, duplicateStep, h1, h2, HashMap32.get, htext]
  · intro rs
    refine ⟨findDuplicateContent_filter rs, ?_⟩
    intro d hd
    obtain ⟨p, q, hs, hp, hq, _, he⟩ := duplicate_pairs_origin rs d hd
    exact ⟨p, q, hs, hp, hq, by rw [he], by rw [he]⟩

theorem hashStep_wrap (h P : Int) (c : Nat) (hP : h = toInt32 P) :
    hashStep h c = toInt32 (P * 31 + (c : Int)) := by
  subst hP
  unfold hashStep toInt32
  omega

theorem foldl_hashStep_wrap (cs : List Nat) (h P : Int) (hP : h = toInt32 P) :
    cs.foldl hashStep h = toInt32 (cs.foldl (fun (acc : Int) (c : Nat) => acc * 31 + (c : Int)) P) := by
  induction cs generalizing h P with
  | nil => exact hP
  | cons c rest ih =>
    rw [List.foldl_cons, List.foldl_cons]
    exact ih _ _ (hashStep_wrap h P c hP)

/-- The value of `simpleHash` is the polynomial hash of the code units with
multiplier 31, wrapped to signed 32 bits. -/
theorem simpleHash_polynomial (str : String) :
    simpleHash str = toInt32 ((charCodes str).foldl (fun (acc : Int) (c : Nat) => acc * 31 + (c : Int)) 0) :=
  foldl_hashStep_wrap (charCodes str) 0 0 (by decide)

theorem charCodes_cons (c : Char) (cs : List Char) :
    charCodes ⟨c :: cs⟩ = utf16Units c ++ charCodes ⟨cs⟩ := by
  simp [charCodes]

theorem charCodes_replicate_x (n : Nat) :
    charCodes ⟨List.replicate n 'x'⟩ = List.replicate n 120 := by
  induction n with
  | zero => rfl
  | succ k ih =>
    rw [List.replicate_succ, charCodes_cons, ih, List.replicate_succ]
    rfl

theorem jsLength_longText : jsLength Example.longText = 100 := by
  unfold jsLength Example.longText
  rw [charCodes_replicate_x, List.length_replicate]

theorem charCodes_collideA : charCodes Example.collideA = 65 :: 97 :: List.replicate 98 120 := by
  unfold Example.collideA
  rw [charCodes_cons, charCodes_cons, charCodes_replicate_x]
  rfl

theorem charCodes_collideB : charCodes Example.collideB = 66 :: 66 :: List.replicate 98 120 := by
  unfold Example.collideB
  rw [charCodes_cons, charCodes_cons, charCodes_replicate_x]
  rfl

theorem simpleHash_collide : simpleHash Example.collideA = simpleHash Example.collideB := by
  unfold simpleHash
  rw [charCodes_collideA, charCodes_collideB]
  simp only [List.foldl_cons]
  have h : hashStep (hashStep 0 65) 97 = hashStep (hashStep 0 66) 66 := by decide
  rw [h]

theorem jsLength_collide : jsLength Example.collideA = 100 ∧ jsLength Example.collideB = 100 := by
  unfold jsLength
  rw [charCodes_collideA, charCodes_collideB]
  simp

/-- C24, at three results: two pages with the same text of 100 characters
around a short page. -/
theorem findDuplicateContent_two_identical_witness :
    Example.twoLongPages.filter (fun r => decide (100 ≤ jsLength r.content.text))
      = [⟨"http://a.com/p", 1, ⟨Example.longText, some []⟩⟩,
         ⟨"http://a.com/q", 2, ⟨Example.longText, some []⟩⟩] ∧
    findDuplicateContent Example.twoLongPages
      = [⟨"http://a.com/p", "http://a.com/q", "exact"⟩] :=
  have hshort : jsLength "short" = 5 := by decide
  have hf : Example.twoLongPages.filter (fun r => decide (100 ≤ jsLength r.content.text))
      = [⟨"http://a.com/p", 1, ⟨Example.longText, some []⟩⟩,
         ⟨"http://a.com/q", 2, ⟨Example.longText, some []⟩⟩] := by
    simp [Example.twoLongPages, List.filter, jsLength_longText, hshort]
  ⟨hf,
   findDuplicateContent_two_identical.1 Example.twoLongPages
     ⟨"http://a.com/p", 1, ⟨Example.longText, some []⟩⟩
     ⟨"http://a.com/q", 2, ⟨Example.longText, some []⟩⟩ hf rfl⟩

/-- C29: two pages whose texts of 100 characters differ (`Aa...` and `BB...`)
have the same `simpleHash` and are reported as an `exact` duplicate pair. -/
theorem different_texts_reported_as_exact :
    Example.collideA ≠ Example.collideB ∧
    jsLength Example.collideA = 100 ∧ jsLength Example.collideB = 100 ∧
    simpleHash Example.collideA = simpleHash Example.collideB ∧
    findDuplicateContent Example.collidingPages
      = [⟨"http://a.com/a", "http://a.com/b", "exact"⟩] := by
  refine ⟨?_, jsLength_collide.1, jsLength_collide.2, simpleHash_collide, ?_⟩
  · intro h
    have := congrArg String.data h
    simp [Example.collideA, Example.collideB] at this
  · have h1 : ¬ jsLength Example.collideA < 100 := by rw [jsLength_collide.1]; decide
    have h2 : ¬ jsLength Example.collideB < 100 := by rw [jsLength_collide.2]; decide
    simp [findDuplicateContent, Example.collidingPages, duplicateStep, h1, h2, HashMap32.get,
      simpleHash_collide]

/-! ## Sitemap (C25, C30) -/

/-- C25: for two pages with the paths `/a/b` and `/c/b` the sitemap is built
without error; the nodes reached by the segments `a`, `b` and by `c`, `b` have
empty `_pages`, and both pages are recorded in the node `b` of the root. -/
theorem pages_recorded_under_last_segment_at_root :
    (generateSitemap SimpleURL.api Example.sameLeafPages).toOption.map (fun sitemap =>
      (((sitemap.structureTree.get "a").bind fun n => n.children.get "b").map SiteNode.pages,
       ((sitemap.structureTree.get "c").bind fun n => n.children.get "b").map SiteNode.pages,
       (sitemap.structureTree.get "b").map SiteNode.pages))
      = some (some [], some [],
          some [⟨"http://a.com/a/b", 2⟩, ⟨"http://a.com/c/b", 2⟩]) := by
  decide

/-- C30: for one page with the path `/constructor`, `generateSitemap` ends with
the `TypeError` raised by `sitemap.structure['constructor']._pages.push`; a
crawl that has fetched such a page is answered by `execute` with `success:
false` and that message. -/
theorem generateSitemap_throws_on_constructor :
    generateSitemap SimpleURL.api Example.constructorPage
      = Except.error "Cannot read properties of undefined (reading 'push')" ∧
    (execute SimpleURL.api Example.soloArgs RobotsResponse.notOk
        (Example.twoPageSchedule Example.pageToConstructor)).map
      (fun x => (match x.response with
        | ExecResponse.failure error _ => some error
        | ExecResponse.success _ => none,
        x.calls))
      = some (some "Cannot read properties of undefined (reading 'push')",
          [Call.scrapePage "http://a.com/", Call.scrapePage "http://a.com/constructor"]) := by
  constructor
  · rfl
  · decide

/-! ## The tool entry point (C21, C22) -/

/-- What `execute` hands to the crawler when a value is omitted: the defaults
3, 100, 1000, 2 and `true`. -/
theorem defaults_when_omitted (url : String) :
    construct (executeConfig ⟨url, none, none, none, none, none⟩)
      = { maxDepth := 3, maxPages := 100, delay := 1000, concurrency := 2,
          respectRobotsTxt := true, visitedUrls := [], pendingUrls := [], results := [],
          errors := [], robotsCache := [], activeScraping := [], workers := [] } := by
  rfl

/-- Values that respect the maxima of the tool schema reach the crawler
unchanged, so that its limits are within 5, 500 and 10. -/
theorem caps_hold_within_schema (args : Args)
    (h1 : ∀ v, args.maxDepth = some v → v ≤ 5)
    (h2 : ∀ v, args.maxPages = some v → v ≤ 500)
    (h3 : ∀ v, args.concurrency = some v → v ≤ 10) :
    (construct (executeConfig args)).maxDepth ≤ 5 ∧
    (construct (executeConfig args)).maxPages ≤ 500 ∧
    (construct (executeConfig args)).concurrency ≤ 10 := by
  have key : ∀ (x : Option Int) (d cap : Int), d ≠ 0 → d ≤ cap → (∀ v, x = some v → v ≤ cap) →
      orDefault (some (orDefault x d)) d ≤ cap := by
    intro x d cap hd hcap hx
    cases x with
    | none => simp [orDefault, hd, hcap]
    | some v =>
      have := hx v rfl
      by_cases hv : v = 0
      · simp [orDefault, hv, hd, hcap]
      · simp [orDefault, hv, this]
  exact ⟨key _ 3 5 (by decide) (by decide) h1, key _ 100 500 (by decide) (by decide) h2,
    key _ 2 10 (by decide) (by decide) h3⟩

/-- C21: for the arguments `maxDepth: 50, maxPages: 100000, concurrency: 64`
the crawler that `execute` constructs has exactly these limits. -/
theorem caps_of_schema_not_enforced :
    (construct (executeConfig Example.overCapArgs)).maxDepth = 50 ∧
    (construct (executeConfig Example.overCapArgs)).maxPages = 100000 ∧
    (construct (executeConfig Example.overCapArgs)).concurrency = 64 := by
  decide

/-- C22: when `new URL(args.url)` throws, `execute` returns `success: false`
with the error `Invalid URL provided`, whatever the collaborators would
answer; no crawler is constructed and no request is issued. -/
theorem execute_rejects_invalid_url (api : URLApi) (args : Args) (resp : RobotsResponse)
    (events : List Event) (h : api.parse args.url none = none) :
    execute api args resp events
      = some ⟨ExecResponse.failure "Invalid URL provided" args.url, none, []⟩ := by
  simp [execute, h]

/-- C22, at the arguments `{url: 'not a url'}`. -/
theorem execute_rejects_invalid_url_witness :
    SimpleURL.api.parse Example.badUrlArgs.url none = none ∧
    execute SimpleURL.api Example.badUrlArgs RobotsResponse.notOk [Example.resume 0]
      = some ⟨ExecResponse.failure "Invalid URL provided" "not a url", none, []⟩ :=
  ⟨by rfl, execute_rejects_invalid_url SimpleURL.api Example.badUrlArgs RobotsResponse.notOk
    [Example.resume 0] (by rfl)⟩

theorem lookup_inherited (t : SiteTree) (key : String) (h : t.lookup key = Lookup.inherited) :
    objectPrototypeKeys.contains key = true := by
  unfold SiteTree.lookup at h
  split at h
  · cases h
  · split at h
    · assumption
    · cases h

theorem ensurePath_ok (parts : List String) (t : SiteTree)
    (h : ∀ p ∈ parts, objectPrototypeKeys.contains p = false) :
    ∃ t2, ensurePath t parts = Except.ok t2 := by
  induction parts generalizing t with
  | nil => exact ⟨t, rfl⟩
  | cons part rest ih =>
    have hp := h part (List.mem_cons_self _ _)
    have hr : ∀ p ∈ rest, objectPrototypeKeys.contains p = false :=
      fun p hp => h p (List.mem_cons_of_mem _ hp)
    simp only [ensurePath]
    split
    · rename_i node _
      obtain ⟨c, hc⟩ := ih node.children hr
      rw [hc]
      exact ⟨_, rfl⟩
    · rename_i hl
      rw [lookup_inherited t part hl] at hp
      cases hp
    · obtain ⟨c, hc⟩ := ih [] hr
      rw [hc]
      exact ⟨_, rfl⟩

theorem addLeaf_ok (t : SiteTree) (key : String) (page : SitePage)
    (h : objectPrototypeKeys.contains key = false) :
    ∃ t2, addLeaf t key page = Except.ok t2 := by
  unfold addLeaf
  split
  · exact ⟨_, rfl⟩
  · rename_i hl
    rw [lookup_inherited t key hl] at h
    cases h
  · exact ⟨_, rfl⟩

theorem sitemapPage_ok (api : URLApi) (sitemap : Sitemap) (page : PageResult) (u : api.U)
    (hparse : api.parse page.url none = some u)
    (h : ∀ p ∈ pathParts (api.pathname u), objectPrototypeKeys.contains p = false) :
    ∃ s2, sitemapPage api sitemap page = Except.ok s2 ∧ s2.totalPages = sitemap.totalPages ∧
      s2.byDepth = pushByDepth sitemap.byDepth page.depth page.url := by
  have hleaf : objectPrototypeKeys.contains
      ((pathParts (api.pathname u)).getLast?.getD "root") = false := by
    cases hl : (pathParts (api.pathname u)).getLast? with
    | none => decide
    | some x => exact h x (List.mem_of_mem_getLast? (by rw [hl]; rfl))
  obtain ⟨t1, h1⟩ := ensurePath_ok (pathParts (api.pathname u)) sitemap.structureTree h
  obtain ⟨t2, h2⟩ := addLeaf_ok t1 _ ⟨page.url, page.depth⟩ hleaf
  refine ⟨{ sitemap with structureTree := t2,
                         byDepth := pushByDepth sitemap.byDepth page.depth page.url }, ?_,
    rfl, rfl⟩
  unfold sitemapPage
  rw [hparse]
  simp only [h1, h2]

theorem pushByDepth_lookup (m : List (Nat × List String)) (depth d : Nat) (url : String) :
    ((pushByDepth m depth url).lookup d).getD []
      = if d = depth then (m.lookup d).getD [] ++ [url] else (m.lookup d).getD [] := by
  induction m with
  | nil =>
    by_cases hd : d = depth
    · simp [pushByDepth, List.lookup, hd]
    · have : (d == depth) = false := by simpa using hd
      simp [pushByDepth, List.lookup, hd, this]
  | cons e rest ih =>
    obtain ⟨k, v⟩ := e
    unfold pushByDepth
    by_cases hk : k = depth
    · subst hk
      by_cases hd : d = k
      · subst hd
        simp [List.lookup]
      · have : (d == k) = false := by simpa using hd
        simp [List.lookup, hd, this]
    · simp only [hk, if_false]
      by_cases hd : d = k
      · subst hd
        have hne : ¬ d = depth := hk
        simp [List.lookup, hne]
      · have : (d == k) = false := by simpa using hd
        simp only [List.lookup, this]
        exact ih

theorem pushByDepth_keys (m : List (Nat × List String)) (depth : Nat) (url : String) :
    (pushByDepth m depth url).map Prod.fst
      = if depth ∈ m.map Prod.fst then m.map Prod.fst else m.map Prod.fst ++ [depth] := by
  induction m with
  | nil => simp [pushByDepth]
  | cons e rest ih =>
    obtain ⟨k, v⟩ := e
    unfold pushByDepth
    by_cases hk : k = depth
    · subst hk
      simp
    · have hne : ¬ depth = k := fun e => hk e.symm
      simp only [hk, if_false, List.map_cons, ih, List.mem_cons, hne, false_or]
      split <;> simp

theorem pushByDepth_nodup (m : List (Nat × List String)) (depth : Nat) (url : String)
    (h : (m.map Prod.fst).Nodup) : ((pushByDepth m depth url).map Prod.fst).Nodup := by
  rw [pushByDepth_keys]
  split
  · exact h
  · rename_i hn
    rw [List.nodup_append]
    refine ⟨h, List.nodup_singleton _, ?_⟩
    intro x hx hx2
    rw [List.mem_singleton] at hx2
    subst hx2
    exact hn hx

theorem sitemapLoop_ok (api : URLApi) (results : List PageResult) (sitemap : Sitemap)
    (h : ∀ r ∈ results, ∃ u, api.parse r.url none = some u ∧
      ∀ p ∈ pathParts (api.pathname u), objectPrototypeKeys.contains p = false)
    (hn : (sitemap.byDepth.map Prod.fst).Nodup) :
    ∃ s2, sitemapLoop api sitemap results = Except.ok s2 ∧
      s2.totalPages = sitemap.totalPages ∧ (s2.byDepth.map Prod.fst).Nodup ∧
      ∀ d, (s2.byDepth.lookup d).getD []
        = (sitemap.byDepth.lookup d).getD []
          ++ (results.filter fun r => r.depth == d).map PageResult.url := by
  induction results generalizing sitemap with
  | nil => exact ⟨sitemap, rfl, rfl, hn, by simp⟩
  | cons page rest ih =>
    obtain ⟨u, hu, hparts⟩ := h page (List.mem_cons_self _ _)
    obtain ⟨s1, h1, ht, hb⟩ := sitemapPage_ok api sitemap page u hu hparts
    have hn1 : (s1.byDepth.map Prod.fst).Nodup := by
      rw [hb]
      exact pushByDepth_nodup _ _ _ hn
    obtain ⟨s2, h2, ht2, hn2, hb2⟩ := ih s1 (fun r hr => h r (List.mem_cons_of_mem _ hr)) hn1
    refine ⟨s2, ?_, ht2.trans ht, hn2, ?_⟩
    · rw [sitemapLoop, h1]
      exact h2
    · intro d
      rw [hb2 d, hb, pushByDepth_lookup]
      by_cases hd : d = page.depth
      · have : (page.depth == d) = true := by simpa using hd.symm
        simp [hd, List.filter_cons]
      · have : (page.depth == d) = false := by simpa using fun e => hd (Eq.symm e)
        simp [hd, List.filter_cons, this]

/-- When every URL of the results parses and no segment of its path is the name
of a member of `Object.prototype`, `generateSitemap` returns a sitemap with
`totalPages = results.length`, one bucket per depth, and in the bucket of each
depth the URLs of the results of that depth, in order. -/
theorem generateSitemap_without_inherited_names (api : URLApi) (results : List PageResult)
    (h : ∀ r ∈ results, ∃ u, api.parse r.url none = some u ∧
      ∀ p ∈ pathParts (api.pathname u), objectPrototypeKeys.contains p = false) :
    ∃ sitemap, generateSitemap api results = Except.ok sitemap ∧
      sitemap.totalPages = results.length ∧ (sitemap.byDepth.map Prod.fst).Nodup ∧
      ∀ d, (sitemap.byDepth.lookup d).getD []
        = (results.filter fun r => r.depth == d).map PageResult.url := by
  obtain ⟨s2, h1, h2, h3, h4⟩ := sitemapLoop_ok api results ⟨results.length, [], []⟩ h
    (by simp)
  exact ⟨s2, h1, h2, h3, fun d => by simpa using h4 d⟩

/-! ## A crawl with a single worker (C23) -/

theorem step_workers_length (api : URLApi) (s : Scraper) (e : Event) :
    (step api s e).workers.length = s.workers.length := by
  unfold step
  split
  · rfl
  · simp [(workerStep_budget api s e.outcome _).2.1]

theorem siteEvent_worker (site : String → FetchOutcome) (s : Scraper) (w : Nat) :
    (siteEvent site s w).worker = w := by
  unfold siteEvent
  split <;> rfl

theorem step_absent_worker (api : URLApi) (site : String → FetchOutcome) (s : Scraper)
    (w : Nat) (h : s.workers.length = 1) (hw : w ≠ 0) :
    step api s (siteEvent site s w) = s ∧ callOf api s (siteEvent site s w) = [] := by
  have hnone : s.workers.get? w = none := by
    rw [List.get?_eq_none]
    omega
  constructor
  · unfold step
    rw [siteEvent_worker, hnone]
  · unfold callOf
    rw [siteEvent_worker, hnone]

/-- With a single worker, a run served by `site` is the iteration of
`soloStep`, as often as worker 0 is resumed. -/
theorem run_siteEvents_solo (api : URLApi) (site : String → FetchOutcome) (ws : List Nat)
    (s : Scraper) (log : List Call) (h : s.workers.length = 1) :
    (run api s (siteEvents api site s ws), log ++ scrapeCalls api s (siteEvents api site s ws))
      = (soloStep api site)^[ws.count 0] (s, log) := by
  induction ws generalizing s log with
  | nil => simp [run, siteEvents, scrapeCalls]
  | cons w rest ih =>
    have hlen := step_workers_length api s (siteEvent site s w)
    have e1 : run api s (siteEvents api site s (w :: rest))
        = run api (step api s (siteEvent site s w))
            (siteEvents api site (step api s (siteEvent site s w)) rest) := by
      simp [run, siteEvents]
    have e2 : log ++ scrapeCalls api s (siteEvents api site s (w :: rest))
        = (log ++ callOf api s (siteEvent site s w))
            ++ scrapeCalls api (step api s (siteEvent site s w))
              (siteEvents api site (step api s (siteEvent site s w)) rest) := by
      simp [siteEvents, scrapeCalls]
    rw [e1, e2, ih _ _ (hlen.trans h)]
    by_cases hw : w = 0
    · subst hw
      rw [List.count_cons_self, Function.iterate_succ_apply]
      rfl
    · obtain ⟨h1, h2⟩ := step_absent_worker api site s w h hw
      rw [h1, h2, List.append_nil, List.count_cons_of_ne (Ne.symm hw)]

theorem soloStep_take (api : URLApi) (site : String → FetchOutcome) (d : Int)
    (cache : RobotsCache) (visited : List String) (url : String) (depth : Nat) (prio : Int)
    (results : List PageResult) (log : List Call)
    (hurl : url ≠ "") (hv : url ∉ visited) (hp : 1 ≤ prio) (hr : results.length < 100)
    (hallow : isAllowedByRobots api cache url = some true) :
    soloStep api site
        (soloCrawler d cache visited [(url, ⟨depth, prio⟩)] results [] Pc.ready, log)
      = (soloCrawler d cache (visited ++ [url]) [] results [url]
          (Pc.awaitRobots url depth (some true)), log) := by
  have hp2 : -1 < prio := by omega
  have hnext := getNextUrl_singleton url depth prio hurl hp2
  have hc : visited.contains url = false := by simpa using hv
  have hres : ((results.length : Int) < 100) := by omega
  simp [soloStep, soloCrawler, step, siteEvent, callOf, workerStep, loopTop,
    shouldContinueProcessing, hres, hnext, processUrlStart, hc, setAdd, hv, hallow]

theorem soloStep_allowed (api : URLApi) (site : String → FetchOutcome) (d : Int)
    (cache : RobotsCache) (visited : List String) (pending : PendingMap) (url : String)
    (depth : Nat) (results : List PageResult) (active : List String) (log : List Call) :
    soloStep api site
        (soloCrawler d cache visited pending results active
          (Pc.awaitRobots url depth (some true)), log)
      = (soloCrawler d cache visited pending results active (Pc.fetching url depth),
          log ++ [Call.scrapePage url]) := by
  simp [soloStep, soloCrawler, step, siteEvent, callOf, workerStep]

theorem soloStep_extract (api : URLApi) (site : String → FetchOutcome) (d : Int)
    (cache : RobotsCache) (visited : List String) (url : String) (depth : Nat)
    (results : List PageResult) (log : List Call) (text href label next : String)
    (base link : api.U)
    (hsite : site url = FetchOutcome.success ⟨text, some [⟨href, label⟩]⟩)
    (hdepth : depth < 2)
    (hbase : api.parse url none = some base)
    (hlink : api.parse href (some url) = some link)
    (hfollow : shouldFollowLink api link (api.hostname base) = true)
    (hnorm : normalizeUrl api (api.href link) = some next)
    (hv : next ∉ visited) :
    soloStep api site
        (soloCrawler d cache visited [] results [url] (Pc.fetching url depth), log)
      = (soloCrawler d cache visited [(next, ⟨depth + 1, calculateLinkPriority api link⟩)]
          (results ++ [⟨url, depth, ⟨text, some [⟨href, label⟩]⟩⟩]) [url]
          (Pc.extracted url), log) := by
  have hc : visited.contains next = false := by simpa using hv
  have hd : ((depth : Int) < 2) := by omega
  simp [soloStep, soloCrawler, step, siteEvent, callOf, workerStep, hsite, afterFetch, hd,
    extractAndQueueLinks, hbase, queueLink, hlink, hfollow, hnorm, hc, hv, PendingMap.has,
    addUrlToPending, PendingMap.set]

theorem soloStep_last (api : URLApi) (site : String → FetchOutcome) (d : Int)
    (cache : RobotsCache) (visited : List String) (url : String)
    (results : List PageResult) (log : List Call) (content : Content)
    (hsite : site url = FetchOutcome.success content) :
    soloStep api site
        (soloCrawler d cache visited [] results [url] (Pc.fetching url 2), log)
      = (soloCrawler d cache visited [] (results ++ [⟨url, 2, content⟩]) [] Pc.ready, log) := by
  simp [soloStep, soloCrawler, step, siteEvent, callOf, workerStep, hsite, afterFetch,
    setDelete]

theorem soloStep_extracted (api : URLApi) (site : String → FetchOutcome) (d : Int)
    (cache : RobotsCache) (visited : List String) (pending : PendingMap) (url : String)
    (results : List PageResult) (log : List Call) :
    soloStep api site
        (soloCrawler d cache visited pending results [url] (Pc.extracted url), log)
      = (soloCrawler d cache visited pending results [] Pc.ready, log) := by
  simp [soloStep, soloCrawler, step, siteEvent, callOf, workerStep, setDelete]

theorem soloStep_finish (api : URLApi) (site : String → FetchOutcome) (d : Int)
    (cache : RobotsCache) (visited : List String) (results : List PageResult)
    (log : List Call) :
    soloStep api site (soloCrawler d cache visited [] results [] Pc.ready, log)
      = (soloCrawler d cache visited [] results [] Pc.finished, log) := by
  simp [soloStep, soloCrawler, step, siteEvent, callOf, workerStep, loopTop,
    shouldContinueProcessing]

theorem soloStep_finished (api : URLApi) (site : String → FetchOutcome) (d : Int)
    (cache : RobotsCache) (visited : List String) (results : List PageResult)
    (log : List Call) :
    soloStep api site (soloCrawler d cache visited [] results [] Pc.finished, log)
      = (soloCrawler d cache visited [] results [] Pc.finished, log) := by
  simp [soloStep, soloCrawler, step, siteEvent, callOf, workerStep]

theorem startCrawl_solo (api : URLApi) (A : String) (a : api.U) (resp : RobotsResponse)
    (s0 : Scraper) (pA : api.parse A none = some a)
    (hstart : startCrawl api (construct ⟨some 2, none, none, some 1, none⟩) A resp = some s0) :
    ∃ d cache, s0 = soloCrawler d cache [] [(A, ⟨0, 10⟩)] [] [] Pc.ready := by
  cases resp with
  | ok rules =>
    by_cases hd : rules.crawlDelay > 0
    · simp [startCrawl, construct, orDefault, addUrlToPending, PendingMap.set, loadRobotsTxt,
        pA, RobotsCache.get, hd] at hstart
      exact ⟨_, _, hstart.symm⟩
    · simp [startCrawl, construct, orDefault, addUrlToPending, PendingMap.set, loadRobotsTxt,
        pA, RobotsCache.get, hd] at hstart
      exact ⟨_, _, hstart.symm⟩
  | notOk =>
    simp [startCrawl, construct, orDefault, addUrlToPending, PendingMap.set, loadRobotsTxt,
      pA, RobotsCache.get] at hstart
    exact ⟨_, _, hstart.symm⟩
  | threw =>
    simp [startCrawl, construct, orDefault, addUrlToPending, PendingMap.set, loadRobotsTxt,
      pA, RobotsCache.get] at hstart
    exact ⟨_, _, hstart.symm⟩

/-- C23: a crawler constructed with `maxDepth: 2, concurrency: 1` is started
at `A`; the page-fetch collaborator `site` serves `A` with the single link
`hrefB`, `B` with the single link `hrefC`, and `C`; the three URLs are distinct
and non-empty, each link passes `shouldFollowLink` for the host of its page
and normalizes to `B`, respectively `C`, and the robots rules loaded for the
seed allow the three URLs.  Then every run that completes ends with
`visitedUrls = [A, B, C]`, results for `A`, `B`, `C`, and exactly the
`scrapePage` calls for `A`, `B`, `C`; and the run completes once the worker
has been resumed 12 times. -/
theorem linear_site_visited_once (api : URLApi) (site : String → FetchOutcome)
    (A B C textA hrefB labelB textB hrefC labelC : String) (pageC : Content)
    (a b linkB linkC : api.U) (resp : RobotsResponse) (s0 : Scraper)
    (hA : A ≠ "") (hB : B ≠ "") (hC : C ≠ "") (hAB : A ≠ B) (hAC : A ≠ C) (hBC : B ≠ C)
    (hsA : site A = FetchOutcome.success ⟨textA, some [⟨hrefB, labelB⟩]⟩)
    (hsB : site B = FetchOutcome.success ⟨textB, some [⟨hrefC, labelC⟩]⟩)
    (hsC : site C = FetchOutcome.success pageC)
    (pA : api.parse A none = some a) (pB : api.parse B none = some b)
    (lB : api.parse hrefB (some A) = some linkB)
    (fB : shouldFollowLink api linkB (api.hostname a) = true)
    (nB : normalizeUrl api (api.href linkB) = some B)
    (lC : api.parse hrefC (some B) = some linkC)
    (fC : shouldFollowLink api linkC (api.hostname b) = true)
    (nC : normalizeUrl api (api.href linkC) = some C)
    (hstart : startCrawl api (construct ⟨some 2, none, none, some 1, none⟩) A resp = some s0)
    (hrobots : ∀ u ∈ [A, B, C], isAllowedByRobots api s0.robotsCache u = some true) :
    (∀ ws : List Nat, completed (run api s0 (siteEvents api site s0 ws)) = true →
      (run api s0 (siteEvents api site s0 ws)).visitedUrls = [A, B, C] ∧
      (run api s0 (siteEvents api site s0 ws)).results.map PageResult.url = [A, B, C] ∧
      scrapeCalls api s0 (siteEvents api site s0 ws)
        = [Call.scrapePage A, Call.scrapePage B, Call.scrapePage C]) ∧
    (∀ ws : List Nat, 12 ≤ ws.count 0 →
      completed (run api s0 (siteEvents api site s0 ws)) = true) := by
  obtain ⟨d, cache, rfl⟩ := startCrawl_solo api A a resp s0 pA hstart
  have rA : isAllowedByRobots api cache A = some true := hrobots A (by simp)
  have rB : isAllowedByRobots api cache B = some true := hrobots B (by simp)
  have rC : isAllowedByRobots api cache C = some true := hrobots C (by simp)
  have prB := (calculateLinkPriority_range api linkB).1
  have prC := (calculateLinkPriority_range api linkC).1
  have e1 := soloStep_take api site d cache [] A 0 10 [] [] hA (by simp) (by decide)
    (by simp) rA
  have e2 := soloStep_allowed api site d cache ([] ++ [A]) [] A 0 [] [A] []
  have e3 := soloStep_extract api site d cache ([] ++ [A]) A 0 [] ([] ++ [Call.scrapePage A])
    textA hrefB labelB B a linkB hsA (by decide) pA lB fB nB (by simpa using Ne.symm hAB)
  have e4 := soloStep_extracted api site d cache ([] ++ [A])
    [(B, ⟨0 + 1, calculateLinkPriority api linkB⟩)] A
    ([] ++ [⟨A, 0, ⟨textA, some [⟨hrefB, labelB⟩]⟩⟩]) ([] ++ [Call.scrapePage A])
  have e5 := soloStep_take api site d cache ([] ++ [A]) B (0 + 1)
    (calculateLinkPriority api linkB)
    ([] ++ [⟨A, 0, ⟨textA, some [⟨hrefB, labelB⟩]⟩⟩]) ([] ++ [Call.scrapePage A]) hB
    (by simpa using Ne.symm hAB) prB (by simp) rB
  have e6 := soloStep_allowed api site d cache ([] ++ [A] ++ [B]) [] B (0 + 1)
    ([] ++ [⟨A, 0, ⟨textA, some [⟨hrefB, labelB⟩]⟩⟩]) [B] ([] ++ [Call.scrapePage A])
  have e7 := soloStep_extract api site d cache ([] ++ [A] ++ [B]) B (0 + 1)
    ([] ++ [⟨A, 0, ⟨textA, some [⟨hrefB, labelB⟩]⟩⟩])
    ([] ++ [Call.scrapePage A] ++ [Call.scrapePage B])
    textB hrefC labelC C b linkC hsB (by decide) pB lC fC nC
    (by simp; exact ⟨Ne.symm hAC, Ne.symm hBC⟩)
  have e8 := soloStep_extracted api site d cache ([] ++ [A] ++ [B])
    [(C, ⟨0 + 1 + 1, calculateLinkPriority api linkC⟩)] B
    ([] ++ [⟨A, 0, ⟨textA, some [⟨hrefB, labelB⟩]⟩⟩]
      ++ [⟨B, 0 + 1, ⟨textB, some [⟨hrefC, labelC⟩]⟩⟩])
    ([] ++ [Call.scrapePage A] ++ [Call.scrapePage B])
  have e9 := soloStep_take api site d cache ([] ++ [A] ++ [B]) C (0 + 1 + 1)
    (calculateLinkPriority api linkC)
    ([] ++ [⟨A, 0, ⟨textA, some [⟨hrefB, labelB⟩]⟩⟩]
      ++ [⟨B, 0 + 1, ⟨textB, some [⟨hrefC, labelC⟩]⟩⟩])
    ([] ++ [Call.scrapePage A] ++ [Call.scrapePage B]) hC
    (by simp; exact ⟨Ne.symm hAC, Ne.symm hBC⟩) prC (by simp) rC
  have e10 := soloStep_allowed api site d cache ([] ++ [A] ++ [B] ++ [C]) [] C (0 + 1 + 1)
    ([] ++ [⟨A, 0, ⟨textA, some [⟨hrefB, labelB⟩]⟩⟩]
      ++ [⟨B, 0 + 1, ⟨textB, some [⟨hrefC, labelC⟩]⟩⟩]) [C]
    ([] ++ [Call.scrapePage A] ++ [Call.scrapePage B])
  have e11 := soloStep_last api site d cache ([] ++ [A] ++ [B] ++ [C]) C
    ([] ++ [⟨A, 0, ⟨textA, some [⟨hrefB, labelB⟩]⟩⟩]
      ++ [⟨B, 0 + 1, ⟨textB, some [⟨hrefC, labelC⟩]⟩⟩])
    ([] ++ [Call.scrapePage A] ++ [Call.scrapePage B] ++ [Call.scrapePage C]) pageC hsC
  have e12 := soloStep_finish api site d cache ([] ++ [A] ++ [B] ++ [C])
    ([] ++ [⟨A, 0, ⟨textA, some [⟨hrefB, labelB⟩]⟩⟩]
      ++ [⟨B, 0 + 1, ⟨textB, some [⟨hrefC, labelC⟩]⟩⟩] ++ [⟨C, 2, pageC⟩])
    ([] ++ [Call.scrapePage A] ++ [Call.scrapePage B] ++ [Call.scrapePage C])
  have e13 := soloStep_finished api site d cache ([] ++ [A] ++ [B] ++ [C])
    ([] ++ [⟨A, 0, ⟨textA, some [⟨hrefB, labelB⟩]⟩⟩]
      ++ [⟨B, 0 + 1, ⟨textB, some [⟨hrefC, labelC⟩]⟩⟩] ++ [⟨C, 2, pageC⟩])
    ([] ++ [Call.scrapePage A] ++ [Call.scrapePage B] ++ [Call.scrapePage C])
  have hsmall : ∀ n, n < 12 → completed ((soloStep api site)^[n]
      (soloCrawler d cache [] [(A, ⟨0, 10⟩)] [] [] Pc.ready, [])).1 = false := by
    intro n hn
    interval_cases n <;>
      simp only [Function.iterate_succ, Function.iterate_zero, Function.comp_apply, id_eq,
        e1, e2, e3, e4, e5, e6, e7, e8, e9, e10, e11] <;>
      simp [completed, soloCrawler]
  have h12 : (soloStep api site)^[12]
      (soloCrawler d cache [] [(A, ⟨0, 10⟩)] [] [] Pc.ready, [])
      = (soloCrawler d cache ([] ++ [A] ++ [B] ++ [C]) []
          ([] ++ [⟨A, 0, ⟨textA, some [⟨hrefB, labelB⟩]⟩⟩]
            ++ [⟨B, 0 + 1, ⟨textB, some [⟨hrefC, labelC⟩]⟩⟩] ++ [⟨C, 2, pageC⟩]) []
          Pc.finished,
        [] ++ [Call.scrapePage A] ++ [Call.scrapePage B] ++ [Call.scrapePage C]) := by
    simp only [Function.iterate_succ, Function.iterate_zero, Function.comp_apply, id_eq,
      e1, e2, e3, e4, e5, e6, e7, e8, e9, e10, e11, e12]
  have hlarge : ∀ n, 12 ≤ n → (soloStep api site)^[n]
      (soloCrawler d cache [] [(A, ⟨0, 10⟩)] [] [] Pc.ready, [])
      = (soloCrawler d cache ([] ++ [A] ++ [B] ++ [C]) []
          ([] ++ [⟨A, 0, ⟨textA, some [⟨hrefB, labelB⟩]⟩⟩]
            ++ [⟨B, 0 + 1, ⟨textB, some [⟨hrefC, labelC⟩]⟩⟩] ++ [⟨C, 2, pageC⟩]) []
          Pc.finished,
        [] ++ [Call.scrapePage A] ++ [Call.scrapePage B] ++ [Call.scrapePage C]) := by
    intro n hn
    obtain ⟨j, rfl⟩ : ∃ j, n = j + 12 := ⟨n - 12, by omega⟩
    rw [Function.iterate_add_apply, h12]
    exact Function.iterate_fixed e13 j
  have hrun : ∀ ws : List Nat,
      (run api (soloCrawler d cache [] [(A, ⟨0, 10⟩)] [] [] Pc.ready)
          (siteEvents api site (soloCrawler d cache [] [(A, ⟨0, 10⟩)] [] [] Pc.ready) ws),
        scrapeCalls api (soloCrawler d cache [] [(A, ⟨0, 10⟩)] [] [] Pc.ready)
          (siteEvents api site (soloCrawler d cache [] [(A, ⟨0, 10⟩)] [] [] Pc.ready) ws))
      = (soloStep api site)^[ws.count 0]
          (soloCrawler d cache [] [(A, ⟨0, 10⟩)] [] [] Pc.ready, []) := by
    intro ws
    have := run_siteEvents_solo api site ws
      (soloCrawler d cache [] [(A, ⟨0, 10⟩)] [] [] Pc.ready) [] rfl
    simpa using this
  constructor
  · intro ws hdone
    have hn : 12 ≤ ws.count 0 := by
      by_contra hlt
      have h1 := hsmall (ws.count 0) (by omega)
      rw [← hrun ws] at h1
      rw [hdone] at h1
      cases h1
    have h := (hrun ws).trans (hlarge _ hn)
    have h1 := congrArg Prod.fst h
    have h2 := congrArg Prod.snd h
    simp only at h1 h2
    rw [h1, h2]
    simp [soloCrawler]
  · intro ws hn
    have h := (hrun ws).trans (hlarge _ hn)
    have h1 := congrArg Prod.fst h
    simp only at h1
    rw [h1]
    simp [completed, soloCrawler]

/-- C23, at the site `http://a.com/` -> `/b` -> `/c` with the worker resumed 12
times. -/
theorem linear_site_visited_once_witness :
    completed (run SimpleURL.api Example.linearStart
      (siteEvents SimpleURL.api Example.linearSite Example.linearStart
        (List.replicate 12 0))) = true ∧
    (run SimpleURL.api Example.linearStart
      (siteEvents SimpleURL.api Example.linearSite Example.linearStart
        (List.replicate 12 0))).visitedUrls
      = ["http://a.com/", "http://a.com/b", "http://a.com/c"] ∧
    (run SimpleURL.api Example.linearStart
      (siteEvents SimpleURL.api Example.linearSite Example.linearStart
        (List.replicate 12 0))).results.map PageResult.url
      = ["http://a.com/", "http://a.com/b", "http://a.com/c"] ∧
    scrapeCalls SimpleURL.api Example.linearStart
      (siteEvents SimpleURL.api Example.linearSite Example.linearStart (List.replicate 12 0))
      = [Call.scrapePage "http://a.com/", Call.scrapePage "http://a.com/b",
         Call.scrapePage "http://a.com/c"] :=
  have h := linear_site_visited_once SimpleURL.api Example.linearSite
    "http://a.com/" "http://a.com/b" "http://a.com/c" "home" "http://a.com/b" "b" "b"
    "http://a.com/c" "c" Example.leafPage
    (⟨"http:", "a.com", "/", "", "", ""⟩ : SimpleURL.Obj)
    (⟨"http:", "a.com", "/b", "", "", ""⟩ : SimpleURL.Obj)
    (⟨"http:", "a.com", "/b", "", "", ""⟩ : SimpleURL.Obj)
    (⟨"http:", "a.com", "/c", "", "", ""⟩ : SimpleURL.Obj)
    RobotsResponse.notOk Example.linearStart
    (by decide) (by decide) (by decide) (by decide) (by decide) (by decide)
    (by rfl) (by rfl) (by rfl) (by rfl) (by rfl) (by rfl) (by rfl) (by rfl) (by rfl)
    (by rfl) (by rfl) (by rfl) (by decide)
  ⟨h.2 (List.replicate 12 0) (by decide),
   h.1 (List.replicate 12 0) (h.2 (List.replicate 12 0) (by decide))⟩

end RecursiveScraper

/-! ## Keyboard layouts (C28) -/

namespace KeyboardLayouts

theorem lookup_mem (l : List (Char × Char)) (c d : Char) (h : l.lookup c = some d) :
    (c, d) ∈ l := by
  induction l with
  | nil => cases h
  | cons p ps ih =>
    obtain ⟨k, v⟩ := p
    by_cases hk : c = k
    · subst hk
      simp [List.lookup] at h
      subst h
      exact List.mem_cons_self _ _
    · have hb : (c == k) = false := by simpa using hk
      simp only [List.lookup, hb] at h
      exact List.mem_cons_of_mem _ (ih h)

set_option maxRecDepth 100000 in
theorem RU_TO_EN_inverts : ∀ p ∈ EN_TO_RU, RU_TO_EN.lookup p.2 = some p.1 := by
  decide

theorem mapChar_round_trip (c : Char)
    (h : (EN_TO_RU.lookup c).isSome = true ∨
      ((EN_TO_RU.lookup c).isNone = true ∧ (RU_TO_EN.lookup c).isNone = true)) :
    mapChar RU_TO_EN (mapChar EN_TO_RU c) = c := by
  rcases h with h | ⟨h1, h2⟩
  · obtain ⟨d, hd⟩ := Option.isSome_iff_exists.1 h
    have := RU_TO_EN_inverts (c, d) (lookup_mem _ _ _ hd)
    simp only [mapChar, hd, Option.getD_some]
    simp only at this
    rw [this, Option.getD_some]
  · rw [Option.isNone_iff_eq_none] at h1 h2
    simp only [mapChar, h1, h2, Option.getD_none]

/-- C28: a text whose characters are keys of `EN_TO_RU` or occur in neither
table is restored by converting it from `en` to `ru` and back. -/
theorem convertLayout_round_trip (t : String)
    (h : ∀ c ∈ t.data, (EN_TO_RU.lookup c).isSome = true ∨
      ((EN_TO_RU.lookup c).isNone = true ∧ (RU_TO_EN.lookup c).isNone = true)) :
    convertLayout (convertLayout t "en" "ru") "ru" "en" = t := by
  have e1 : convertLayout t "en" "ru" = ⟨t.data.map (mapChar EN_TO_RU)⟩ := by
    simp [convertLayout]
  have e2 : ∀ s : String, convertLayout s "ru" "en" = ⟨s.data.map (mapChar RU_TO_EN)⟩ := by
    intro s
    simp [convertLayout]
  rw [e1, e2]
  apply String.ext
  show (t.data.map (mapChar EN_TO_RU)).map (mapChar RU_TO_EN) = t.data
  rw [List.map_map]
  conv_rhs => rw [← List.map_id t.data]
  apply List.map_congr_left
  intro c hc
  exact mapChar_round_trip c (h c hc)

/-- C28, at the text `lf, Hello World?` (the test pair `lf` / `да` included). -/
theorem convertLayout_round_trip_witness :
    convertLayout "lf" "en" "ru" = "да" ∧ convertLayout "да" "ru" "en" = "lf" ∧
    convertLayout (convertLayout "lf, Hello World?" "en" "ru") "ru" "en"
      = "lf, Hello World?" :=
  ⟨by decide, by decide, convertLayout_round_trip "lf, Hello World?" (by decide)⟩

end KeyboardLayouts
